import Mathlib

set_option maxRecDepth 100000

/-!
Verification of the hyperliquid single-symbol matching engine core.

This file gives a shallow embedding, in Lean 4, of the matching core of the
repository (`include/hyperliquid/order_book.h`, `order.h`,
`price_levels_array.h`, `flat_map.h`, `types.h`, `command.h`) and settles the
frozen behavioural claims about it.

Modelling conventions:
* `int64_t` ticks and quantities become `Int`; `uint64_t` identifiers,
  timestamps and hash words become `Nat` (with explicit `% 2 ^ 64` where the
  C++ arithmetic wraps).
* The dense price ladder `PriceLevelsArray` stores a `std::vector<LevelFIFO>`
  indexed by `tick - min_tick`; we model the storage as a total function
  `Int → LevelFIFO` together with the `PriceBand`, and updates as
  `Function.update`.  The `assert` inside `PriceLevelsArray::idx` is modelled
  as an explicit band check at the single call site that can receive an
  unvalidated tick from user input (the resting block of
  `submit_limit_side`); every other `get_level` call site receives a tick
  that was band-checked on entry (`is_valid_price` guards in
  `refresh_best_after_depletion` and `check_fok_liquidity`) or that came out
  of the order index, i.e. was band-checked when the order was enqueued.
  An assertion failure is modelled as the step returning `none` for the
  successor state.
* `TimestampUtil::now_ns()` (the wall clock) is modelled as an oracle: a list
  of timestamps consumed in program order, one value per call site reached.
* The order index (`FlatMap<OrderId, OrderEntry>`) is modelled inside the
  engine as an exact finite map `Nat → Option OrderEntry`; the open-addressing
  `FlatMap` itself is embedded separately, at full fidelity, further below
  (its `erase` is the subject of one claim).  The engine-level claims never
  depend on the probing layout, only on the key/value semantics.
* The event callbacks `on_trade` / `on_book_update` are assumed registered
  (as the surrounding `MatchingEngine` always does); an emitted event is an
  element of the per-command event list, in emission order.
* The iceberg/stop/expiry fields of `OrderNode` (`display_qty`, `hidden_qty`,
  `expiry_ts`, `stop_price`) are never read nor meaningfully written by the
  matching core (`replenish` has no caller there), so the embedded node
  carries only the fields the core uses: id, user, qty, ts, flags.
-/

namespace Hyperliquid

/-- `Side` from `types.h`. -/
inductive Side where
  | Bid
  | Ask
deriving DecidableEq, Repr

/-- `OrderType` from `types.h`. -/
inductive OrderType where
  | Limit
  | Market
  | StopLimit
  | StopMarket
deriving DecidableEq, Repr

/-- `TimeInForce` from `types.h`. -/
inductive TimeInForce where
  | GTC
  | IOC
  | FOK
  | GTD
deriving DecidableEq, Repr

/-- `CommandType` from `command.h`. -/
inductive CommandType where
  | NewOrder
  | CancelOrder
  | ModifyOrder
deriving DecidableEq, Repr

/-- The scalar aliases of `types.h`: `Tick = int64_t`, `Quantity = int64_t`
(both mapped to `Int`), `OrderId = uint64_t`, `UserId = uint32_t`,
`SeqNo = uint64_t`, `Timestamp = uint64_t` (all mapped to `Nat`).  The
development below writes the underlying `Int`/`Nat` directly in binders so
that arithmetic automation sees them. -/
abbrev Tick := Int

/-- `Quantity = int64_t` (see `Tick`). -/
abbrev Quantity := Int

/-- `OrderId = uint64_t` (see `Tick`). -/
abbrev OrderId := Nat

/-- `UserId = uint32_t` (see `Tick`). -/
abbrev UserId := Nat

/-- `Timestamp = uint64_t` nanoseconds (see `Tick`). -/
abbrev Timestamp := Nat

/-- `OrderFlags::STP` (`1 << 2`) from `types.h`; flags are a `uint32_t`
bitmask. -/
def STP_FLAG : Nat := 4

/-- `Sentinel::EMPTY_BID = std::numeric_limits<int64_t>::min()`. -/
def EMPTY_BID : Int := -(2 ^ 63)

/-- `Sentinel::EMPTY_ASK = std::numeric_limits<int64_t>::max()`. -/
def EMPTY_ASK : Int := 2 ^ 63 - 1

/-- `PriceBand` from `types.h` (tick_size is unused by the core). -/
structure PriceBand where
  min_tick : Int
  max_tick : Int
deriving DecidableEq, Repr

/-- The intrusive `OrderNode` of `order.h`, restricted to the fields the
matching core reads or writes (see the header comment). -/
structure OrderNode where
  id : Nat
  user : Nat
  qty : Int
  ts : Nat
  flags : Nat
deriving DecidableEq, Repr

/-- `LevelFIFO` of `order.h`: the FIFO of resting orders at one tick (head
first) together with the cached `total_qty`. -/
structure LevelFIFO where
  orders : List OrderNode
  total_qty : Int
deriving DecidableEq, Repr

namespace LevelFIFO

/-- `LevelFIFO::empty`. -/
def isEmptyLevel (l : LevelFIFO) : Bool := l.orders.isEmpty

/-- `LevelFIFO::enqueue`: link after tail, add to `total_qty`. -/
def enqueue (l : LevelFIFO) (n : OrderNode) : LevelFIFO :=
  { orders := l.orders ++ [n], total_qty := l.total_qty + n.qty }

/-- `LevelFIFO::erase` applied to the (unique) node with the given id:
relink neighbours, subtract the node's qty from `total_qty`. -/
def eraseById (l : LevelFIFO) (i : Nat) : LevelFIFO :=
  match l.orders.find? (fun m => m.id = i) with
  | none => l
  | some n =>
      { orders := l.orders.eraseP (fun m => m.id = i)
        total_qty := l.total_qty - n.qty }

/-- `LevelFIFO::reduce_qty` applied to the node with the given id. -/
def reduceQtyById (l : LevelFIFO) (i : Nat) (reduction : Int) :
    LevelFIFO :=
  { orders := l.orders.map (fun m =>
      if m.id = i then { m with qty := m.qty - reduction } else m)
    total_qty := l.total_qty - reduction }

/-- The empty level (a default-constructed `LevelFIFO`). -/
def emptyLevel : LevelFIFO := { orders := [], total_qty := 0 }

end LevelFIFO

/-- `PriceLevelsArray` of `price_levels_array.h`: the dense ladder.  The
backing vector is modelled as a total function from ticks; `best_bid_ptr_` /
`best_ask_ptr_` are not separate state because `set_best_bid`/`set_best_ask`
keep them equal to `&levels_[idx(best)]` (or null at the sentinel), so they
are derived data. -/
structure PriceLevelsArray where
  band : PriceBand
  levels : Int → LevelFIFO
  best_bid : Int
  best_ask : Int

namespace PriceLevelsArray

/-- `PriceLevelsArray::is_valid_price`. -/
def is_valid_price (a : PriceLevelsArray) (px : Int) : Bool :=
  a.band.min_tick ≤ px && px ≤ a.band.max_tick

/-- `PriceLevelsArray::get_level` (band validity of `px` is the caller's
obligation; see the header comment for where the `assert` is modelled). -/
def get_level (a : PriceLevelsArray) (px : Int) : LevelFIFO := a.levels px

/-- `PriceLevelsArray::has_level`. -/
def has_level (a : PriceLevelsArray) (px : Int) : Bool :=
  !(a.levels px).orders.isEmpty

/-- `PriceLevelsArray::set_best_bid`. -/
def set_best_bid (a : PriceLevelsArray) (px : Int) : PriceLevelsArray :=
  { a with best_bid := px }

/-- `PriceLevelsArray::set_best_ask`. -/
def set_best_ask (a : PriceLevelsArray) (px : Int) : PriceLevelsArray :=
  { a with best_ask := px }

/-- `PriceLevelsArray::best_level_ptr`: null iff the cached best is the
sentinel, otherwise the level currently stored at the cached best tick. -/
def best_level_ptr (a : PriceLevelsArray) (s : Side) : Option LevelFIFO :=
  match s with
  | Side.Bid => if a.best_bid = EMPTY_BID then none else some (a.levels a.best_bid)
  | Side.Ask => if a.best_ask = EMPTY_ASK then none else some (a.levels a.best_ask)

/-- Overwrite the level stored at one tick (a mutation through
`levels_[idx(px)]`). -/
def setLevel (a : PriceLevelsArray) (px : Int) (l : LevelFIFO) :
    PriceLevelsArray :=
  { a with levels := Function.update a.levels px l }

/-- A freshly constructed ladder: every level default-constructed, both
cached bests at their sentinels. -/
def init (band : PriceBand) : PriceLevelsArray :=
  { band := band, levels := fun _ => LevelFIFO.emptyLevel,
    best_bid := EMPTY_BID, best_ask := EMPTY_ASK }

end PriceLevelsArray

/-!
`FlatMap<Key, Value, EmptyKey = 0>` of `flat_map.h`, embedded at full
fidelity for `Key = OrderId = uint64_t`.  The table is a vector of
`capacity` entries; an entry with key `0` is an empty slot.  All `size_t`
index arithmetic is `idx & (capacity - 1)` with `capacity` a power of two.
The probe loops are bounded in the source (`find` gives up after
`capacity` probes; `erase`'s shift loop stops at the first empty slot, which
exists whenever the table is not full) — the embeddings take the same bounds
as structural fuel.
-/

/-- One slot of the `FlatMap` table: key plus value.  An empty slot holds
key `0` (the `EmptyKey` default) and an arbitrary value. -/
structure FlatEntry (α : Type) where
  key : Nat
  value : α
deriving DecidableEq, Repr

/-- `FlatMap` state: the entry vector, its capacity (a power of two) and the
number of live keys. -/
structure FlatMap (α : Type) where
  entries : List (FlatEntry α)
  capacity : Nat
  size : Nat
deriving DecidableEq, Repr

namespace FlatMap

/-- `FlatMap::hash`: the 64-bit integer mixer, with `uint64_t` overflow made
explicit. -/
def hash (k : Nat) : Nat :=
  let x0 := k % 2 ^ 64
  let x1 := x0 ^^^ (x0 >>> 33)
  let x2 := x1 * 0xff51afd7ed558ccd % 2 ^ 64
  let x3 := x2 ^^^ (x2 >>> 33)
  let x4 := x3 * 0xc4ceb9fe1a85ec53 % 2 ^ 64
  x4 ^^^ (x4 >>> 33)

/-- Read slot `i` of the table (`entries_[i]`; `i` is already masked). -/
def slot (m : FlatMap α) (default : α) (i : Nat) : FlatEntry α :=
  m.entries.getD i { key := 0, value := default }

/-- Write slot `i` of the table. -/
def setSlot (m : FlatMap α) (i : Nat) (e : FlatEntry α) : FlatMap α :=
  { m with entries := m.entries.set i e }

/-- The probe loop of `FlatMap::find`: walk from `idx` until an empty slot,
the key, or more than `capacity` probes. -/
def findLoop (m : FlatMap α) (default : α) (key : Nat) :
    Nat → Nat → Option α
  | _, 0 => none
  | idx, fuelSucc + 1 =>
      let e := m.slot default idx
      if e.key = 0 then none
      else if e.key = key then some e.value
      else findLoop m default key ((idx + 1) % m.capacity) fuelSucc

/-- `FlatMap::find` (`probes > capacity_` gives up, hence `capacity + 2`
iterations at most: the initial test plus `capacity + 1` advances). -/
def find (m : FlatMap α) (default : α) (key : Nat) : Option α :=
  if key = 0 then none
  else findLoop m default key (hash key % m.capacity) (m.capacity + 2)

/-- The probe loop of `FlatMap::insert_internal`. -/
def insertLoop (m : FlatMap α) (default : α) (key : Nat) (val : α) :
    Nat → Nat → FlatMap α
  | _, 0 => m
  | idx, fuelSucc + 1 =>
      let e := m.slot default idx
      if e.key = 0 then
        { m.setSlot idx { key := key, value := val } with size := m.size + 1 }
      else if e.key = key then
        m.setSlot idx { key := key, value := val }
      else insertLoop m default key val ((idx + 1) % m.capacity) fuelSucc

/-- `FlatMap::insert_internal`. -/
def insertInternal (m : FlatMap α) (default : α) (key : Nat) (val : α) :
    FlatMap α :=
  insertLoop m default key val (hash key % m.capacity) (m.capacity + 1)

/-- `FlatMap::resize`: allocate a fresh zeroed table of the new capacity and
re-insert every live entry. -/
def resize (m : FlatMap α) (default : α) (newCap : Nat) : FlatMap α :=
  let fresh : FlatMap α :=
    { entries := List.replicate newCap { key := 0, value := default },
      capacity := newCap, size := 0 }
  m.entries.foldl
    (fun acc e => if e.key ≠ 0 then acc.insertInternal default e.key e.value else acc)
    fresh

/-- `FlatMap::insert`: grow at load factor 0.7, then `insert_internal`.
(`size_ >= capacity_ * 0.7` on doubles; for the capacities that occur the
comparison agrees with `10 * size ≥ 7 * capacity`.) -/
def insert (m : FlatMap α) (default : α) (key : Nat) (val : α) : FlatMap α :=
  let m' := if 10 * m.size ≥ 7 * m.capacity
            then m.resize default (m.capacity * 2) else m
  m'.insertInternal default key val

/-- The backward-shift loop of `FlatMap::erase`, verbatim: `idx` is the
freshly emptied slot, `probeIdx` walks forward; an entry at `probeIdx`
whose desired (home) slot `d` satisfies `d ≤ idx ∨ d > probeIdx` is moved
into the hole — the source uses this same condition in the wrapped and the
non-wrapped case. -/
def eraseShiftLoop (default : α) :
    FlatMap α → Nat → Nat → Nat → FlatMap α
  | m, _, _, 0 => m
  | m, idx, probeIdx, fuelSucc + 1 =>
      let e := m.slot default probeIdx
      if e.key = 0 then m
      else
        let desired := hash e.key % m.capacity
        let canMove := desired ≤ idx || desired > probeIdx
        let (m', idx') :=
          if canMove then
            ((m.setSlot idx e).setSlot probeIdx
              { key := 0, value := (m.slot default probeIdx).value }, probeIdx)
          else (m, idx)
        eraseShiftLoop default m' idx' ((probeIdx + 1) % m.capacity) fuelSucc

/-- The outer probe loop of `FlatMap::erase`: find the key, empty its slot,
decrement `size_`, then run the backward shift. -/
def eraseLoop (default : α) :
    FlatMap α → Nat → Nat → Nat → FlatMap α
  | m, _, _, 0 => m
  | m, key, idx, fuelSucc + 1 =>
      let e := m.slot default idx
      if e.key = 0 then m
      else if e.key = key then
        let m' := { m.setSlot idx { key := 0, value := e.value } with
                      size := m.size - 1 }
        eraseShiftLoop default m' idx ((idx + 1) % m.capacity) m.capacity
      else eraseLoop default m key ((idx + 1) % m.capacity) fuelSucc

/-- `FlatMap::erase`. -/
def erase (m : FlatMap α) (default : α) (key : Nat) : FlatMap α :=
  eraseLoop default m key (hash key % m.capacity) (m.capacity + 1)

/-- A freshly constructed `FlatMap` of the given power-of-two capacity
(the constructor rounds the requested capacity up; the call sites in this
development pass powers of two directly). -/
def init (cap : Nat) (default : α) : FlatMap α :=
  { entries := List.replicate cap { key := 0, value := default },
    capacity := cap, size := 0 }

end FlatMap

/-- `OrderCommand` from `command.h`, restricted to the fields the matching
core reads (`stop_price`, `display_qty`, `expiry_ts` are never read by the
core). -/
structure OrderCommand where
  type : CommandType
  recv_ts : Nat
  order_id : Nat
  user_id : Nat
  price_ticks : Int
  qty : Int
  side : Side
  order_type : OrderType
  tif : TimeInForce
  flags : Nat
deriving DecidableEq, Repr

/-- `TradeEvent` from `command.h` (the `symbol_id` field is the book's
symbol). -/
structure TradeEvent where
  ts : Nat
  taker_id : Nat
  maker_id : Nat
  symbol_id : Nat
  price_ticks : Int
  qty : Int
deriving DecidableEq, Repr

/-- `BookUpdate` from `command.h`. -/
structure BookUpdate where
  ts : Nat
  symbol_id : Nat
  best_bid : Int
  best_ask : Int
  bid_qty : Int
  ask_qty : Int
deriving DecidableEq, Repr

/-- `ExecResult` from `command.h` (the `accepted` field is never written by
the core, so it is omitted). -/
structure ExecResult where
  filled : Int
  remaining : Int
deriving DecidableEq, Repr

/-- An emitted event: a call of `on_trade` or of `on_book_update`, in
program order. -/
inductive Ev where
  | trade (t : TradeEvent)
  | book (b : BookUpdate)
deriving DecidableEq, Repr

/-- `OrderBook::OrderEntry`: the value stored in the order index.  The
`node` pointer is identified by the order id (ids are unique while an order
rests), so it is not repeated here. -/
structure OrderEntry where
  side : Side
  price : Int
deriving DecidableEq, Repr

/-- The state of `OrderBook<PriceLevelsArray>`: the two ladders and the
order index (modelled as an exact map; see the header comment). -/
structure Book where
  symbol : Nat
  bids : PriceLevelsArray
  asks : PriceLevelsArray
  id_index : Nat → Option OrderEntry

namespace Book

/-- A freshly constructed book over a band. -/
def init (symbol : Nat) (band : PriceBand) : Book :=
  { symbol := symbol, bids := PriceLevelsArray.init band,
    asks := PriceLevelsArray.init band, id_index := fun _ => none }

/-- Insert into the order index (`id_index_.insert`). -/
def indexInsert (st : Book) (i : Nat) (e : OrderEntry) : Book :=
  { st with id_index := Function.update st.id_index i (some e) }

/-- Erase one key from the order index (`id_index_.erase`). -/
def indexErase (st : Book) (i : Nat) : Book :=
  { st with id_index := Function.update st.id_index i none }

/-- Erase a batch of keys from the order index (the per-maker
`id_index_.erase(maker->id)` calls of one level walk). -/
def indexEraseMany (st : Book) (ids : List Nat) : Book :=
  ids.foldl (fun acc i => acc.indexErase i) st

end Book

/-- Result of the inner (per-level) walk of
`OrderBook::match_against_side`: the level's remaining FIFO, the quantity
filled at this level, the trades emitted (in order), and the ids of the
fully filled makers (erased from the index). -/
structure LevelMatch where
  rest : List OrderNode
  filled : Int
  trades : List TradeEvent
  erased : List Nat
deriving Repr

/-- The inner `while (maker && qty > 0)` walk of
`OrderBook::match_against_side` over one level's FIFO.  For each maker:
skip if STP applies; otherwise trade `min(qty, maker.qty)` at the level
price, erase the maker if fully filled, else reduce it in place. -/
def matchLevel (symbol : Nat) (takerId : Nat) (takerUser : Nat)
    (ts : Nat) (stp : Bool) (price : Int) :
    Int → List OrderNode → LevelMatch
  | _, [] => { rest := [], filled := 0, trades := [], erased := [] }
  | qty, maker :: rest =>
      if qty ≤ 0 then
        { rest := maker :: rest, filled := 0, trades := [], erased := [] }
      else if stp && maker.user = takerUser then
        let r := matchLevel symbol takerId takerUser ts stp price qty rest
        { r with rest := maker :: r.rest }
      else
        let matchQty := min qty maker.qty
        let ev : TradeEvent :=
          { ts := ts, taker_id := takerId, maker_id := maker.id,
            symbol_id := symbol, price_ticks := price, qty := matchQty }
        if maker.qty ≤ matchQty then
          let r := matchLevel symbol takerId takerUser ts stp price
                     (qty - matchQty) rest
          { rest := r.rest, filled := matchQty + r.filled,
            trades := ev :: r.trades, erased := maker.id :: r.erased }
        else
          let r := matchLevel symbol takerId takerUser ts stp price
                     (qty - matchQty) rest
          { rest := { maker with qty := maker.qty - matchQty } :: r.rest,
            filled := matchQty + r.filled, trades := ev :: r.trades,
            erased := r.erased }

/-- The bounded downward scan of `refresh_best_after_depletion` for the bid
side: try `current_best - 1, current_best - 2, …` for at most `MAX_SEARCH`
steps, stopping at `EMPTY_BID` or the first invalid tick; success sets the
best, failure leaves the side empty. -/
def refreshScanBid (a : PriceLevelsArray) : Nat → Int → PriceLevelsArray
  | 0, _ => a.set_best_bid EMPTY_BID
  | stepsLeft + 1, px =>
      if px ≤ EMPTY_BID then a.set_best_bid EMPTY_BID
      else if ¬ a.is_valid_price px then a.set_best_bid EMPTY_BID
      else if a.has_level px then a.set_best_bid px
      else refreshScanBid a stepsLeft (px - 1)

/-- The bounded upward scan of `refresh_best_after_depletion` for the ask
side. -/
def refreshScanAsk (a : PriceLevelsArray) : Nat → Int → PriceLevelsArray
  | 0, _ => a.set_best_ask EMPTY_ASK
  | stepsLeft + 1, px =>
      if px ≥ EMPTY_ASK then a.set_best_ask EMPTY_ASK
      else if ¬ a.is_valid_price px then a.set_best_ask EMPTY_ASK
      else if a.has_level px then a.set_best_ask px
      else refreshScanAsk a stepsLeft (px + 1)

/-- `MAX_SEARCH` / `MAX_STEPS` of `order_book.h`. -/
def MAX_SEARCH : Nat := 10000

/-- `OrderBook::refresh_best_after_depletion`. -/
def refreshBestAfterDepletion (st : Book) (s : Side) : Book :=
  match s with
  | Side.Bid =>
      if st.bids.best_bid = EMPTY_BID then st
      else { st with bids := refreshScanBid st.bids MAX_SEARCH (st.bids.best_bid - 1) }
  | Side.Ask =>
      if st.asks.best_ask = EMPTY_ASK then st
      else { st with asks := refreshScanAsk st.asks MAX_SEARCH (st.asks.best_ask + 1) }

/-- Result of the outer matching loop. -/
structure MatchOut where
  st : Book
  filled : Int
  trades : List TradeEvent

/-- The outer `while (qty > 0)` loop of `OrderBook::match_against_side`.
`makersAreBids = true` is the template instance `IsBid = true` (a sell
taker sweeping the bid ladder).  The fuel bounds the number of levels
swept; callers pass one more than the number of resting orders on the maker
side, which the loop can never exhaust (each re-entry follows the depletion
of a non-empty level). -/
def matchAgainstSide (makersAreBids : Bool) (st : Book) (qty : Int)
    (pxLimit : Int) (takerId : Nat) (takerUser : Nat)
    (ts : Nat) (stp : Bool) : Nat → MatchOut
  | 0 => { st := st, filled := 0, trades := [] }
  | fuelSucc + 1 =>
      if qty ≤ 0 then { st := st, filled := 0, trades := [] }
      else
        let lad := if makersAreBids then st.bids else st.asks
        match lad.best_level_ptr (if makersAreBids then Side.Bid else Side.Ask) with
        | none => { st := st, filled := 0, trades := [] }
        | some lvl =>
            if lvl.orders.isEmpty then { st := st, filled := 0, trades := [] }
            else
              let bestPrice := if makersAreBids then lad.best_bid else lad.best_ask
              if makersAreBids ∧ bestPrice < pxLimit then
                { st := st, filled := 0, trades := [] }
              else if ¬ makersAreBids ∧ bestPrice > pxLimit then
                { st := st, filled := 0, trades := [] }
              else
                let inner := matchLevel st.symbol takerId takerUser ts stp
                               bestPrice qty lvl.orders
                let lvl' : LevelFIFO :=
                  { orders := inner.rest,
                    total_qty := lvl.total_qty - inner.filled }
                let st1 :=
                  if makersAreBids then
                    { st with bids := st.bids.setLevel bestPrice lvl' }
                  else
                    { st with asks := st.asks.setLevel bestPrice lvl' }
                let st2 := st1.indexEraseMany inner.erased
                if lvl'.orders.isEmpty then
                  let st3 := refreshBestAfterDepletion st2
                               (if makersAreBids then Side.Bid else Side.Ask)
                  let r := matchAgainstSide makersAreBids st3
                             (qty - inner.filled) pxLimit takerId takerUser
                             ts stp fuelSucc
                  { st := r.st, filled := inner.filled + r.filled,
                    trades := inner.trades ++ r.trades }
                else
                  { st := st2, filled := inner.filled, trades := inner.trades }

/-- The walk of `OrderBook::check_fok_liquidity` for a bid taker: sum
`total_qty` over ask levels walking up from the cached best, stopping at
the limit, a sentinel, an invalid tick, `MAX_STEPS`, or once enough
quantity has accumulated. -/
def fokWalkAsk (a : PriceLevelsArray) (qty : Int) (pxLimit : Int) :
    Nat → Int → Int → Int
  | 0, _, available => available
  | stepsLeft + 1, px, available =>
      if available ≥ qty then available
      else if px > pxLimit ∨ px = EMPTY_ASK then available
      else if ¬ a.is_valid_price px then available
      else
        let available' :=
          if a.has_level px then available + (a.get_level px).total_qty
          else available
        fokWalkAsk a qty pxLimit stepsLeft (px + 1) available'

/-- The walk of `OrderBook::check_fok_liquidity` for an ask taker walking
bids down. -/
def fokWalkBid (a : PriceLevelsArray) (qty : Int) (pxLimit : Int) :
    Nat → Int → Int → Int
  | 0, _, available => available
  | stepsLeft + 1, px, available =>
      if available ≥ qty then available
      else if px < pxLimit ∨ px = EMPTY_BID then available
      else if ¬ a.is_valid_price px then available
      else
        let available' :=
          if a.has_level px then available + (a.get_level px).total_qty
          else available
        fokWalkBid a qty pxLimit stepsLeft (px - 1) available'

/-- `OrderBook::check_fok_liquidity` (the template instance for a bid taker
when `takerIsBid`, else for an ask taker). -/
def checkFokLiquidity (takerIsBid : Bool) (st : Book) (qty : Int)
    (pxLimit : Int) : Bool :=
  if takerIsBid then
    let bestPrice := st.asks.best_ask
    if bestPrice = EMPTY_ASK then false
    else if bestPrice > pxLimit then false
    else fokWalkAsk st.asks qty pxLimit MAX_SEARCH bestPrice 0 ≥ qty
  else
    let bestPrice := st.bids.best_bid
    if bestPrice = EMPTY_BID then false
    else if bestPrice < pxLimit then false
    else fokWalkBid st.bids qty pxLimit MAX_SEARCH bestPrice 0 ≥ qty

/-- Number of resting orders on one ladder (summed over the band; orders
can only ever be enqueued at band-valid ticks).  `+ 1` of this quantity is
the fuel handed to `matchAgainstSide`, which each loop re-entry strictly
decreases. -/
def bandTicks (band : PriceBand) : List Int :=
  (List.range (band.max_tick - band.min_tick + 1).toNat).map
    (fun (i : Nat) => band.min_tick + (i : Int))

/-- Total number of resting orders on a ladder. -/
def sideNodeCount (a : PriceLevelsArray) : Nat :=
  ((bandTicks a.band).map (fun px => (a.levels px).orders.length)).sum

/-- Result of `OrderBook::submit_limit` / `submit_limit_side` before the
final `emit_book_update`: the trades emitted during matching, and either
the successor state with the returned `ExecResult`, or `none` when the
resting block hit the dense ladder's bounds assertion. -/
structure SubmitOut where
  trades : List TradeEvent
  out : Option (Book × ExecResult)

/-- The guarded matching phase of `OrderBook::submit_limit_side<IsBid>`:
match against the opposite ladder exactly when its cached best is not the
sentinel and crosses the limit. -/
def limitMatch (isBid : Bool) (st : Book) (cmd : OrderCommand) : MatchOut :=
  let stp := cmd.flags &&& STP_FLAG ≠ 0
  let fuel := (if isBid then sideNodeCount st.asks
               else sideNodeCount st.bids) + 1
  if isBid then
    if st.asks.best_ask ≠ EMPTY_ASK ∧ st.asks.best_ask ≤ cmd.price_ticks
    then matchAgainstSide false st cmd.qty cmd.price_ticks cmd.order_id
           cmd.user_id cmd.recv_ts stp fuel
    else { st := st, filled := 0, trades := [] }
  else
    if st.bids.best_bid ≠ EMPTY_BID ∧ st.bids.best_bid ≥ cmd.price_ticks
    then matchAgainstSide true st cmd.qty cmd.price_ticks cmd.order_id
           cmd.user_id cmd.recv_ts stp fuel
    else { st := st, filled := 0, trades := [] }

/-- `OrderBook::submit_limit_side<IsBid>` (everything up to, but not
including, the final `emit_book_update`, which every non-aborting path
performs exactly once and which the command wrapper `applyCmd` appends). -/
def submitLimitSide (isBid : Bool) (st : Book) (cmd : OrderCommand) :
    SubmitOut :=
  if cmd.tif = TimeInForce.FOK ∧
      ¬ checkFokLiquidity isBid st cmd.qty cmd.price_ticks then
    { trades := [], out := some (st, { filled := 0, remaining := 0 }) }
  else
    let m : MatchOut := limitMatch isBid st cmd
    let remaining := cmd.qty - m.filled
    if remaining > 0 then
      if cmd.tif = TimeInForce.IOC then
        { trades := m.trades, out := some (m.st, { filled := m.filled, remaining := 0 }) }
      else if cmd.tif = TimeInForce.FOK then
        { trades := m.trades, out := some (m.st, { filled := m.filled, remaining := 0 }) }
      else
        -- GTC (or GTD) resting block; `get_level` asserts band validity here
        if (if isBid then m.st.bids else m.st.asks).is_valid_price cmd.price_ticks
        then
          let node : OrderNode :=
            { id := cmd.order_id, user := cmd.user_id, qty := remaining,
              ts := cmd.recv_ts, flags := cmd.flags }
          let st1 :=
            if isBid then
              let lvl := m.st.bids.get_level cmd.price_ticks
              let withLevel := m.st.bids.setLevel cmd.price_ticks (lvl.enqueue node)
              let withBest :=
                if cmd.price_ticks > withLevel.best_bid
                then withLevel.set_best_bid cmd.price_ticks else withLevel
              { m.st with bids := withBest }
            else
              let lvl := m.st.asks.get_level cmd.price_ticks
              let withLevel := m.st.asks.setLevel cmd.price_ticks (lvl.enqueue node)
              let withBest :=
                if cmd.price_ticks < withLevel.best_ask
                then withLevel.set_best_ask cmd.price_ticks else withLevel
              { m.st with asks := withBest }
          let st2 := st1.indexInsert cmd.order_id
                       { side := if isBid then Side.Bid else Side.Ask,
                         price := cmd.price_ticks }
          { trades := m.trades,
            out := some (st2, { filled := m.filled, remaining := remaining }) }
        else { trades := m.trades, out := none }
    else
      { trades := m.trades,
        out := some (m.st, { filled := m.filled, remaining := remaining }) }

/-- `OrderBook::submit_limit`: dispatch on the taker side. -/
def submitLimit (st : Book) (cmd : OrderCommand) : SubmitOut :=
  if cmd.side = Side.Bid then submitLimitSide true st cmd
  else submitLimitSide false st cmd

/-- `OrderBook::submit_market` (everything up to the final
`emit_book_update`): match against the opposite side with the opposite
sentinel as the price limit. -/
def submitMarketCore (st : Book) (cmd : OrderCommand) : MatchOut :=
  let stp := cmd.flags &&& STP_FLAG ≠ 0
  if cmd.side = Side.Bid then
    matchAgainstSide false st cmd.qty EMPTY_ASK cmd.order_id cmd.user_id
      cmd.recv_ts stp (sideNodeCount st.asks + 1)
  else
    matchAgainstSide true st cmd.qty EMPTY_BID cmd.order_id cmd.user_id
      cmd.recv_ts stp (sideNodeCount st.bids + 1)

/-- Result of `OrderBook::cancel` before its `emit_book_update`:
whether the id was found, and the successor state (`none` only on the
unreachable dangling-node branch, where the source would free an invalid
pointer). -/
structure CancelOut where
  found : Bool
  st : Option Book

/-- `OrderBook::cancel` (everything up to the conditional
`emit_book_update`, which runs exactly when the id was found). -/
def cancelCore (st : Book) (i : Nat) : CancelOut :=
  match st.id_index i with
  | none => { found := false, st := some st }
  | some entry =>
      let lad := if entry.side = Side.Bid then st.bids else st.asks
      let lvl := lad.get_level entry.price
      match lvl.orders.find? (fun m => m.id = i) with
      | none => { found := true, st := none }
      | some _ =>
          let lvl' := lvl.eraseById i
          let st1 :=
            if entry.side = Side.Bid then
              { st with bids := st.bids.setLevel entry.price lvl' }
            else
              { st with asks := st.asks.setLevel entry.price lvl' }
          let st2 :=
            if lvl'.orders.isEmpty then
              refreshBestAfterDepletion st1 entry.side
            else st1
          { found := true, st := some (st2.indexErase i) }

/-- `BookUpdate` construction inside `OrderBook::emit_book_update`;
`now` is the freshly read wall-clock value. -/
def mkBookUpdate (st : Book) (now : Nat) : BookUpdate :=
  let bb := st.bids.best_bid
  let ba := st.asks.best_ask
  { ts := now, symbol_id := st.symbol, best_bid := bb, best_ask := ba,
    bid_qty := if bb ≠ EMPTY_BID then (st.bids.get_level bb).total_qty else 0,
    ask_qty := if ba ≠ EMPTY_ASK then (st.asks.get_level ba).total_qty else 0 }

/-- One read of `TimestampUtil::now_ns()` from the wall-clock oracle. -/
def takeNow : List Nat → Nat × List Nat
  | [] => (0, [])
  | t :: r => (t, r)

/-- The value a command hands back to its caller. -/
inductive CmdResult where
  | exec (r : ExecResult)
  | cancelAck (ok : Bool)
  | aborted
deriving DecidableEq, Repr

/-- The observable outcome of one command: the events emitted (in order),
the returned value, and the successor state (`none` when an assertion
aborted the process mid-command). -/
structure StepOut where
  events : List Ev
  result : CmdResult
  next : Option Book

/-- The tail of `OrderBook::modify`'s cancel-replace path: the update
emitted by the inner `cancel(id)` (passed in as `u1`), then the
resubmission `submit_limit(new_cmd)` with its trades and final book
update. -/
def resubmitStep (st1 : Book) (oracle : List Nat)
    (newCmd : OrderCommand) (u1 : BookUpdate) : StepOut × List Nat :=
  let s := submitLimit st1 newCmd
  match s.out with
  | none =>
      ({ events := Ev.book u1 :: s.trades.map Ev.trade,
         result := CmdResult.aborted, next := none }, oracle)
  | some (st2, res) =>
      let (now2, o2) := takeNow oracle
      ({ events := Ev.book u1 :: (s.trades.map Ev.trade ++
           [Ev.book (mkBookUpdate st2 now2)]),
         result := CmdResult.exec res, next := some st2 }, o2)

/-- `OrderBook::modify`, with both wall-clock reads (the fresh
`recv_ts` of the resubmission, then one per emitted book update) drawn
from the oracle in program order. -/
def modifyStep (st : Book) (oracle : List Nat) (i : Nat)
    (newPrice : Int) (newQty : Int) : StepOut × List Nat :=
  match st.id_index i with
  | none => ({ events := [], result := CmdResult.exec { filled := 0, remaining := 0 },
               next := some st }, oracle)
  | some entry =>
      let lad := if entry.side = Side.Bid then st.bids else st.asks
      let lvl := lad.get_level entry.price
      match lvl.orders.find? (fun m => m.id = i) with
      | none => ({ events := [], result := CmdResult.aborted, next := none }, oracle)
      | some n =>
          if newPrice = entry.price ∧ newQty < n.qty then
            -- case 1: in-place shrink, priority preserved
            let diff := n.qty - newQty
            let lvl' := lvl.reduceQtyById i diff
            let st1 :=
              if entry.side = Side.Bid then
                { st with bids := st.bids.setLevel entry.price lvl' }
              else
                { st with asks := st.asks.setLevel entry.price lvl' }
            let (now, o1) := takeNow oracle
            ({ events := [Ev.book (mkBookUpdate st1 now)],
               result := CmdResult.exec { filled := 0, remaining := newQty },
               next := some st1 }, o1)
          else
            -- case 2: cancel and replace, priority lost
            let (now0, o0) := takeNow oracle
            let c := cancelCore st i
            if c.found then
              match c.st with
              | none => ({ events := [], result := CmdResult.aborted, next := none }, o0)
              | some st1 =>
                  let (now1, o1) := takeNow o0
                  let newCmd : OrderCommand :=
                    { type := CommandType.NewOrder, recv_ts := now0,
                      order_id := i, user_id := n.user,
                      price_ticks := newPrice, qty := newQty,
                      side := entry.side, order_type := OrderType.Limit,
                      tif := TimeInForce.GTC, flags := n.flags }
                  resubmitStep st1 o1 newCmd (mkBookUpdate st1 now1)
            else
              -- defensive branch in the source; unreachable (found above)
              ({ events := [], result := CmdResult.exec { filled := 0, remaining := 0 },
                 next := some st }, o0)

/-- One command through `MatchingEngine::run`'s dispatch: `NewOrder` goes
to `submit_limit` (limit) or `submit_market` (all other order types),
`CancelOrder` to `cancel`, `ModifyOrder` to `modify`.  The final
`emit_book_update` of every non-aborting book operation is appended here,
consuming one wall-clock read. -/
def applyCmd (st : Book) (oracle : List Nat) (cmd : OrderCommand) :
    StepOut × List Nat :=
  match cmd.type with
  | CommandType.NewOrder =>
      if cmd.order_type = OrderType.Limit then
        let s := submitLimit st cmd
        match s.out with
        | some (st1, res) =>
            let (now, o1) := takeNow oracle
            ({ events := s.trades.map Ev.trade ++
                 [Ev.book (mkBookUpdate st1 now)],
               result := CmdResult.exec res, next := some st1 }, o1)
        | none =>
            ({ events := s.trades.map Ev.trade, result := CmdResult.aborted,
               next := none }, oracle)
      else
        let m := submitMarketCore st cmd
        let (now, o1) := takeNow oracle
        ({ events := m.trades.map Ev.trade ++
             [Ev.book (mkBookUpdate m.st now)],
           result := CmdResult.exec
             { filled := m.filled, remaining := cmd.qty - m.filled },
           next := some m.st }, o1)
  | CommandType.CancelOrder =>
      let c := cancelCore st cmd.order_id
      if c.found then
        match c.st with
        | some st1 =>
            let (now, o1) := takeNow oracle
            ({ events := [Ev.book (mkBookUpdate st1 now)],
               result := CmdResult.cancelAck true, next := some st1 }, o1)
        | none => ({ events := [], result := CmdResult.aborted, next := none }, oracle)
      else
        ({ events := [], result := CmdResult.cancelAck false, next := some st },
         oracle)
  | CommandType.ModifyOrder => modifyStep st oracle cmd.order_id cmd.price_ticks cmd.qty

/-- The observable outcome of a command sequence. -/
structure RunOut where
  events : List Ev
  final : Option Book

/-- Run a command sequence from a state, stopping (with the events emitted
so far) if a command aborts. -/
def run (st : Book) (oracle : List Nat) :
    List OrderCommand → RunOut
  | [] => { events := [], final := some st }
  | c :: cs =>
      let (o, oracle') := applyCmd st oracle c
      match o.next with
      | none => { events := o.events, final := none }
      | some st' =>
          let r := run st' oracle' cs
          { events := o.events ++ r.events, final := r.final }

/-- The trade events of an event stream (the `TradeEvent` output log). -/
def tradesOf (evs : List Ev) : List TradeEvent :=
  evs.filterMap (fun e => match e with | Ev.trade t => some t | _ => none)

/-- The book updates of an event stream (the `BookUpdate` output log). -/
def updatesOf (evs : List Ev) : List BookUpdate :=
  evs.filterMap (fun e => match e with | Ev.book b => some b | _ => none)

/-!  Observables and predicates used by the claim statements. -/

/-- Sum of the open quantities of the nodes of one level. -/
def levelQtySum (l : LevelFIFO) : Int :=
  (l.orders.map OrderNode.qty).sum

/-- Sum of the open quantities of every node resting on a ladder (every
node ever enqueued sits at a band-valid tick). -/
def ladderQtySum (a : PriceLevelsArray) : Int :=
  ((bandTicks a.band).map (fun px => levelQtySum (a.levels px))).sum

/-- Sum of the open quantities of every node resting in the book. -/
def totalResting (st : Book) : Int :=
  ladderQtySum st.bids + ladderQtySum st.asks

/-- Sum of the quantities of a trade-event list. -/
def tradeQtySum (ts : List TradeEvent) : Int :=
  (ts.map TradeEvent.qty).sum

/-- Sum of the submitted quantities of the `NewOrder` commands of a
sequence. -/
def newQtySum (cmds : List OrderCommand) : Int :=
  ((cmds.filter (fun c => c.type = CommandType.NewOrder)).map
    OrderCommand.qty).sum

/-- A command is a plain GTC limit `NewOrder`. -/
def isGtcLimitNew (c : OrderCommand) : Prop :=
  c.type = CommandType.NewOrder ∧ c.order_type = OrderType.Limit ∧
    c.tif = TimeInForce.GTC

/-- A command does not carry the self-trade-prevention flag. -/
def noStpFlag (c : OrderCommand) : Prop := c.flags &&& STP_FLAG = 0

/-- The cached top of book is uncrossed: whenever neither cached best is
its sentinel, `best_bid < best_ask`. -/
def Uncrossed (st : Book) : Prop :=
  st.bids.best_bid ≠ EMPTY_BID → st.asks.best_ask ≠ EMPTY_ASK →
    st.bids.best_bid < st.asks.best_ask

/-- The cached best of each side is either its sentinel or a band-valid
tick holding at least one resting order (used as an auxiliary invariant). -/
def BestWF (st : Book) : Prop :=
  (st.bids.best_bid = EMPTY_BID ∨
    (st.bids.is_valid_price st.bids.best_bid = true ∧
      (st.bids.levels st.bids.best_bid).orders ≠ [])) ∧
  (st.asks.best_ask = EMPTY_ASK ∨
    (st.asks.is_valid_price st.asks.best_ask = true ∧
      (st.asks.levels st.asks.best_ask).orders ≠ []))

/-- A book update with its wall-clock timestamp field cleared. -/
def stripUpdateTs (u : BookUpdate) : BookUpdate := { u with ts := 0 }

/-- Modelled from the spec (§4.4.1 step 1): the quantity available to a bid
taker on the ask ladder, "walking the opposite ladder from the best price
outward, summing available quantity at every level whose price crosses the
limit, stopping at the first non-crossing tick, and capping the walk at
10 000 steps" — with no early exit once the submission quantity is covered
(the early exit is the code's optimisation, not part of the sentence). -/
def specFokSumAsk (a : PriceLevelsArray) (pxLimit : Int) :
    Nat → Int → Int
  | 0, _ => 0
  | stepsLeft + 1, px =>
      if px > pxLimit ∨ px = EMPTY_ASK then 0
      else if ¬ a.is_valid_price px then 0
      else
        (if a.has_level px then (a.get_level px).total_qty else 0) +
          specFokSumAsk a pxLimit stepsLeft (px + 1)

/-- Modelled from the spec: the mirror walk for an ask taker over the bid
ladder. -/
def specFokSumBid (a : PriceLevelsArray) (pxLimit : Int) :
    Nat → Int → Int
  | 0, _ => 0
  | stepsLeft + 1, px =>
      if px < pxLimit ∨ px = EMPTY_BID then 0
      else if ¬ a.is_valid_price px then 0
      else
        (if a.has_level px then (a.get_level px).total_qty else 0) +
          specFokSumBid a pxLimit stepsLeft (px - 1)

/-- Modelled from the spec: the total quantity the FOK precheck walk may
count for a taker (`0` straight away when the opposite side is empty or its
best does not cross). -/
def specFokAvailable (takerIsBid : Bool) (st : Book) (pxLimit : Int) :
    Int :=
  if takerIsBid then
    if st.asks.best_ask = EMPTY_ASK ∨ st.asks.best_ask > pxLimit then 0
    else specFokSumAsk st.asks pxLimit MAX_SEARCH st.asks.best_ask
  else
    if st.bids.best_bid = EMPTY_BID ∨ st.bids.best_bid < pxLimit then 0
    else specFokSumBid st.bids pxLimit MAX_SEARCH st.bids.best_bid

/-- Every cached level total on a ladder is non-negative (true in every
reachable state; stated as an explicit hypothesis where needed). -/
def TotalsNonneg (a : PriceLevelsArray) : Prop :=
  ∀ px : Int, 0 ≤ (a.levels px).total_qty

/-- The cached best of each side is either its sentinel or a band-valid
tick (an invariant of every reachable state, threaded through the
conservation and uncrossedness proofs). -/
def BestValid (st : Book) : Prop :=
  (st.bids.best_bid = EMPTY_BID ∨
    st.bids.is_valid_price st.bids.best_bid = true) ∧
  (st.asks.best_ask = EMPTY_ASK ∨
    st.asks.is_valid_price st.asks.best_ask = true)

/-- The cached best bid is live: sentinel, or its level holds an order. -/
def BidLive (st : Book) : Prop :=
  st.bids.best_bid = EMPTY_BID ∨
    (st.bids.levels st.bids.best_bid).orders ≠ []

/-- The cached best ask is live: sentinel, or its level holds an order. -/
def AskLive (st : Book) : Prop :=
  st.asks.best_ask = EMPTY_ASK ∨
    (st.asks.levels st.asks.best_ask).orders ≠ []

/-- Every node resting anywhere on a ladder has the STP flag clear. -/
def NodesClean (a : PriceLevelsArray) : Prop :=
  ∀ px : Int, ∀ n ∈ (a.levels px).orders, n.flags &&& STP_FLAG = 0

/-- The inductive state invariant for the no-STP uncrossed-book theorem. -/
def Inv (st : Book) : Prop :=
  BestValid st ∧ BidLive st ∧ AskLive st ∧
    NodesClean st.bids ∧ NodesClean st.asks ∧ Uncrossed st

/-!  Concrete inputs used by counterexamples and witnesses. -/

/-- The price band of the repository's own order-book tests. -/
def testBand : PriceBand := { min_tick := 100, max_tick := 200 }

/-- A fresh book over `testBand` with symbol 1. -/
def testBook : Book := Book.init 1 testBand

/-- A GTC limit `NewOrder` command. -/
def newLimitCmd (id : Nat) (u : Nat) (px : Int) (q : Int)
    (s : Side) : OrderCommand :=
  { type := CommandType.NewOrder, recv_ts := 0, order_id := id, user_id := u,
    price_ticks := px, qty := q, side := s, order_type := OrderType.Limit,
    tif := TimeInForce.GTC, flags := 0 }

/-- A market `NewOrder` command. -/
def marketCmd (id : Nat) (u : Nat) (q : Int) (s : Side) :
    OrderCommand :=
  { type := CommandType.NewOrder, recv_ts := 0, order_id := id, user_id := u,
    price_ticks := 0, qty := q, side := s, order_type := OrderType.Market,
    tif := TimeInForce.GTC, flags := 0 }

/-- A `CancelOrder` command. -/
def cancelCmd (id : Nat) : OrderCommand :=
  { type := CommandType.CancelOrder, recv_ts := 0, order_id := id,
    user_id := 0, price_ticks := 0, qty := 0, side := Side.Bid,
    order_type := OrderType.Limit, tif := TimeInForce.GTC, flags := 0 }

/-- A `ModifyOrder` command. -/
def modifyCmd (id : Nat) (px : Int) (q : Int) : OrderCommand :=
  { type := CommandType.ModifyOrder, recv_ts := 0, order_id := id,
    user_id := 0, price_ticks := px, qty := q, side := Side.Bid,
    order_type := OrderType.Limit, tif := TimeInForce.GTC, flags := 0 }

/-- A deterministic wall-clock oracle for concrete runs. -/
def testOracle : List Nat := (List.range 32).map (fun i => 1000 + i)

/-- The `IsBid` template argument chosen by `submit_limit` for a taker
side. -/
def sideIsBid : Side → Bool
  | Side.Bid => true
  | Side.Ask => false

/-- Concrete resting order used by witnesses: id 1, user 100, 10 open. -/
def witNode1 : OrderNode := { id := 1, user := 100, qty := 10, ts := 0, flags := 0 }

/-- Concrete resting order used by witnesses: id 2, user 101, 10 open. -/
def witNode2 : OrderNode := { id := 2, user := 101, qty := 10, ts := 1, flags := 0 }

/-- A book holding two bids (ids 1 and 2, 10 each) at tick 150. -/
def c6Book : Book :=
  { symbol := 1,
    bids := { band := testBand,
              levels := Function.update (fun _ => LevelFIFO.emptyLevel) 150
                { orders := [witNode1, witNode2], total_qty := 20 },
              best_bid := 150, best_ask := EMPTY_ASK },
    asks := PriceLevelsArray.init testBand,
    id_index := fun j =>
      if j = 1 then some { side := Side.Bid, price := 150 }
      else if j = 2 then some { side := Side.Bid, price := 150 }
      else none }

/-- A book holding one ask (id 1, user 100, 10 open) at tick 150. -/
def c5Book : Book :=
  { symbol := 1,
    bids := PriceLevelsArray.init testBand,
    asks := { band := testBand,
              levels := Function.update (fun _ => LevelFIFO.emptyLevel) 150
                { orders := [witNode1], total_qty := 10 },
              best_bid := EMPTY_BID, best_ask := 150 },
    id_index := fun j =>
      if j = 1 then some { side := Side.Ask, price := 150 } else none }

/-- The spec's "FOK insufficient" taker: FOK bid, 15 at tick 150. -/
def c5Cmd : OrderCommand :=
  { newLimitCmd 2 101 150 15 Side.Bid with tif := TimeInForce.FOK }

/-- Modelled from the spec (§4.4.2): the limit command a market order is
claimed to be equivalent to — same fields, order type `Limit`, TIF = IOC,
and the opposite sentinel substituted for the limit tick. -/
def marketAsLimit (cmd : OrderCommand) : OrderCommand :=
  { cmd with
    order_type := OrderType.Limit
    tif := TimeInForce.IOC
    price_ticks := if cmd.side = Side.Bid then EMPTY_ASK else EMPTY_BID }

/-!  Theorems settling the claims. -/

/-- C1: counterexample.  The spec's own "rest then cross" scenario —
`[New Bid id=1 150×10 ; New Ask id=2 145×5]` — already refutes the stated
equation: the single emitted trade has quantity 5 and the one resting node
has open quantity 5, but the accepted `NewOrder` quantities sum to 15
(each unit that trades consumes one unit of the taker **and** one unit of
the maker, so trade quantities must be counted twice). -/
theorem C1_fill_conservation_counterexample :
    (run testBook testOracle
        [newLimitCmd 1 100 150 10 Side.Bid,
         newLimitCmd 2 101 145 5 Side.Ask]).final.map
      (fun st =>
        tradeQtySum (tradesOf (run testBook testOracle
          [newLimitCmd 1 100 150 10 Side.Bid,
           newLimitCmd 2 101 145 5 Side.Ask]).events) + totalResting st)
      = some 10 ∧
    newQtySum [newLimitCmd 1 100 150 10 Side.Bid,
               newLimitCmd 2 101 145 5 Side.Ask] = 15 := by
  constructor <;> decide

/-- C2: counterexample.  A `Cancel` naming an unknown order id is a
soft-rejected command (`cancel` returns `false`), yet the code returns
before `emit_book_update`: no book update at all is emitted, where the
claim requires exactly one. -/
theorem C2_book_update_counterexample :
    (applyCmd testBook testOracle (cancelCmd 42)).1.events = [] ∧
    (applyCmd testBook testOracle (cancelCmd 42)).1.result =
      CmdResult.cancelAck false := by
  constructor <;> decide

/-- C3: counterexample.  The spec's own STP scenario (§8.8): a resting ask
of user 100 at 150, then a GTC bid of the same user at 155 with the STP
flag.  The bid skips its own resting order and rests at 155, leaving the
book crossed at rest: `best_bid = 155 ≥ best_ask = 150` with both sides
non-empty. -/
theorem C3_uncrossed_counterexample :
    (run testBook testOracle
        [newLimitCmd 1 100 150 10 Side.Ask,
         { newLimitCmd 2 100 155 5 Side.Bid with flags := STP_FLAG }]).final.map
      (fun st => (st.bids.best_bid, st.asks.best_ask)) = some (155, 150) ∧
    ¬ ((155 : Int) = EMPTY_BID) ∧ ¬ ((150 : Int) = EMPTY_ASK) ∧
    ¬ ((155 : Int) < 150) := by
  refine ⟨by decide, by decide, by decide, by decide⟩

/-- C4: counterexample.  `BookUpdate.ts` (and, through a cancel-replace
modify, `TradeEvent.ts`) is a fresh `TimestampUtil::now_ns()` read, so two
independent executions of the same command sequence — here under two
different wall clocks — produce different trade-event bytes and different
book-update bytes.  Input: bid 150×10, ask 160×10, then
`Modify(2, 150, 10)` whose resubmission crosses. -/
theorem C4_replay_determinism_counterexample :
    tradesOf (run testBook [1, 2, 3, 4, 5]
        [newLimitCmd 1 100 150 10 Side.Bid,
         newLimitCmd 2 101 160 10 Side.Ask,
         modifyCmd 2 150 10]).events ≠
      tradesOf (run testBook [11, 12, 13, 14, 15]
        [newLimitCmd 1 100 150 10 Side.Bid,
         newLimitCmd 2 101 160 10 Side.Ask,
         modifyCmd 2 150 10]).events ∧
    updatesOf (run testBook [1, 2, 3, 4, 5]
        [newLimitCmd 1 100 150 10 Side.Bid,
         newLimitCmd 2 101 160 10 Side.Ask,
         modifyCmd 2 150 10]).events ≠
      updatesOf (run testBook [11, 12, 13, 14, 15]
        [newLimitCmd 1 100 150 10 Side.Bid,
         newLimitCmd 2 101 160 10 Side.Ask,
         modifyCmd 2 150 10]).events := by
  constructor <;> decide

/-- The quantity-shrinking map of `LevelFIFO::reduce_qty` keeps every
node's id (and hence the FIFO order of ids) unchanged. -/
theorem shrink_map_ids (i : Nat) (d : Int) (l : List OrderNode) :
    (l.map (fun m => if m.id = i then { m with qty := m.qty - d } else m)).map
        OrderNode.id = l.map OrderNode.id := by
  induction l with
  | nil => rfl
  | cons a as ih =>
      by_cases ha : a.id = i <;> simp [ha, ih]

/-- After the shrinking map, the first node carrying the modified id is the
old node with its quantity reduced. -/
theorem shrink_map_find (i : Nat) (newQty : Int) (n : OrderNode) :
    ∀ l : List OrderNode, l.find? (fun m => m.id = i) = some n →
      (l.map (fun m =>
          if m.id = i then { m with qty := m.qty - (n.qty - newQty) }
          else m)).find? (fun m => m.id = i) = some { n with qty := newQty } := by
  intro l hl
  induction l with
  | nil => simp at hl
  | cons a as ih =>
      by_cases ha : a.id = i
      · rw [List.find?_cons_of_pos _ (by simpa using ha)] at hl
        have han : a = n := by simpa using hl
        subst han
        rw [List.map_cons, if_pos ha,
          List.find?_cons_of_pos _ (by simpa using ha)]
        have hsub : a.qty - (a.qty - newQty) = newQty := sub_sub_cancel _ _
        simp [hsub]
      · rw [List.find?_cons_of_neg _ (by simpa using ha)] at hl
        rw [List.map_cons, if_neg ha,
          List.find?_cons_of_neg _ (by simpa using ha)]
        exact ih hl

/-- C6: confirmed.  `Modify(id, new_price, new_qty)` with `new_price` equal
to the resting price and `new_qty` strictly below the current open
quantity shrinks the order in place: the result is
`{filled=0, remaining=new_qty}`, exactly one book update and no trade is
emitted, the order index and both cached bests are untouched, every other
level is untouched, and within the level the sequence of order ids — the
FIFO priority — is unchanged, with the modified order now open for
`new_qty`. -/
theorem C6_modify_shrink_priority (st : Book) (oracle : List Nat)
    (i : Nat) (p : Int) (newQty : Int) (e : OrderEntry)
    (n : OrderNode) (hidx : st.id_index i = some e) (hp : e.price = p)
    (hn : ((if e.side = Side.Bid then st.bids else st.asks).levels p).orders.find?
        (fun m => m.id = i) = some n)
    (hq : newQty < n.qty) :
    (modifyStep st oracle i p newQty).1.result =
        CmdResult.exec { filled := 0, remaining := newQty } ∧
    (∃ u, (modifyStep st oracle i p newQty).1.events = [Ev.book u]) ∧
    ∃ st1, (modifyStep st oracle i p newQty).1.next = some st1 ∧
      st1.id_index = st.id_index ∧
      ((if e.side = Side.Bid then st1.bids else st1.asks).levels p).orders.map
          OrderNode.id =
        ((if e.side = Side.Bid then st.bids else st.asks).levels p).orders.map
          OrderNode.id ∧
      ((if e.side = Side.Bid then st1.bids else st1.asks).levels p).orders.find?
          (fun m => m.id = i) = some { n with qty := newQty } ∧
      (∀ q : Int, q ≠ p →
        (if e.side = Side.Bid then st1.bids else st1.asks).levels q =
          (if e.side = Side.Bid then st.bids else st.asks).levels q) ∧
      (if e.side = Side.Bid then st1.asks = st.asks else st1.bids = st.bids) ∧
      st1.bids.best_bid = st.bids.best_bid ∧
      st1.asks.best_ask = st.asks.best_ask := by
  cases e with
  | mk side price =>
      have hpp : price = p := hp
      subst hpp
      cases side with
      | Bid =>
          have hn' : (st.bids.levels price).orders.find?
              (fun m => m.id = i) = some n := by simpa using hn
          simp only [show (Side.Bid = Side.Bid) = True from by simp, if_true,
            modifyStep, hidx, PriceLevelsArray.get_level, hn']
          rw [if_pos (show True ∧ newQty < n.qty from ⟨trivial, hq⟩)]
          refine ⟨rfl, ⟨_, rfl⟩, _, rfl, rfl, ?_, ?_, ?_, rfl, rfl, rfl⟩
          · simpa [PriceLevelsArray.setLevel, LevelFIFO.reduceQtyById,
              Function.update] using
              shrink_map_ids i (n.qty - newQty) (st.bids.levels price).orders
          · simpa [PriceLevelsArray.setLevel, LevelFIFO.reduceQtyById,
              Function.update] using
              shrink_map_find i newQty n (st.bids.levels price).orders hn'
          · intro q hqp
            simp [PriceLevelsArray.setLevel, Function.update, hqp]
      | Ask =>
          have hn' : (st.asks.levels price).orders.find?
              (fun m => m.id = i) = some n := by simpa using hn
          simp only [show (Side.Ask = Side.Bid) = False from by simp, if_false,
            modifyStep, hidx, PriceLevelsArray.get_level, hn']
          rw [if_pos (show True ∧ newQty < n.qty from ⟨trivial, hq⟩)]
          refine ⟨rfl, ⟨_, rfl⟩, _, rfl, rfl, ?_, ?_, ?_, rfl, rfl, rfl⟩
          · simpa [PriceLevelsArray.setLevel, LevelFIFO.reduceQtyById,
              Function.update] using
              shrink_map_ids i (n.qty - newQty) (st.asks.levels price).orders
          · simpa [PriceLevelsArray.setLevel, LevelFIFO.reduceQtyById,
              Function.update] using
              shrink_map_find i newQty n (st.asks.levels price).orders hn'
          · intro q hqp
            simp [PriceLevelsArray.setLevel, Function.update, hqp]

/-- C7: counterexample.  On an empty book, a market buy of quantity 10
returns `{filled=0, remaining=10}` (`submit_market` reports
`remaining = qty - filled`), while the corresponding limit IOC submission
at the `EMPTY_ASK` sentinel returns `{filled=0, remaining=0}` — the two
returned results differ, refuting "the same returned result, with
remaining reported as 0". -/
theorem C7_market_equivalence_counterexample :
    (applyCmd testBook testOracle (marketCmd 1 100 10 Side.Bid)).1.result =
      CmdResult.exec { filled := 0, remaining := 10 } ∧
    (applyCmd testBook testOracle
        { newLimitCmd 1 100 EMPTY_ASK 10 Side.Bid with
            tif := TimeInForce.IOC }).1.result =
      CmdResult.exec { filled := 0, remaining := 0 } := by
  constructor <;> decide

/-- Erasing index keys leaves both ladders untouched. -/
theorem indexEraseMany_ladders (ids : List Nat) :
    ∀ st : Book, (st.indexEraseMany ids).bids = st.bids ∧
      (st.indexEraseMany ids).asks = st.asks ∧
      (st.indexEraseMany ids).symbol = st.symbol := by
  induction ids with
  | nil => intro st; exact ⟨rfl, rfl, rfl⟩
  | cons i rest ih =>
      intro st
      simpa [Book.indexEraseMany, Book.indexErase] using
        ih { st with id_index := Function.update st.id_index i none }

/-- The bid refresh scan only rewrites the cached best bid. -/
theorem refreshScanBid_fields (a : PriceLevelsArray) :
    ∀ (fuel : Nat) (px : Int),
      (refreshScanBid a fuel px).band = a.band ∧
      (refreshScanBid a fuel px).levels = a.levels ∧
      (refreshScanBid a fuel px).best_ask = a.best_ask := by
  intro fuel
  induction fuel with
  | zero => intro px; exact ⟨rfl, rfl, rfl⟩
  | succ k ih =>
      intro px
      simp only [refreshScanBid]
      split
      · exact ⟨rfl, rfl, rfl⟩
      · split
        · exact ⟨rfl, rfl, rfl⟩
        · split
          · exact ⟨rfl, rfl, rfl⟩
          · exact ih (px - 1)

/-- The ask refresh scan only rewrites the cached best ask. -/
theorem refreshScanAsk_fields (a : PriceLevelsArray) :
    ∀ (fuel : Nat) (px : Int),
      (refreshScanAsk a fuel px).band = a.band ∧
      (refreshScanAsk a fuel px).levels = a.levels ∧
      (refreshScanAsk a fuel px).best_bid = a.best_bid := by
  intro fuel
  induction fuel with
  | zero => intro px; exact ⟨rfl, rfl, rfl⟩
  | succ k ih =>
      intro px
      simp only [refreshScanAsk]
      split
      · exact ⟨rfl, rfl, rfl⟩
      · split
        · exact ⟨rfl, rfl, rfl⟩
        · split
          · exact ⟨rfl, rfl, rfl⟩
          · exact ih (px + 1)

/-- `refresh_best_after_depletion` only rewrites the refreshed side's
cached best: levels, bands, the order index and the other side are kept. -/
theorem refreshBestAfterDepletion_fields (st : Book) (s : Side) :
    (refreshBestAfterDepletion st s).bids.band = st.bids.band ∧
    (refreshBestAfterDepletion st s).asks.band = st.asks.band ∧
    (refreshBestAfterDepletion st s).bids.levels = st.bids.levels ∧
    (refreshBestAfterDepletion st s).asks.levels = st.asks.levels ∧
    (refreshBestAfterDepletion st s).id_index = st.id_index ∧
    (refreshBestAfterDepletion st s).symbol = st.symbol ∧
    (refreshBestAfterDepletion st s).bids.best_ask = st.bids.best_ask ∧
    (refreshBestAfterDepletion st s).asks.best_bid = st.asks.best_bid ∧
    (s = Side.Bid → (refreshBestAfterDepletion st s).asks = st.asks) ∧
    (s = Side.Ask → (refreshBestAfterDepletion st s).bids = st.bids) := by
  cases s with
  | Bid =>
      simp only [refreshBestAfterDepletion]
      split
      · exact ⟨rfl, rfl, rfl, rfl, rfl, rfl, rfl, rfl, fun _ => rfl, fun _ => rfl⟩
      · obtain ⟨h1, h2, h3⟩ := refreshScanBid_fields st.bids MAX_SEARCH
          (st.bids.best_bid - 1)
        exact ⟨h1, rfl, h2, rfl, rfl, rfl, h3, rfl, fun _ => rfl, fun h => absurd h (by decide)⟩
  | Ask =>
      simp only [refreshBestAfterDepletion]
      split
      · exact ⟨rfl, rfl, rfl, rfl, rfl, rfl, rfl, rfl, fun _ => rfl, fun _ => rfl⟩
      · obtain ⟨h1, h2, h3⟩ := refreshScanAsk_fields st.asks MAX_SEARCH
          (st.asks.best_ask + 1)
        exact ⟨rfl, h1, rfl, h2, rfl, rfl, rfl, h3, fun h => absurd h (by decide), fun _ => rfl⟩

/-- Projection lemmas for `indexEraseMany`. -/
theorem indexEraseMany_bids (ids : List Nat) (st : Book) :
    (st.indexEraseMany ids).bids = st.bids := (indexEraseMany_ladders ids st).1

/-- Ask-side projection for `indexEraseMany`. -/
theorem indexEraseMany_asks (ids : List Nat) (st : Book) :
    (st.indexEraseMany ids).asks = st.asks := (indexEraseMany_ladders ids st).2.1

/-- Symbol projection for `indexEraseMany`. -/
theorem indexEraseMany_symbol (ids : List Nat) (st : Book) :
    (st.indexEraseMany ids).symbol = st.symbol :=
  (indexEraseMany_ladders ids st).2.2

/-- Bid refresh keeps the bid band. -/
theorem refresh_bids_band (st : Book) (s : Side) :
    (refreshBestAfterDepletion st s).bids.band = st.bids.band :=
  (refreshBestAfterDepletion_fields st s).1

/-- Refresh keeps the ask band. -/
theorem refresh_asks_band (st : Book) (s : Side) :
    (refreshBestAfterDepletion st s).asks.band = st.asks.band :=
  (refreshBestAfterDepletion_fields st s).2.1

/-- Refresh keeps the bid levels. -/
theorem refresh_bids_levels (st : Book) (s : Side) :
    (refreshBestAfterDepletion st s).bids.levels = st.bids.levels :=
  (refreshBestAfterDepletion_fields st s).2.2.1

/-- Refresh keeps the ask levels. -/
theorem refresh_asks_levels (st : Book) (s : Side) :
    (refreshBestAfterDepletion st s).asks.levels = st.asks.levels :=
  (refreshBestAfterDepletion_fields st s).2.2.2.1

/-- Refresh keeps the order index. -/
theorem refresh_id_index (st : Book) (s : Side) :
    (refreshBestAfterDepletion st s).id_index = st.id_index :=
  (refreshBestAfterDepletion_fields st s).2.2.2.2.1

/-- Refresh keeps the symbol. -/
theorem refresh_symbol (st : Book) (s : Side) :
    (refreshBestAfterDepletion st s).symbol = st.symbol :=
  (refreshBestAfterDepletion_fields st s).2.2.2.2.2.1

/-- A bid-side refresh leaves the ask ladder untouched. -/
theorem refresh_asks_of_bid (st : Book) :
    (refreshBestAfterDepletion st Side.Bid).asks = st.asks :=
  (refreshBestAfterDepletion_fields st Side.Bid).2.2.2.2.2.2.2.2.1 rfl

/-- An ask-side refresh leaves the bid ladder untouched. -/
theorem refresh_bids_of_ask (st : Book) :
    (refreshBestAfterDepletion st Side.Ask).bids = st.bids :=
  (refreshBestAfterDepletion_fields st Side.Ask).2.2.2.2.2.2.2.2.2 rfl

/-- The matching loop preserves both bands and the symbol and leaves the
taker-side ladder entirely untouched. -/
theorem matchAgainstSide_frame (mb : Bool) (l : Int) (i : Nat)
    (u : Nat) (ts : Nat) (stp : Bool) :
    ∀ (fuel : Nat) (st : Book) (q : Int),
      (matchAgainstSide mb st q l i u ts stp fuel).st.bids.band =
        st.bids.band ∧
      (matchAgainstSide mb st q l i u ts stp fuel).st.asks.band =
        st.asks.band ∧
      (matchAgainstSide mb st q l i u ts stp fuel).st.symbol = st.symbol ∧
      (mb = true → (matchAgainstSide mb st q l i u ts stp fuel).st.asks =
        st.asks) ∧
      (mb = false → (matchAgainstSide mb st q l i u ts stp fuel).st.bids =
        st.bids) := by
  intro fuel
  induction fuel with
  | zero => intro st q; exact ⟨rfl, rfl, rfl, fun _ => rfl, fun _ => rfl⟩
  | succ k ih =>
      intro st q
      simp only [matchAgainstSide]
      repeat' split
      all_goals try exact ⟨rfl, rfl, rfl, fun _ => rfl, fun _ => rfl⟩
      · -- makers are bids, level depleted, loop re-enters
        rename_i hmb hc1 hc2 hdep
        refine ⟨?_, ?_, ?_, ?_, ?_⟩
        · rw [(ih _ _).1, refresh_bids_band, indexEraseMany_bids]; try rfl
        · rw [(ih _ _).2.1, refresh_asks_band, indexEraseMany_asks]; try rfl
        · rw [(ih _ _).2.2.1, refresh_symbol, indexEraseMany_symbol]; try rfl
        · intro h
          rw [(ih _ _).2.2.2.1 h, refresh_asks_of_bid, indexEraseMany_asks]
        · exact fun h => absurd (h.symm.trans hmb) (by decide)
      · -- makers are bids, level still populated, loop stops
        rename_i hmb hc1 hc2 hdep
        refine ⟨?_, ?_, ?_, ?_, ?_⟩
        · rw [indexEraseMany_bids]; try rfl
        · rw [indexEraseMany_asks]; try rfl
        · rw [indexEraseMany_symbol]; try rfl
        · intro h; rw [indexEraseMany_asks]
        · exact fun h => absurd (h.symm.trans hmb) (by decide)
      · -- makers are asks, level depleted, loop re-enters
        rename_i hmb hc1 hc2 hdep
        refine ⟨?_, ?_, ?_, ?_, ?_⟩
        · rw [(ih _ _).1, refresh_bids_band, indexEraseMany_bids]; try rfl
        · rw [(ih _ _).2.1, refresh_asks_band, indexEraseMany_asks]; try rfl
        · rw [(ih _ _).2.2.1, refresh_symbol, indexEraseMany_symbol]; try rfl
        · exact fun h => absurd h hmb
        · intro h
          rw [(ih _ _).2.2.2.2 h, refresh_bids_of_ask, indexEraseMany_bids]
      · -- makers are asks, level still populated, loop stops
        rename_i hmb hc1 hc2 hdep
        refine ⟨?_, ?_, ?_, ?_, ?_⟩
        · rw [indexEraseMany_bids]; try rfl
        · rw [indexEraseMany_asks]; try rfl
        · rw [indexEraseMany_symbol]; try rfl
        · exact fun h => absurd h hmb
        · intro h; rw [indexEraseMany_bids]

/-- C8: the code violates the claim.  `cancel` calls
`refresh_best_after_depletion` whenever the cancelled order's level became
empty — even when that level was not the best.  The refresh scans strictly
below the (still populated) cached best and concludes the side is empty:
after `[New Bid id=1 150×10 ; New Bid id=2 140×5 ; Cancel 2]` the cached
`best_bid` is the `EMPTY_BID` sentinel although order 1 still rests at
150. -/
theorem C8_best_price_code_bug :
    (run testBook testOracle
        [newLimitCmd 1 100 150 10 Side.Bid,
         newLimitCmd 2 101 140 5 Side.Bid,
         cancelCmd 2]).final.map
      (fun st =>
        (st.bids.best_bid,
         (st.bids.levels 150).orders.map OrderNode.id)) =
      some (EMPTY_BID, [1]) := by
  decide

/-- C9: counterexample.  A GTC bid at tick 250 — outside the configured
band 100–200 — reaches the resting block, whose `get_level` call fails the
`assert` in `PriceLevelsArray::idx`: the command aborts the process
(successor state `none`) instead of completing with a soft rejection as
the claim states. -/
theorem C9_invalid_tick_counterexample :
    (run testBook testOracle [newLimitCmd 1 100 250 5 Side.Bid]).final.isNone
      = true := by
  decide

/-- Band equality transfers `is_valid_price`. -/
theorem is_valid_price_congr (a b : PriceLevelsArray) (h : a.band = b.band)
    (px : Int) : a.is_valid_price px = b.is_valid_price px := by
  simp [PriceLevelsArray.is_valid_price, h]

/-- The limit matching phase preserves both bands. -/
theorem limitMatch_bands (b : Bool) (st : Book) (cmd : OrderCommand) :
    (limitMatch b st cmd).st.bids.band = st.bids.band ∧
    (limitMatch b st cmd).st.asks.band = st.asks.band := by
  unfold limitMatch
  cases b with
  | true =>
      simp only [show ((true : Bool) = true) = True from by simp, if_true]
      constructor
      · split
        · exact (matchAgainstSide_frame _ _ _ _ _ _ _ _ _).1
        · rfl
      · split
        · exact (matchAgainstSide_frame _ _ _ _ _ _ _ _ _).2.1
        · rfl
  | false =>
      simp only [Bool.false_eq_true, if_false]
      constructor
      · split
        · exact (matchAgainstSide_frame _ _ _ _ _ _ _ _ _).1
        · rfl
      · split
        · exact (matchAgainstSide_frame _ _ _ _ _ _ _ _ _).2.1
        · rfl

/-- C9: the claim amended.  A GTC limit `NewOrder` whose residual would
rest at a tick outside the dense ladder band is not rejected gracefully:
the resting block's `get_level` fails the bounds assertion of
`PriceLevelsArray::idx` and the command aborts (no successor state), with
no node added to any price level or to the order index and no book update
emitted; the trades already executed during the command's matching phase
were already emitted through `on_trade` and remain in the output stream,
and no further wall-clock read occurs. -/
theorem C9_invalid_tick_amended (st : Book) (oracle : List Nat)
    (cmd : OrderCommand) (hty : cmd.type = CommandType.NewOrder)
    (hot : cmd.order_type = OrderType.Limit)
    (htif : cmd.tif = TimeInForce.GTC)
    (hv : (if sideIsBid cmd.side then st.bids else st.asks).is_valid_price
        cmd.price_ticks = false)
    (hrem : (limitMatch (sideIsBid cmd.side) st cmd).filled < cmd.qty) :
    (applyCmd st oracle cmd).1.next = none ∧
    (applyCmd st oracle cmd).1.result = CmdResult.aborted ∧
    (applyCmd st oracle cmd).1.events =
      ((limitMatch (sideIsBid cmd.side) st cmd).trades).map Ev.trade ∧
    (applyCmd st oracle cmd).2 = oracle := by
  have hsl : submitLimit st cmd = submitLimitSide (sideIsBid cmd.side) st cmd := by
    cases hside : cmd.side <;> simp [submitLimit, hside, sideIsBid]
  have hband : ((if sideIsBid cmd.side then
      (limitMatch (sideIsBid cmd.side) st cmd).st.bids
      else (limitMatch (sideIsBid cmd.side) st cmd).st.asks).is_valid_price
        cmd.price_ticks) = false := by
    cases hb : sideIsBid cmd.side
    · rw [if_neg (by simp), is_valid_price_congr _ st.asks
        (limitMatch_bands false st cmd).2]
      rw [hb] at hv
      simpa using hv
    · rw [if_pos rfl, is_valid_price_congr _ st.bids
        (limitMatch_bands true st cmd).1]
      rw [hb] at hv
      simpa using hv
  simp only [applyCmd, hty, hot, if_pos rfl, hsl]
  simp only [submitLimitSide]
  rw [if_neg (show ¬ (cmd.tif = TimeInForce.FOK ∧ _) from fun h => by
    rw [htif] at h; exact absurd h.1 (by decide))]
  rw [if_pos (show cmd.qty - (limitMatch (sideIsBid cmd.side) st cmd).filled > 0
    from sub_pos.mpr hrem)]
  rw [if_neg (show ¬ cmd.tif = TimeInForce.IOC from by rw [htif]; decide),
    if_neg (show ¬ cmd.tif = TimeInForce.FOK from by rw [htif]; decide)]
  rw [if_neg (show ¬ ((if sideIsBid cmd.side then
      (limitMatch (sideIsBid cmd.side) st cmd).st.bids
      else (limitMatch (sideIsBid cmd.side) st cmd).st.asks).is_valid_price
        cmd.price_ticks = true) from by rw [hband]; decide)]
  exact ⟨rfl, rfl, rfl, rfl⟩


/-- Witness for C9's amended statement: a GTC bid at out-of-band tick 250
over the band 100-200 aborts with no events. -/
theorem C9_invalid_tick_amended_witness :
    (newLimitCmd 1 100 250 5 Side.Bid).type = CommandType.NewOrder ∧
    (newLimitCmd 1 100 250 5 Side.Bid).order_type = OrderType.Limit ∧
    (newLimitCmd 1 100 250 5 Side.Bid).tif = TimeInForce.GTC ∧
    (if sideIsBid (newLimitCmd 1 100 250 5 Side.Bid).side then testBook.bids
      else testBook.asks).is_valid_price
      (newLimitCmd 1 100 250 5 Side.Bid).price_ticks = false ∧
    (limitMatch (sideIsBid (newLimitCmd 1 100 250 5 Side.Bid).side) testBook
      (newLimitCmd 1 100 250 5 Side.Bid)).filled <
      (newLimitCmd 1 100 250 5 Side.Bid).qty ∧
    ((applyCmd testBook testOracle (newLimitCmd 1 100 250 5 Side.Bid)).1.next =
        none ∧
     (applyCmd testBook testOracle (newLimitCmd 1 100 250 5 Side.Bid)).1.result =
        CmdResult.aborted ∧
     (applyCmd testBook testOracle
         (newLimitCmd 1 100 250 5 Side.Bid)).1.events =
        ((limitMatch (sideIsBid (newLimitCmd 1 100 250 5 Side.Bid).side)
          testBook (newLimitCmd 1 100 250 5 Side.Bid)).trades).map Ev.trade ∧
     (applyCmd testBook testOracle (newLimitCmd 1 100 250 5 Side.Bid)).2 =
        testOracle) :=
  ⟨by decide, by decide, by decide, by decide, by decide,
    C9_invalid_tick_amended testBook testOracle (newLimitCmd 1 100 250 5 Side.Bid)
      (by decide) (by decide) (by decide) (by decide) (by decide)⟩


/-- C10: the code violates the claim.  With the table capacity 16 of the
default `FlatMap` constructor, keys 3, 29, 33 hash to home slots 14, 15,
15; inserting them in that order places 33 in slot 0 (wrapped probe).
Erasing key 3 empties slot 14 and the backward shift — whose wrapped-case
condition is the same `desired ≤ idx ∨ desired > probeIdx` as the
non-wrapped case, hence always true once the probe wraps — moves the entry
of key 33 from slot 0 to slot 14, past its home slot 15.  A subsequent
`find(33)` probes home slot 15, hits the now-empty slot 0 and reports the
key absent, although 33 was inserted and never erased. -/
theorem C10_flatmap_erase_code_bug :
    ((((FlatMap.init 16 0).insert 0 3 103).insert 0 29 129).insert 0 33
        133).find 0 33 = some 133 ∧
    (((((FlatMap.init 16 0).insert 0 3 103).insert 0 29 129).insert 0 33
        133).erase 0 3).find 0 33 = none ∧
    (((((FlatMap.init 16 0).insert 0 3 103).insert 0 29 129).insert 0 33
        133).erase 0 3).find 0 29 = some 129 := by
  refine ⟨by decide, by decide, by decide⟩

/-- Witness for C6 at the spec's own shrink scenario: two bids of 10 at
150, `Modify(1, 150, 5)` returns `{filled=0, remaining=5}`. -/
theorem C6_modify_shrink_priority_witness :
    c6Book.id_index 1 = some { side := Side.Bid, price := 150 } ∧
    ({ side := Side.Bid, price := 150 } : OrderEntry).price = 150 ∧
    ((if ({ side := Side.Bid, price := (150 : Int) } : OrderEntry).side = Side.Bid
        then c6Book.bids else c6Book.asks).levels 150).orders.find?
      (fun m => m.id = 1) = some witNode1 ∧
    (5 : Int) < witNode1.qty ∧
    (modifyStep c6Book testOracle 1 150 5).1.result =
      CmdResult.exec { filled := 0, remaining := 5 } :=
  ⟨by decide, by decide, by decide, by decide,
    (C6_modify_shrink_priority c6Book testOracle 1 150 5
      { side := Side.Bid, price := 150 } witNode1
      (by decide) (by decide) (by decide) (by decide)).1⟩

/-- The spec-modelled FOK walk sum over the ask ladder is non-negative
when every cached level total is. -/
theorem specFokSumAsk_nonneg (a : PriceLevelsArray) (pxLimit : Int)
    (h : TotalsNonneg a) :
    ∀ (fuel : Nat) (px : Int), 0 ≤ specFokSumAsk a pxLimit fuel px := by
  intro fuel
  induction fuel with
  | zero => intro px; simp [specFokSumAsk]
  | succ k ih =>
      intro px
      simp only [specFokSumAsk]
      split
      · exact le_refl 0
      · split
        · exact le_refl 0
        · have h1 : 0 ≤ (if a.has_level px then (a.get_level px).total_qty else 0) := by
            split
            · exact h px
            · exact le_refl 0
          exact add_nonneg h1 (ih (px + 1))

/-- The spec-modelled FOK walk sum over the bid ladder is non-negative
when every cached level total is. -/
theorem specFokSumBid_nonneg (a : PriceLevelsArray) (pxLimit : Int)
    (h : TotalsNonneg a) :
    ∀ (fuel : Nat) (px : Int), 0 ≤ specFokSumBid a pxLimit fuel px := by
  intro fuel
  induction fuel with
  | zero => intro px; simp [specFokSumBid]
  | succ k ih =>
      intro px
      simp only [specFokSumBid]
      split
      · exact le_refl 0
      · split
        · exact le_refl 0
        · have h1 : 0 ≤ (if a.has_level px then (a.get_level px).total_qty else 0) := by
            split
            · exact h px
            · exact le_refl 0
          exact add_nonneg h1 (ih (px - 1))

/-- The code's FOK walk over the ask ladder (with its early exit once the
target is covered) reaches the target exactly when the accumulator plus the
spec-modelled capped crossing sum reaches it. -/
theorem fokWalkAsk_ge_iff (a : PriceLevelsArray) (qty : Int)
    (pxLimit : Int) (h : TotalsNonneg a) :
    ∀ (fuel : Nat) (px : Int) (avail : Int),
      qty ≤ fokWalkAsk a qty pxLimit fuel px avail ↔
        qty ≤ avail + specFokSumAsk a pxLimit fuel px := by
  intro fuel
  induction fuel with
  | zero => intro px avail; simp [fokWalkAsk, specFokSumAsk]
  | succ k ih =>
      intro px avail
      simp only [fokWalkAsk, specFokSumAsk]
      by_cases h1 : qty ≤ avail
      · rw [if_pos h1]
        constructor
        · intro _
          split
          · simpa using h1
          · split
            · simpa using h1
            · have h2 : 0 ≤ (if a.has_level px then (a.get_level px).total_qty else 0) := by
                split
                · exact h px
                · exact le_refl 0
              have := add_nonneg h2 (specFokSumAsk_nonneg a pxLimit h k (px + 1))
              exact le_add_of_le_of_nonneg h1 this
        · intro _; exact h1
      · rw [if_neg h1]
        split
        · simpa using fun h' => h1 h'
        · split
          · simpa using fun h' => h1 h'
          · by_cases hl : a.has_level px = true
            · rw [if_pos hl, if_pos hl, ih (px + 1) (avail + (a.get_level px).total_qty)]
              constructor <;> (intro h'; linarith [h'])
            · rw [if_neg hl, if_neg hl, ih (px + 1) avail]
              constructor <;> (intro h'; linarith [h'])

/-- Mirror of `fokWalkAsk_ge_iff` for the bid ladder. -/
theorem fokWalkBid_ge_iff (a : PriceLevelsArray) (qty : Int)
    (pxLimit : Int) (h : TotalsNonneg a) :
    ∀ (fuel : Nat) (px : Int) (avail : Int),
      qty ≤ fokWalkBid a qty pxLimit fuel px avail ↔
        qty ≤ avail + specFokSumBid a pxLimit fuel px := by
  intro fuel
  induction fuel with
  | zero => intro px avail; simp [fokWalkBid, specFokSumBid]
  | succ k ih =>
      intro px avail
      simp only [fokWalkBid, specFokSumBid]
      by_cases h1 : qty ≤ avail
      · rw [if_pos h1]
        constructor
        · intro _
          split
          · simpa using h1
          · split
            · simpa using h1
            · have h2 : 0 ≤ (if a.has_level px then (a.get_level px).total_qty else 0) := by
                split
                · exact h px
                · exact le_refl 0
              have := add_nonneg h2 (specFokSumBid_nonneg a pxLimit h k (px - 1))
              exact le_add_of_le_of_nonneg h1 this
        · intro _; exact h1
      · rw [if_neg h1]
        split
        · simpa using fun h' => h1 h'
        · split
          · simpa using fun h' => h1 h'
          · by_cases hl : a.has_level px = true
            · rw [if_pos hl, if_pos hl, ih (px - 1) (avail + (a.get_level px).total_qty)]
              constructor <;> (intro h'; linarith [h'])
            · rw [if_neg hl, if_neg hl, ih (px - 1) avail]
              constructor <;> (intro h'; linarith [h'])

/-- When the spec-modelled crossing sum is strictly below the submitted
quantity, `check_fok_liquidity` reports insufficient liquidity. -/
theorem checkFok_eq_false_of_spec_lt (tb : Bool) (st : Book) (qty : Int)
    (pxLimit : Int)
    (h : TotalsNonneg (if tb then st.asks else st.bids))
    (hs : specFokAvailable tb st pxLimit < qty) :
    checkFokLiquidity tb st qty pxLimit = false := by
  cases tb with
  | true =>
      simp only [if_true] at h
      simp only [checkFokLiquidity, if_true]
      by_cases h1 : st.asks.best_ask = EMPTY_ASK
      · rw [if_pos h1]
      · rw [if_neg h1]
        by_cases h2 : st.asks.best_ask > pxLimit
        · rw [if_pos h2]
        · rw [if_neg h2]
          have hspec : specFokAvailable true st pxLimit =
              specFokSumAsk st.asks pxLimit MAX_SEARCH st.asks.best_ask := by
            simp only [specFokAvailable, if_true]
            rw [if_neg (by push_neg; exact ⟨h1, not_lt.mp h2⟩)]
          rw [hspec] at hs
          have hwalk := fokWalkAsk_ge_iff st.asks qty pxLimit h MAX_SEARCH
            st.asks.best_ask 0
          simp only [zero_add] at hwalk
          have : ¬ qty ≤ fokWalkAsk st.asks qty pxLimit MAX_SEARCH
              st.asks.best_ask 0 := by
            rw [hwalk]; exact not_le.mpr hs
          simpa using this
  | false =>
      simp only [Bool.false_eq_true, if_false] at h
      simp only [checkFokLiquidity, Bool.false_eq_true, if_false]
      by_cases h1 : st.bids.best_bid = EMPTY_BID
      · rw [if_pos h1]
      · rw [if_neg h1]
        by_cases h2 : st.bids.best_bid < pxLimit
        · rw [if_pos h2]
        · rw [if_neg h2]
          have hspec : specFokAvailable false st pxLimit =
              specFokSumBid st.bids pxLimit MAX_SEARCH st.bids.best_bid := by
            simp only [specFokAvailable, Bool.false_eq_true, if_false]
            rw [if_neg (by push_neg; exact ⟨h1, not_lt.mp h2⟩)]
          rw [hspec] at hs
          have hwalk := fokWalkBid_ge_iff st.bids qty pxLimit h MAX_SEARCH
            st.bids.best_bid 0
          simp only [zero_add] at hwalk
          have : ¬ qty ≤ fokWalkBid st.bids qty pxLimit MAX_SEARCH
              st.bids.best_bid 0 := by
            rw [hwalk]; exact not_le.mpr hs
          simpa using this

/-- `tradesOf` distributes over concatenation. -/
theorem tradesOf_append (a b : List Ev) :
    tradesOf (a ++ b) = tradesOf a ++ tradesOf b := by
  simp [tradesOf]

/-- `updatesOf` distributes over concatenation. -/
theorem updatesOf_append (a b : List Ev) :
    updatesOf (a ++ b) = updatesOf a ++ updatesOf b := by
  simp [updatesOf]

/-- The trades of a pure trade stream are the trades themselves. -/
theorem tradesOf_map_trade (ts : List TradeEvent) :
    tradesOf (ts.map Ev.trade) = ts := by
  induction ts with
  | nil => rfl
  | cons t r ih => simp [tradesOf] at ih ⊢; exact ih

/-- A pure trade stream holds no book update. -/
theorem updatesOf_map_trade (ts : List TradeEvent) :
    updatesOf (ts.map Ev.trade) = [] := by
  induction ts with
  | nil => rfl
  | cons t r ih => simpa [updatesOf] using ih

/-- A book update depends on the wall clock only through its `ts` field. -/
theorem stripUpdateTs_mkBookUpdate (st : Book) (n : Nat) :
    stripUpdateTs (mkBookUpdate st n) = mkBookUpdate st 0 := rfl

/-- A `NewOrder` or `Cancel` command reads the wall clock only for the
`ts` fields of its emitted book updates: the successor state, the trade
events (bytes included) and the timestamp-stripped book updates are
independent of the oracle. -/
theorem applyCmd_oracle_indep (st : Book) (o1 o2 : List Nat)
    (cmd : OrderCommand) (h : cmd.type ≠ CommandType.ModifyOrder) :
    (applyCmd st o1 cmd).1.next = (applyCmd st o2 cmd).1.next ∧
    tradesOf (applyCmd st o1 cmd).1.events =
      tradesOf (applyCmd st o2 cmd).1.events ∧
    (updatesOf (applyCmd st o1 cmd).1.events).map stripUpdateTs =
      (updatesOf (applyCmd st o2 cmd).1.events).map stripUpdateTs := by
  cases hty : cmd.type with
  | ModifyOrder => exact absurd hty h
  | NewOrder =>
      simp only [applyCmd, hty]
      by_cases hot : cmd.order_type = OrderType.Limit
      · simp only [hot, if_true]
        cases hout : (submitLimit st cmd).out with
        | none => exact ⟨rfl, rfl, rfl⟩
        | some p =>
            obtain ⟨st', res⟩ := p
            refine ⟨rfl, ?_, ?_⟩
            · simp [tradesOf_append, tradesOf_map_trade, tradesOf]
            · simp [updatesOf_append, updatesOf_map_trade, updatesOf,
                stripUpdateTs_mkBookUpdate]
      · simp only [hot, if_false]
        refine ⟨by trivial, ?_, ?_⟩
        · rw [tradesOf_append, tradesOf_append]
          simp [tradesOf]
        · rw [updatesOf_append, updatesOf_append]
          simp [updatesOf, updatesOf_map_trade, stripUpdateTs_mkBookUpdate]
  | CancelOrder =>
      simp only [applyCmd, hty]
      by_cases hf : (cancelCore st cmd.order_id).found
      · simp only [hf, if_true]
        cases hcs : (cancelCore st cmd.order_id).st with
        | none => exact ⟨rfl, rfl, rfl⟩
        | some st1 =>
            refine ⟨rfl, ?_, ?_⟩
            · simp [tradesOf]
            · simp [updatesOf, stripUpdateTs_mkBookUpdate]
      · simp only [hf, if_false]
        exact ⟨rfl, rfl, rfl⟩

/-- C4: the claim amended.  For command sequences without `Modify`, two
executions under arbitrary wall clocks produce byte-identical trade-event
streams, book-update streams that are identical except for their `ts`
fields, and the same final state.  (With the same wall-clock readings the
two runs of any sequence are literally the same function application, so
all streams coincide; `Modify` injects the clock into the resubmission's
`recv_ts` and hence into trade bytes — see the counterexample.) -/
theorem C4_replay_determinism_amended :
    ∀ (S : List OrderCommand),
      (∀ c ∈ S, c.type ≠ CommandType.ModifyOrder) →
      ∀ (st : Book) (o1 o2 : List Nat),
        tradesOf (run st o1 S).events = tradesOf (run st o2 S).events ∧
        (updatesOf (run st o1 S).events).map stripUpdateTs =
          (updatesOf (run st o2 S).events).map stripUpdateTs ∧
        (run st o1 S).final = (run st o2 S).final := by
  intro S
  induction S with
  | nil => intro _ st o1 o2; exact ⟨rfl, rfl, rfl⟩
  | cons c cs ih =>
      intro h st o1 o2
      obtain ⟨hnext, htr, hup⟩ :=
        applyCmd_oracle_indep st o1 o2 c (h c (List.mem_cons_self c cs))
      have hcs : ∀ c' ∈ cs, c'.type ≠ CommandType.ModifyOrder :=
        fun c' hc' => h c' (List.mem_cons_of_mem c hc')
      simp only [run]
      cases hn1 : (applyCmd st o1 c).1.next with
      | none =>
          rw [hn1] at hnext
          rw [← hnext]
          refine ⟨?_, ?_, ?_⟩
          · exact htr
          · exact hup
          · rfl
      | some st' =>
          rw [hn1] at hnext
          rw [← hnext]
          obtain ⟨ihtr, ihup, ihfin⟩ := ih hcs st' (applyCmd st o1 c).2
            (applyCmd st o2 c).2
          refine ⟨?_, ?_, ?_⟩
          · rw [tradesOf_append, tradesOf_append, htr, ihtr]
          · rw [updatesOf_append, updatesOf_append, List.map_append,
              List.map_append, hup, ihup]
          · exact ihfin


/-- Witness for C4's amended statement: a two-command modify-free sequence
under two different wall clocks. -/
theorem C4_replay_determinism_amended_witness :
    (∀ c ∈ [newLimitCmd 1 100 150 10 Side.Bid, cancelCmd 1],
      c.type ≠ CommandType.ModifyOrder) ∧
    (tradesOf (run testBook [1, 2] [newLimitCmd 1 100 150 10 Side.Bid,
        cancelCmd 1]).events =
      tradesOf (run testBook [5, 6] [newLimitCmd 1 100 150 10 Side.Bid,
        cancelCmd 1]).events ∧
     (updatesOf (run testBook [1, 2] [newLimitCmd 1 100 150 10 Side.Bid,
        cancelCmd 1]).events).map stripUpdateTs =
      (updatesOf (run testBook [5, 6] [newLimitCmd 1 100 150 10 Side.Bid,
        cancelCmd 1]).events).map stripUpdateTs ∧
     (run testBook [1, 2] [newLimitCmd 1 100 150 10 Side.Bid,
        cancelCmd 1]).final =
      (run testBook [5, 6] [newLimitCmd 1 100 150 10 Side.Bid,
        cancelCmd 1]).final) :=
  ⟨by decide,
    C4_replay_determinism_amended
      [newLimitCmd 1 100 150 10 Side.Bid, cancelCmd 1] (by decide) testBook
      [1, 2] [5, 6]⟩


/-- C5: confirmed.  A limit FOK `NewOrder` whose spec-described crossing
walk (from the opposite best outward, capped at 10 000 steps) sums to
strictly less than the submitted quantity is killed: the command returns
`{filled=0, remaining=0}`, emits no trade and exactly one book update, and
the successor state is the input state — every resting order and both
cached best prices unchanged. -/
theorem C5_fok_insufficient (st : Book) (oracle : List Nat)
    (cmd : OrderCommand) (htype : cmd.type = CommandType.NewOrder)
    (hot : cmd.order_type = OrderType.Limit)
    (htif : cmd.tif = TimeInForce.FOK) (hq : 0 < cmd.qty)
    (hnn : TotalsNonneg (if sideIsBid cmd.side then st.asks else st.bids))
    (hs : specFokAvailable (sideIsBid cmd.side) st cmd.price_ticks < cmd.qty) :
    applyCmd st oracle cmd =
      ({ events := [Ev.book (mkBookUpdate st (takeNow oracle).1)],
         result := CmdResult.exec { filled := 0, remaining := 0 },
         next := some st }, (takeNow oracle).2) := by
  have hcheck := checkFok_eq_false_of_spec_lt (sideIsBid cmd.side) st cmd.qty
    cmd.price_ticks hnn hs
  cases hside : cmd.side with
  | Bid =>
      rw [hside] at hcheck
      simp only [sideIsBid] at hcheck
      simp [applyCmd, htype, hot, submitLimit, hside, submitLimitSide, htif,
        hcheck]
  | Ask =>
      rw [hside] at hcheck
      simp only [sideIsBid] at hcheck
      simp [applyCmd, htype, hot, submitLimit, hside, submitLimitSide, htif,
        hcheck]

/-- Witness for C5 at the spec's "FOK insufficient" scenario: one resting
ask of 10 at 150, FOK bid of 15 at 150. -/
theorem C5_fok_insufficient_witness :
    c5Cmd.type = CommandType.NewOrder ∧
    c5Cmd.order_type = OrderType.Limit ∧
    c5Cmd.tif = TimeInForce.FOK ∧ (0 : Int) < c5Cmd.qty ∧
    TotalsNonneg (if sideIsBid c5Cmd.side then c5Book.asks else c5Book.bids) ∧
    specFokAvailable (sideIsBid c5Cmd.side) c5Book c5Cmd.price_ticks <
      c5Cmd.qty ∧
    applyCmd c5Book testOracle c5Cmd =
      ({ events := [Ev.book (mkBookUpdate c5Book (takeNow testOracle).1)],
         result := CmdResult.exec { filled := 0, remaining := 0 },
         next := some c5Book }, (takeNow testOracle).2) := by
  have hnn : TotalsNonneg (if sideIsBid c5Cmd.side then c5Book.asks
      else c5Book.bids) := by
    intro px
    by_cases hpx : px = (150 : Int) <;>
      simp [c5Cmd, c5Book, sideIsBid, newLimitCmd, Function.update, hpx,
        LevelFIFO.emptyLevel]
  refine ⟨by decide, by decide, by decide, by decide, hnn, by decide, ?_⟩
  exact C5_fok_insufficient c5Book testOracle c5Cmd (by decide) (by decide)
    (by decide) (by decide) hnn (by decide)

/-- A non-aborting cancel-replace resubmission emits the passed-in cancel
update, then its trades, then one final book update. -/
theorem resubmitStep_events_of_next (st1 : Book) (oracle : List Nat)
    (newCmd : OrderCommand) (u1 : BookUpdate) (st2 : Book)
    (hnext : (resubmitStep st1 oracle newCmd u1).1.next = some st2) :
    ∃ (ts : List TradeEvent) (u2 : BookUpdate),
      (resubmitStep st1 oracle newCmd u1).1.events =
        Ev.book u1 :: (ts.map Ev.trade ++ [Ev.book u2]) := by
  simp only [resubmitStep] at hnext ⊢
  cases hout : (submitLimit st1 newCmd).out with
  | none => rw [hout] at hnext; simp at hnext
  | some p =>
      obtain ⟨st', res⟩ := p
      exact ⟨(submitLimit st1 newCmd).trades, _, rfl⟩

/-- C2: the claim amended.  What the code actually guarantees per
command: every non-aborting `NewOrder` (limit — any time-in-force,
including a rejected FOK — or market) emits its trades first and then
exactly one book update; a `Cancel` of a known id emits exactly one book
update; a `Cancel` of an unknown id emits nothing and returns `false`; a
`Modify` of an unknown id emits nothing and returns `{0,0}`; an in-place
shrink `Modify` emits exactly one book update; a cancel-replace `Modify`
emits two — the cancel's update first, then the resubmission's trades,
then the final update.  (The original claim fails on the unknown-id and
cancel-replace cases; see the counterexample.) -/
theorem C2_book_update_amended :
    (∀ (st : Book) (oracle : List Nat) (cmd : OrderCommand) (st1 : Book),
       cmd.type = CommandType.NewOrder →
       (applyCmd st oracle cmd).1.next = some st1 →
       ∃ (ts : List TradeEvent) (u : BookUpdate),
         (applyCmd st oracle cmd).1.events = ts.map Ev.trade ++ [Ev.book u]) ∧
    (∀ (st : Book) (oracle : List Nat) (cmd : OrderCommand) (st1 : Book),
       cmd.type = CommandType.CancelOrder →
       st.id_index cmd.order_id ≠ none →
       (applyCmd st oracle cmd).1.next = some st1 →
       ∃ u : BookUpdate, (applyCmd st oracle cmd).1.events = [Ev.book u]) ∧
    (∀ (st : Book) (oracle : List Nat) (cmd : OrderCommand),
       cmd.type = CommandType.CancelOrder →
       st.id_index cmd.order_id = none →
       (applyCmd st oracle cmd).1.events = [] ∧
       (applyCmd st oracle cmd).1.result = CmdResult.cancelAck false) ∧
    (∀ (st : Book) (oracle : List Nat) (cmd : OrderCommand),
       cmd.type = CommandType.ModifyOrder →
       st.id_index cmd.order_id = none →
       (applyCmd st oracle cmd).1.events = [] ∧
       (applyCmd st oracle cmd).1.result =
         CmdResult.exec { filled := 0, remaining := 0 }) ∧
    (∀ (st : Book) (oracle : List Nat) (cmd : OrderCommand)
       (e : OrderEntry) (n : OrderNode),
       cmd.type = CommandType.ModifyOrder →
       st.id_index cmd.order_id = some e →
       ((if e.side = Side.Bid then st.bids else st.asks).levels e.price).orders.find?
         (fun m => m.id = cmd.order_id) = some n →
       cmd.price_ticks = e.price ∧ cmd.qty < n.qty →
       ∃ u : BookUpdate, (applyCmd st oracle cmd).1.events = [Ev.book u]) ∧
    (∀ (st : Book) (oracle : List Nat) (cmd : OrderCommand)
       (e : OrderEntry) (n : OrderNode) (st2 : Book),
       cmd.type = CommandType.ModifyOrder →
       st.id_index cmd.order_id = some e →
       ((if e.side = Side.Bid then st.bids else st.asks).levels e.price).orders.find?
         (fun m => m.id = cmd.order_id) = some n →
       ¬ (cmd.price_ticks = e.price ∧ cmd.qty < n.qty) →
       (applyCmd st oracle cmd).1.next = some st2 →
       ∃ (u1 : BookUpdate) (ts : List TradeEvent) (u2 : BookUpdate),
         (applyCmd st oracle cmd).1.events =
           Ev.book u1 :: (ts.map Ev.trade ++ [Ev.book u2])) := by
  refine ⟨?_, ?_, ?_, ?_, ?_, ?_⟩
  · -- NewOrder: trades then exactly one final update
    intro st oracle cmd st1 hty hnext
    simp only [applyCmd, hty] at hnext ⊢
    by_cases hot : cmd.order_type = OrderType.Limit
    · simp only [hot, if_true] at hnext ⊢
      cases hout : (submitLimit st cmd).out with
      | none => rw [hout] at hnext; simp at hnext
      | some p =>
          obtain ⟨st', res⟩ := p
          exact ⟨(submitLimit st cmd).trades, _, rfl⟩
    · simp only [hot, if_false] at hnext ⊢
      exact ⟨(submitMarketCore st cmd).trades, _, rfl⟩
  · -- Cancel, known id
    intro st oracle cmd st1 hty hidx hnext
    simp only [applyCmd, hty] at hnext ⊢
    cases he : st.id_index cmd.order_id with
    | none => exact absurd he hidx
    | some e =>
        simp only [cancelCore, he] at hnext ⊢
        cases hfind : ((if e.side = Side.Bid then st.bids else st.asks).get_level
            e.price).orders.find? (fun m => m.id = cmd.order_id) with
        | none => rw [hfind] at hnext; simp at hnext
        | some n => exact ⟨_, rfl⟩
  · -- Cancel, unknown id
    intro st oracle cmd hty hidx
    simp only [applyCmd, hty, cancelCore, hidx]
    exact ⟨rfl, rfl⟩
  · -- Modify, unknown id
    intro st oracle cmd hty hidx
    simp only [applyCmd, hty, modifyStep, hidx]
    exact ⟨trivial, trivial⟩


  · -- Modify, in-place shrink
    intro st oracle cmd e n hty hidx hfind hcond
    simp only [applyCmd, hty, modifyStep, hidx, PriceLevelsArray.get_level,
      hfind]
    rw [if_pos hcond]
    exact ⟨_, rfl⟩
  · -- Modify, cancel-replace
    intro st oracle cmd e n st2 hty hidx hfind hcond hnext
    simp only [applyCmd, hty, modifyStep, hidx, PriceLevelsArray.get_level,
      hfind] at hnext ⊢
    rw [if_neg hcond] at hnext ⊢
    simp only [cancelCore, hidx, PriceLevelsArray.get_level, hfind] at hnext ⊢
    obtain ⟨ts, u2, hev⟩ := resubmitStep_events_of_next _ _ _ _ _ hnext
    exact ⟨_, ts, u2, hev⟩

/-- Witness for C2's amended statement: the unknown-id cancel case at a
fresh book. -/
theorem C2_book_update_amended_witness :
    (cancelCmd 7).type = CommandType.CancelOrder ∧
    testBook.id_index (cancelCmd 7).order_id = none ∧
    ((applyCmd testBook testOracle (cancelCmd 7)).1.events = [] ∧
     (applyCmd testBook testOracle (cancelCmd 7)).1.result =
       CmdResult.cancelAck false) :=
  ⟨by decide, by decide,
    C2_book_update_amended.2.2.1 testBook testOracle (cancelCmd 7)
      (by decide) (by decide)⟩

/-- One step of the matching loop against an empty ask side does
nothing. -/
theorem matchAgainstSide_asks_sentinel (st : Book) (q : Int)
    (l : Int) (i : Nat) (u : Nat) (ts : Nat) (stp : Bool)
    (k : Nat) (hb : st.asks.best_ask = EMPTY_ASK) :
    matchAgainstSide false st q l i u ts stp (k + 1) =
      { st := st, filled := 0, trades := [] } := by
  by_cases hq : q ≤ 0 <;>
    simp [matchAgainstSide, PriceLevelsArray.best_level_ptr, hb, hq]

/-- One step of the matching loop against an empty bid side does
nothing. -/
theorem matchAgainstSide_bids_sentinel (st : Book) (q : Int)
    (l : Int) (i : Nat) (u : Nat) (ts : Nat) (stp : Bool)
    (k : Nat) (hb : st.bids.best_bid = EMPTY_BID) :
    matchAgainstSide true st q l i u ts stp (k + 1) =
      { st := st, filled := 0, trades := [] } := by
  by_cases hq : q ≤ 0 <;>
    simp [matchAgainstSide, PriceLevelsArray.best_level_ptr, hb, hq]

/-- For a buy, the market matching phase coincides with the limit matching
phase of the sentinel-priced IOC counterpart. -/
theorem submitMarketCore_eq_limitMatch_bid (st : Book) (cmd : OrderCommand)
    (hside : cmd.side = Side.Bid) (hba : st.asks.best_ask ≤ EMPTY_ASK) :
    submitMarketCore st cmd = limitMatch true st (marketAsLimit cmd) := by
  simp only [submitMarketCore, limitMatch, marketAsLimit, hside]
  simp only [show (Side.Bid = Side.Bid) = True from by simp, if_true]
  by_cases hb : st.asks.best_ask = EMPTY_ASK
  · rw [if_neg (by simp [hb])]
    exact matchAgainstSide_asks_sentinel st cmd.qty EMPTY_ASK cmd.order_id
      cmd.user_id cmd.recv_ts (cmd.flags &&& STP_FLAG ≠ 0)
      (sideNodeCount st.asks) hb
  · rw [if_pos ⟨hb, hba⟩]

/-- For a sell, the market matching phase coincides with the limit matching
phase of the sentinel-priced IOC counterpart. -/
theorem submitMarketCore_eq_limitMatch_ask (st : Book) (cmd : OrderCommand)
    (hside : cmd.side = Side.Ask) (hbb : EMPTY_BID ≤ st.bids.best_bid) :
    submitMarketCore st cmd = limitMatch false st (marketAsLimit cmd) := by
  simp only [submitMarketCore, limitMatch, marketAsLimit, hside]
  simp only [show (Side.Ask = Side.Bid) = False from by simp, if_false,
    Bool.false_eq_true]
  by_cases hb : st.bids.best_bid = EMPTY_BID
  · rw [if_neg (by simp [hb])]
    exact matchAgainstSide_bids_sentinel st cmd.qty EMPTY_BID cmd.order_id
      cmd.user_id cmd.recv_ts (cmd.flags &&& STP_FLAG ≠ 0)
      (sideNodeCount st.bids) hb
  · rw [if_pos ⟨hb, hbb⟩]

/-- C7: the claim amended.  `submit_market(cmd)` and
`submit_limit(marketAsLimit cmd)` emit the same events (same trades, same
single book update), leave the same successor state, consume the same
wall-clock reads, and fill the same quantity; but the returned results
differ in `remaining`: the market path reports `qty - filled` (the
discarded residual), the IOC limit path reports `0` whenever a positive
residual was discarded. -/
theorem C7_market_is_limit_ioc_amended (st : Book) (oracle : List Nat)
    (cmd : OrderCommand) (hty : cmd.type = CommandType.NewOrder)
    (hot : cmd.order_type = OrderType.Market)
    (hbb : EMPTY_BID ≤ st.bids.best_bid)
    (hba : st.asks.best_ask ≤ EMPTY_ASK) :
    (applyCmd st oracle cmd).1.events =
        (applyCmd st oracle (marketAsLimit cmd)).1.events ∧
    (applyCmd st oracle cmd).1.next =
        (applyCmd st oracle (marketAsLimit cmd)).1.next ∧
    (applyCmd st oracle cmd).2 = (applyCmd st oracle (marketAsLimit cmd)).2 ∧
    ∃ f : Int,
      (applyCmd st oracle cmd).1.result =
          CmdResult.exec { filled := f, remaining := cmd.qty - f } ∧
      (applyCmd st oracle (marketAsLimit cmd)).1.result =
          CmdResult.exec
            { filled := f
              remaining := if cmd.qty - f > 0 then 0 else cmd.qty - f } := by
  have hmty : (marketAsLimit cmd).type = CommandType.NewOrder := hty
  have hm : submitMarketCore st cmd =
      limitMatch (sideIsBid cmd.side) st (marketAsLimit cmd) := by
    cases hside : cmd.side with
    | Bid => simpa [sideIsBid] using submitMarketCore_eq_limitMatch_bid st cmd hside hba
    | Ask => simpa [sideIsBid] using submitMarketCore_eq_limitMatch_ask st cmd hside hbb
  have hsl : submitLimit st (marketAsLimit cmd) =
      submitLimitSide (sideIsBid cmd.side) st (marketAsLimit cmd) := by
    cases hside : cmd.side with
    | Bid => simp [submitLimit, marketAsLimit, hside, sideIsBid]
    | Ask => simp [submitLimit, marketAsLimit, hside, sideIsBid]
  simp only [applyCmd, hty, hmty]
  rw [if_neg (by rw [hot]; decide),
    if_pos (show (marketAsLimit cmd).order_type = OrderType.Limit from rfl),
    hsl]
  simp only [submitLimitSide]
  rw [if_neg (show ¬ ((marketAsLimit cmd).tif = TimeInForce.FOK ∧
      ¬ checkFokLiquidity (sideIsBid cmd.side) st (marketAsLimit cmd).qty
          (marketAsLimit cmd).price_ticks = true) from by
        intro h; exact absurd h.1 (by simp [marketAsLimit]))]
  rw [hm]
  have hq : (marketAsLimit cmd).qty = cmd.qty := rfl
  rw [hq]
  generalize limitMatch (sideIsBid cmd.side) st (marketAsLimit cmd) = m
  obtain ⟨mst, mf, mtr⟩ := m
  by_cases hr : cmd.qty - mf > 0
  · rw [if_pos hr]
    simp only [show ((marketAsLimit cmd).tif = TimeInForce.IOC) = True from by
      simp [marketAsLimit], if_true]
    refine ⟨by trivial, by trivial, by trivial, mf, by trivial, ?_⟩
    rw [if_pos hr]
  · rw [if_neg hr]
    refine ⟨by trivial, by trivial, by trivial, mf, by trivial, ?_⟩
    rw [if_neg hr]

/-- Witness for C7's amended statement: a market buy of 10 against a fresh
book. -/
theorem C7_market_is_limit_ioc_amended_witness :
    (marketCmd 1 100 10 Side.Bid).type = CommandType.NewOrder ∧
    (marketCmd 1 100 10 Side.Bid).order_type = OrderType.Market ∧
    EMPTY_BID ≤ testBook.bids.best_bid ∧
    testBook.asks.best_ask ≤ EMPTY_ASK ∧
    ((applyCmd testBook testOracle (marketCmd 1 100 10 Side.Bid)).1.events =
        (applyCmd testBook testOracle
          (marketAsLimit (marketCmd 1 100 10 Side.Bid))).1.events ∧
     (applyCmd testBook testOracle (marketCmd 1 100 10 Side.Bid)).1.next =
        (applyCmd testBook testOracle
          (marketAsLimit (marketCmd 1 100 10 Side.Bid))).1.next ∧
     (applyCmd testBook testOracle (marketCmd 1 100 10 Side.Bid)).2 =
        (applyCmd testBook testOracle
          (marketAsLimit (marketCmd 1 100 10 Side.Bid))).2 ∧
     ∃ f : Int,
       (applyCmd testBook testOracle (marketCmd 1 100 10 Side.Bid)).1.result =
           CmdResult.exec
             { filled := f
               remaining := (marketCmd 1 100 10 Side.Bid).qty - f } ∧
       (applyCmd testBook testOracle
           (marketAsLimit (marketCmd 1 100 10 Side.Bid))).1.result =
           CmdResult.exec
             { filled := f
               remaining := if (marketCmd 1 100 10 Side.Bid).qty - f > 0 then 0
                 else (marketCmd 1 100 10 Side.Bid).qty - f }) :=
  ⟨by decide, by decide, by decide, by decide,
    C7_market_is_limit_ioc_amended testBook testOracle
      (marketCmd 1 100 10 Side.Bid) (by decide) (by decide) (by decide)
      (by decide)⟩

end Hyperliquid

namespace Hyperliquid

theorem bandTicks_nodup (band : PriceBand) : (bandTicks band).Nodup := by
  simp only [bandTicks]
  refine List.Nodup.map ?_ (List.nodup_range _)
  intro a b hab
  simp only at hab
  omega

theorem mem_bandTicks (band : PriceBand) (px : Int) :
    px ∈ bandTicks band ↔ band.min_tick ≤ px ∧ px ≤ band.max_tick := by
  simp only [bandTicks, List.mem_map, List.mem_range]
  constructor
  · rintro ⟨i, hi, rfl⟩
    omega
  · rintro ⟨h1, h2⟩
    refine ⟨(px - band.min_tick).toNat, by omega, by omega⟩

theorem sum_levels_update (band : PriceBand) (f : Int → LevelFIFO)
    (p : Int) (l' : LevelFIFO) (g : LevelFIFO → Int)
    (hp : p ∈ bandTicks band) :
    ((bandTicks band).map (fun px => g (Function.update f p l' px))).sum =
      ((bandTicks band).map (fun px => g (f px))).sum - g (f p) + g l' := by
  have hnd := bandTicks_nodup band
  generalize (bandTicks band) = L at hp hnd
  induction L with
  | nil => simp at hp
  | cons a rest ih =>
      rw [List.nodup_cons] at hnd
      rcases List.mem_cons.mp hp with rfl | hmem
      · have hrest : ∀ px ∈ rest, Function.update f p l' px = f px := by
          intro px hpx
          have hne : px ≠ p := by
            intro hh
            subst hh
            exact hnd.1 hpx
          exact Function.update_noteq hne _ _
        simp only [List.map_cons, List.sum_cons, Function.update_same]
        rw [List.map_congr_left (fun px hpx => by rw [hrest px hpx])]
        ring
      · have ha : Function.update f p l' a = f a := by
          have hne : a ≠ p := by
            intro hh
            subst hh
            exact hnd.1 hmem
          exact Function.update_noteq hne _ _
        simp only [List.map_cons, List.sum_cons, ha]
        rw [ih hmem hnd.2]
        ring

end Hyperliquid

namespace Hyperliquid

theorem matchLevel_sums (sym : Nat) (tid : Nat) (tu : Nat)
    (ts : Nat) (stp : Bool) (price : Int) :
    ∀ (l : List OrderNode) (q : Int),
      ((matchLevel sym tid tu ts stp price q l).rest.map OrderNode.qty).sum =
        (l.map OrderNode.qty).sum -
          (matchLevel sym tid tu ts stp price q l).filled ∧
      tradeQtySum (matchLevel sym tid tu ts stp price q l).trades =
        (matchLevel sym tid tu ts stp price q l).filled ∧
      (0 ≤ q → (matchLevel sym tid tu ts stp price q l).filled ≤ q) := by
  intro l
  induction l with
  | nil =>
      intro q
      exact ⟨by simp [matchLevel], by simp [matchLevel, tradeQtySum],
        fun h => by simpa [matchLevel] using h⟩
  | cons m rest ih =>
      intro q
      simp only [matchLevel]
      by_cases hq : q ≤ 0
      · rw [if_pos hq]
        exact ⟨by simp, by simp [tradeQtySum], fun h => by simpa using h⟩
      · rw [if_neg hq]
        push_neg at hq
        by_cases hstp : stp = true ∧ m.user = tu
        · rw [if_pos (by simpa using hstp)]
          obtain ⟨ih1, ih2, ih3⟩ := ih q
          refine ⟨?_, ih2, ih3⟩
          simp only [List.map_cons, List.sum_cons]
          omega
        · rw [if_neg (by simpa using hstp)]
          have hminq : min q m.qty ≤ q := min_le_left _ _
          obtain ⟨ih1, ih2, ih3⟩ := ih (q - min q m.qty)
          by_cases hfull : m.qty ≤ min q m.qty
          · rw [if_pos hfull]
            have hmin : min q m.qty = m.qty :=
              le_antisymm (min_le_right _ _) hfull
            refine ⟨?_, ?_, ?_⟩
            · simp only [List.map_cons, List.sum_cons]
              omega
            · simp only [tradeQtySum, List.map_cons, List.sum_cons] at ih2 ⊢
              rw [ih2]
            · intro h
              have h3 := ih3 (by omega)
              show min q m.qty +
                (matchLevel sym tid tu ts stp price (q - min q m.qty)
                  rest).filled ≤ q
              omega
          · rw [if_neg hfull]
            refine ⟨?_, ?_, ?_⟩
            · simp only [List.map_cons, List.sum_cons]
              omega
            · simp only [tradeQtySum, List.map_cons, List.sum_cons] at ih2 ⊢
              rw [ih2]
            · intro h
              have h3 := ih3 (by omega)
              show min q m.qty +
                (matchLevel sym tid tu ts stp price (q - min q m.qty)
                  rest).filled ≤ q
              omega

end Hyperliquid

namespace Hyperliquid

theorem refreshScanBid_valid (a : PriceLevelsArray) :
    ∀ (fuel : Nat) (px : Int),
      (refreshScanBid a fuel px).best_bid = EMPTY_BID ∨
        (a.is_valid_price (refreshScanBid a fuel px).best_bid = true ∧
         (a.levels (refreshScanBid a fuel px).best_bid).orders ≠ []) := by
  intro fuel
  induction fuel with
  | zero => intro px; exact Or.inl rfl
  | succ k ih =>
      intro px
      simp only [refreshScanBid]
      split
      · exact Or.inl rfl
      · split
        · exact Or.inl rfl
        · split
          · rename_i h1 h2 h3
            refine Or.inr ⟨by simpa using h2, ?_⟩
            simp only [PriceLevelsArray.has_level] at h3
            simp only [PriceLevelsArray.set_best_bid]
            intro hh
            rw [hh] at h3
            simp at h3
          · exact ih (px - 1)

theorem refreshScanAsk_valid (a : PriceLevelsArray) :
    ∀ (fuel : Nat) (px : Int),
      (refreshScanAsk a fuel px).best_ask = EMPTY_ASK ∨
        (a.is_valid_price (refreshScanAsk a fuel px).best_ask = true ∧
         (a.levels (refreshScanAsk a fuel px).best_ask).orders ≠ []) := by
  intro fuel
  induction fuel with
  | zero => intro px; exact Or.inl rfl
  | succ k ih =>
      intro px
      simp only [refreshScanAsk]
      split
      · exact Or.inl rfl
      · split
        · exact Or.inl rfl
        · split
          · rename_i h1 h2 h3
            refine Or.inr ⟨by simpa using h2, ?_⟩
            simp only [PriceLevelsArray.has_level] at h3
            simp only [PriceLevelsArray.set_best_ask]
            intro hh
            rw [hh] at h3
            simp at h3
          · exact ih (px + 1)

theorem BestValid_refresh (st : Book) (s : Side) (h : BestValid st) :
    BestValid (refreshBestAfterDepletion st s) := by
  obtain ⟨hb, ha⟩ := h
  cases s with
  | Bid =>
      constructor
      · simp only [refreshBestAfterDepletion]
        split
        · exact hb
        · rcases refreshScanBid_valid st.bids MAX_SEARCH
            (st.bids.best_bid - 1) with h | h
          · exact Or.inl h
          · refine Or.inr ?_
            rw [is_valid_price_congr _ st.bids
              (refreshScanBid_fields st.bids MAX_SEARCH _).1]
            exact h.1
      · rw [refresh_asks_of_bid]
        exact ha
  | Ask =>
      constructor
      · rw [refresh_bids_of_ask]
        exact hb
      · simp only [refreshBestAfterDepletion]
        split
        · exact ha
        · rcases refreshScanAsk_valid st.asks MAX_SEARCH
            (st.asks.best_ask + 1) with h | h
          · exact Or.inl h
          · refine Or.inr ?_
            rw [is_valid_price_congr _ st.asks
              (refreshScanAsk_fields st.asks MAX_SEARCH _).1]
            exact h.1

theorem totalResting_refresh (st : Book) (s : Side) :
    totalResting (refreshBestAfterDepletion st s) = totalResting st := by
  obtain ⟨h1, h2, h3, h4, _⟩ := refreshBestAfterDepletion_fields st s
  simp only [totalResting, ladderQtySum, h1, h2, h3, h4]

theorem totalResting_indexEraseMany (ids : List Nat) (st : Book) :
    totalResting (st.indexEraseMany ids) = totalResting st := by
  rw [totalResting, totalResting, indexEraseMany_bids, indexEraseMany_asks]

end Hyperliquid

namespace Hyperliquid

theorem tradeQtySum_append (a b : List TradeEvent) :
    tradeQtySum (a ++ b) = tradeQtySum a + tradeQtySum b := by
  simp [tradeQtySum]

theorem BestValid_transfer (st st' : Book)
    (hb : st'.bids.best_bid = st.bids.best_bid)
    (hbb : st'.bids.band = st.bids.band)
    (ha : st'.asks.best_ask = st.asks.best_ask)
    (hab : st'.asks.band = st.asks.band)
    (h : BestValid st) : BestValid st' := by
  obtain ⟨h1, h2⟩ := h
  constructor
  · rw [hb, is_valid_price_congr _ st.bids hbb]
    exact h1
  · rw [ha, is_valid_price_congr _ st.asks hab]
    exact h2

theorem best_ptr_bid_some (a : PriceLevelsArray) (lvl : LevelFIFO)
    (h : a.best_level_ptr Side.Bid = some lvl) :
    a.best_bid ≠ EMPTY_BID ∧ lvl = a.levels a.best_bid := by
  simp only [PriceLevelsArray.best_level_ptr] at h
  split at h
  · exact absurd h (by simp)
  · exact ⟨by assumption, (Option.some.inj h).symm⟩

theorem best_ptr_ask_some (a : PriceLevelsArray) (lvl : LevelFIFO)
    (h : a.best_level_ptr Side.Ask = some lvl) :
    a.best_ask ≠ EMPTY_ASK ∧ lvl = a.levels a.best_ask := by
  simp only [PriceLevelsArray.best_level_ptr] at h
  split at h
  · exact absurd h (by simp)
  · exact ⟨by assumption, (Option.some.inj h).symm⟩

theorem ladderQtySum_setLevel (a : PriceLevelsArray) (p : Int)
    (l' : LevelFIFO) (hp : p ∈ bandTicks a.band) :
    ladderQtySum (a.setLevel p l') =
      ladderQtySum a - levelQtySum (a.levels p) + levelQtySum l' := by
  simp only [ladderQtySum, PriceLevelsArray.setLevel]
  exact sum_levels_update a.band a.levels p l' levelQtySum hp

theorem mem_bandTicks_of_valid (a : PriceLevelsArray) (p : Int)
    (h : a.is_valid_price p = true) : p ∈ bandTicks a.band := by
  rw [mem_bandTicks]
  simpa [PriceLevelsArray.is_valid_price] using h

theorem bid_branch_acct (st : Book) (lvl : LevelFIFO) (lv : LevelFIFO)
    (q : Int) (tid : Nat) (tu : Nat) (ts : Nat) (stp : Bool)
    (ids : List Nat) (h : BestValid st)
    (hnb : st.bids.best_bid ≠ EMPTY_BID)
    (hlvl : lvl = st.bids.levels st.bids.best_bid)
    (hl : lv.orders = (matchLevel st.symbol tid tu ts stp
      st.bids.best_bid q lvl.orders).rest) :
    totalResting (Book.indexEraseMany
        { st with bids := st.bids.setLevel st.bids.best_bid lv } ids) =
      totalResting st -
        (matchLevel st.symbol tid tu ts stp st.bids.best_bid q
          lvl.orders).filled ∧
    BestValid (Book.indexEraseMany
        { st with bids := st.bids.setLevel st.bids.best_bid lv } ids) := by
  have hv := h.1.resolve_left hnb
  have hmem := mem_bandTicks_of_valid st.bids st.bids.best_bid hv
  constructor
  · rw [totalResting_indexEraseMany]
    have hm := (matchLevel_sums st.symbol tid tu ts stp st.bids.best_bid
      lvl.orders q).1
    simp only [totalResting]
    rw [ladderQtySum_setLevel _ _ _ hmem, ← hlvl]
    simp only [levelQtySum, hl]
    omega
  · refine BestValid_transfer st _ ?_ ?_ ?_ ?_ h
    · rw [indexEraseMany_bids]
      try rfl
    · rw [indexEraseMany_bids]
      try rfl
    · rw [indexEraseMany_asks]
      try rfl
    · rw [indexEraseMany_asks]
      try rfl

theorem ask_branch_acct (st : Book) (lvl : LevelFIFO) (lv : LevelFIFO)
    (q : Int) (tid : Nat) (tu : Nat) (ts : Nat) (stp : Bool)
    (ids : List Nat) (h : BestValid st)
    (hnb : st.asks.best_ask ≠ EMPTY_ASK)
    (hlvl : lvl = st.asks.levels st.asks.best_ask)
    (hl : lv.orders = (matchLevel st.symbol tid tu ts stp
      st.asks.best_ask q lvl.orders).rest) :
    totalResting (Book.indexEraseMany
        { st with asks := st.asks.setLevel st.asks.best_ask lv } ids) =
      totalResting st -
        (matchLevel st.symbol tid tu ts stp st.asks.best_ask q
          lvl.orders).filled ∧
    BestValid (Book.indexEraseMany
        { st with asks := st.asks.setLevel st.asks.best_ask lv } ids) := by
  have hv := h.2.resolve_left hnb
  have hmem := mem_bandTicks_of_valid st.asks st.asks.best_ask hv
  constructor
  · rw [totalResting_indexEraseMany]
    have hm := (matchLevel_sums st.symbol tid tu ts stp st.asks.best_ask
      lvl.orders q).1
    simp only [totalResting]
    rw [ladderQtySum_setLevel _ _ _ hmem, ← hlvl]
    simp only [levelQtySum, hl]
    omega
  · refine BestValid_transfer st _ ?_ ?_ ?_ ?_ h
    · rw [indexEraseMany_bids]
      try rfl
    · rw [indexEraseMany_bids]
      try rfl
    · rw [indexEraseMany_asks]
      try rfl
    · rw [indexEraseMany_asks]
      try rfl

theorem matchAgainstSide_conservation (mb : Bool) (l : Int) (tid : Nat)
    (tu : Nat) (ts : Nat) (stp : Bool) :
    ∀ (fuel : Nat) (st : Book) (q : Int), BestValid st →
      totalResting (matchAgainstSide mb st q l tid tu ts stp fuel).st =
        totalResting st -
          (matchAgainstSide mb st q l tid tu ts stp fuel).filled ∧
      tradeQtySum (matchAgainstSide mb st q l tid tu ts stp fuel).trades =
        (matchAgainstSide mb st q l tid tu ts stp fuel).filled ∧
      (0 ≤ q → (matchAgainstSide mb st q l tid tu ts stp fuel).filled ≤ q) ∧
      BestValid (matchAgainstSide mb st q l tid tu ts stp fuel).st := by
  intro fuel
  induction fuel with
  | zero =>
      intro st q h
      exact ⟨by simp [matchAgainstSide], by simp [matchAgainstSide, tradeQtySum],
        fun hh => by simpa [matchAgainstSide] using hh, h⟩
  | succ k ih =>
      intro st q h
      simp only [matchAgainstSide]
      repeat' split
      all_goals try exact ⟨by simp, by simp [tradeQtySum],
        fun hh => by simpa using hh, h⟩
      · -- makers are bids, level depleted, loop re-enters
        rename_i hq x lvl heq hne hmb hn1 hn2 hrest
        subst hmb
        simp only [eq_self_iff_true, if_true] at heq ⊢
        obtain ⟨hnb, hlvl⟩ := best_ptr_bid_some st.bids lvl heq
        obtain ⟨m1, m2, m3⟩ := matchLevel_sums st.symbol tid tu ts stp
          st.bids.best_bid lvl.orders q
        set i1 := matchLevel st.symbol tid tu ts stp st.bids.best_bid q
          lvl.orders with hi1
        obtain ⟨hacc, hbv2⟩ := bid_branch_acct st lvl
          { orders := i1.rest, total_qty := lvl.total_qty - i1.filled }
          q tid tu ts stp i1.erased h hnb hlvl (by rw [hi1])
        obtain ⟨r1, r2, r3, r4⟩ := ih
          (refreshBestAfterDepletion
            (Book.indexEraseMany
              { st with bids := st.bids.setLevel st.bids.best_bid { orders := i1.rest, total_qty := lvl.total_qty - i1.filled } }
              i1.erased)
            Side.Bid)
          (q - i1.filled) (BestValid_refresh _ _ hbv2)
        refine ⟨?_, ?_, ?_, r4⟩
        · dsimp only
          rw [r1, totalResting_refresh, hacc]
          ring
        · rw [tradeQtySum_append, m2, r2]
        · intro hq0
          have b1 := m3 hq0
          have b2 := r3 (by omega)
          omega
      · -- makers are bids, level still populated, loop stops
        rename_i hq x lvl heq hne hmb hn1 hn2 hrest
        subst hmb
        simp only [eq_self_iff_true, if_true] at heq ⊢
        obtain ⟨hnb, hlvl⟩ := best_ptr_bid_some st.bids lvl heq
        obtain ⟨m1, m2, m3⟩ := matchLevel_sums st.symbol tid tu ts stp
          st.bids.best_bid lvl.orders q
        set i1 := matchLevel st.symbol tid tu ts stp st.bids.best_bid q
          lvl.orders with hi1
        obtain ⟨hacc, hbv2⟩ := bid_branch_acct st lvl
          { orders := i1.rest, total_qty := lvl.total_qty - i1.filled }
          q tid tu ts stp i1.erased h hnb hlvl (by rw [hi1])
        exact ⟨hacc, m2, fun hq0 => m3 hq0, hbv2⟩
      · -- makers are asks, level depleted, loop re-enters
        rename_i hq x lvl heq hne hmb hn1 hn2 hrest
        have hmbf : mb = false := by revert hmb; cases mb <;> simp
        subst hmbf
        simp only [Bool.false_eq_true, if_false] at heq ⊢
        obtain ⟨hnb, hlvl⟩ := best_ptr_ask_some st.asks lvl heq
        obtain ⟨m1, m2, m3⟩ := matchLevel_sums st.symbol tid tu ts stp
          st.asks.best_ask lvl.orders q
        set i1 := matchLevel st.symbol tid tu ts stp st.asks.best_ask q
          lvl.orders with hi1
        obtain ⟨hacc, hbv2⟩ := ask_branch_acct st lvl
          { orders := i1.rest, total_qty := lvl.total_qty - i1.filled }
          q tid tu ts stp i1.erased h hnb hlvl (by rw [hi1])
        obtain ⟨r1, r2, r3, r4⟩ := ih
          (refreshBestAfterDepletion
            (Book.indexEraseMany
              { st with asks := st.asks.setLevel st.asks.best_ask { orders := i1.rest, total_qty := lvl.total_qty - i1.filled } }
              i1.erased)
            Side.Ask)
          (q - i1.filled) (BestValid_refresh _ _ hbv2)
        refine ⟨?_, ?_, ?_, r4⟩
        · dsimp only
          rw [r1, totalResting_refresh, hacc]
          ring
        · rw [tradeQtySum_append, m2, r2]
        · intro hq0
          have b1 := m3 hq0
          have b2 := r3 (by omega)
          omega
      · -- makers are asks, level still populated, loop stops
        rename_i hq x lvl heq hne hmb hn1 hn2 hrest
        have hmbf : mb = false := by revert hmb; cases mb <;> simp
        subst hmbf
        simp only [Bool.false_eq_true, if_false] at heq ⊢
        obtain ⟨hnb, hlvl⟩ := best_ptr_ask_some st.asks lvl heq
        obtain ⟨m1, m2, m3⟩ := matchLevel_sums st.symbol tid tu ts stp
          st.asks.best_ask lvl.orders q
        set i1 := matchLevel st.symbol tid tu ts stp st.asks.best_ask q
          lvl.orders with hi1
        obtain ⟨hacc, hbv2⟩ := ask_branch_acct st lvl
          { orders := i1.rest, total_qty := lvl.total_qty - i1.filled }
          q tid tu ts stp i1.erased h hnb hlvl (by rw [hi1])
        exact ⟨hacc, m2, fun hq0 => m3 hq0, hbv2⟩

end Hyperliquid

namespace Hyperliquid

theorem levelQtySum_enqueue (l : LevelFIFO) (n : OrderNode) :
    levelQtySum (l.enqueue n) = levelQtySum l + n.qty := by
  simp [levelQtySum, LevelFIFO.enqueue]

theorem totalResting_init (sym : Nat) (band : PriceBand) :
    totalResting (Book.init sym band) = 0 := by
  simp [totalResting, ladderQtySum, Book.init, PriceLevelsArray.init,
    levelQtySum, LevelFIFO.emptyLevel]

theorem BestValid_init (sym : Nat) (band : PriceBand) :
    BestValid (Book.init sym band) := ⟨Or.inl rfl, Or.inl rfl⟩

theorem limitMatch_conservation (isBid : Bool) (st : Book)
    (cmd : OrderCommand) (hbv : BestValid st) :
    totalResting (limitMatch isBid st cmd).st =
      totalResting st - (limitMatch isBid st cmd).filled ∧
    tradeQtySum (limitMatch isBid st cmd).trades =
      (limitMatch isBid st cmd).filled ∧
    (0 ≤ cmd.qty → (limitMatch isBid st cmd).filled ≤ cmd.qty) ∧
    BestValid (limitMatch isBid st cmd).st := by
  simp only [limitMatch]
  repeat' split
  all_goals try exact ⟨by simp, by simp [tradeQtySum],
    fun hh => by simpa using hh, hbv⟩
  all_goals exact matchAgainstSide_conservation _ _ _ _ _ _ _ st cmd.qty hbv

end Hyperliquid

namespace Hyperliquid

theorem totalResting_indexInsert (st : Book) (i : Nat) (e : OrderEntry) :
    totalResting (st.indexInsert i e) = totalResting st := rfl

theorem submitLimitSide_trades_not_fok (isBid : Bool) (st : Book)
    (cmd : OrderCommand) (htif : cmd.tif ≠ TimeInForce.FOK) :
    (submitLimitSide isBid st cmd).trades =
      (limitMatch isBid st cmd).trades := by
  simp only [submitLimitSide]
  rw [if_neg (by simp [htif])]
  repeat' split
  all_goals rfl

end Hyperliquid

namespace Hyperliquid

theorem submitLimitSide_conservation (isBid : Bool) (st : Book)
    (cmd : OrderCommand) (htif : cmd.tif = TimeInForce.GTC)
    (hq : 0 ≤ cmd.qty) (hbv : BestValid st) :
    ∀ st' res, (submitLimitSide isBid st cmd).out = some (st', res) →
      totalResting st' +
          2 * tradeQtySum (limitMatch isBid st cmd).trades =
        totalResting st + cmd.qty ∧
      BestValid st' := by
  cases isBid
  · obtain ⟨L1, L2, L3, L4⟩ := limitMatch_conservation false st cmd hbv
    intro st' res hout
    simp only [submitLimitSide, Bool.false_eq_true, if_false] at hout
    rw [if_neg (by simp [htif])] at hout
    by_cases hrem : cmd.qty - (limitMatch false st cmd).filled > 0
    · rw [if_pos hrem] at hout
      rw [if_neg (by simp [htif])] at hout
      rw [if_neg (by simp [htif])] at hout
      by_cases hvp : (limitMatch false st cmd).st.asks.is_valid_price
          cmd.price_ticks = true
      · rw [if_pos hvp] at hout
        simp only [Option.some.injEq, Prod.mk.injEq] at hout
        obtain ⟨h1, h2⟩ := hout
        subst h1
        have hmem := mem_bandTicks_of_valid _ _ hvp
        constructor
        · rw [L2, totalResting_indexInsert]
          simp only [totalResting] at L1 ⊢
          have hbb : ladderQtySum
              (if cmd.price_ticks <
                  ((limitMatch false st cmd).st.asks.setLevel cmd.price_ticks
                    (((limitMatch false st cmd).st.asks.get_level
                      cmd.price_ticks).enqueue
                      { id := cmd.order_id, user := cmd.user_id,
                        qty := cmd.qty - (limitMatch false st cmd).filled,
                        ts := cmd.recv_ts, flags := cmd.flags })).best_ask
                then ((limitMatch false st cmd).st.asks.setLevel
                    cmd.price_ticks
                    (((limitMatch false st cmd).st.asks.get_level
                      cmd.price_ticks).enqueue
                      { id := cmd.order_id, user := cmd.user_id,
                        qty := cmd.qty - (limitMatch false st cmd).filled,
                        ts := cmd.recv_ts, flags := cmd.flags })).set_best_ask
                    cmd.price_ticks
                else (limitMatch false st cmd).st.asks.setLevel
                    cmd.price_ticks
                    (((limitMatch false st cmd).st.asks.get_level
                      cmd.price_ticks).enqueue
                      { id := cmd.order_id, user := cmd.user_id,
                        qty := cmd.qty - (limitMatch false st cmd).filled,
                        ts := cmd.recv_ts, flags := cmd.flags })) =
              ladderQtySum ((limitMatch false st cmd).st.asks.setLevel
                cmd.price_ticks
                (((limitMatch false st cmd).st.asks.get_level
                  cmd.price_ticks).enqueue
                  { id := cmd.order_id, user := cmd.user_id,
                    qty := cmd.qty - (limitMatch false st cmd).filled,
                    ts := cmd.recv_ts, flags := cmd.flags })) := by
            split <;> rfl
          rw [hbb, ladderQtySum_setLevel _ _ _ hmem, levelQtySum_enqueue]
          simp only [PriceLevelsArray.get_level]
          omega
        · refine ⟨L4.1, ?_⟩
          split
          · exact Or.inr hvp
          · exact L4.2
      · rw [if_neg hvp] at hout
        simp at hout
    · rw [if_neg hrem] at hout
      simp only [Option.some.injEq, Prod.mk.injEq] at hout
      obtain ⟨h1, h2⟩ := hout
      subst h1
      refine ⟨?_, L4⟩
      rw [L2]
      have h3 := L3 hq
      simp only [totalResting] at L1 ⊢
      omega
  · obtain ⟨L1, L2, L3, L4⟩ := limitMatch_conservation true st cmd hbv
    intro st' res hout
    simp only [submitLimitSide, eq_self_iff_true, if_true] at hout
    rw [if_neg (by simp [htif])] at hout
    by_cases hrem : cmd.qty - (limitMatch true st cmd).filled > 0
    · rw [if_pos hrem] at hout
      rw [if_neg (by simp [htif])] at hout
      rw [if_neg (by simp [htif])] at hout
      by_cases hvp : (limitMatch true st cmd).st.bids.is_valid_price
          cmd.price_ticks = true
      · rw [if_pos hvp] at hout
        simp only [Option.some.injEq, Prod.mk.injEq] at hout
        obtain ⟨h1, h2⟩ := hout
        subst h1
        have hmem := mem_bandTicks_of_valid _ _ hvp
        constructor
        · rw [L2, totalResting_indexInsert]
          simp only [totalResting] at L1 ⊢
          have hbb : ladderQtySum
              (if cmd.price_ticks >
                  ((limitMatch true st cmd).st.bids.setLevel cmd.price_ticks
                    (((limitMatch true st cmd).st.bids.get_level
                      cmd.price_ticks).enqueue
                      { id := cmd.order_id, user := cmd.user_id,
                        qty := cmd.qty - (limitMatch true st cmd).filled,
                        ts := cmd.recv_ts, flags := cmd.flags })).best_bid
                then ((limitMatch true st cmd).st.bids.setLevel
                    cmd.price_ticks
                    (((limitMatch true st cmd).st.bids.get_level
                      cmd.price_ticks).enqueue
                      { id := cmd.order_id, user := cmd.user_id,
                        qty := cmd.qty - (limitMatch true st cmd).filled,
                        ts := cmd.recv_ts, flags := cmd.flags })).set_best_bid
                    cmd.price_ticks
                else (limitMatch true st cmd).st.bids.setLevel
                    cmd.price_ticks
                    (((limitMatch true st cmd).st.bids.get_level
                      cmd.price_ticks).enqueue
                      { id := cmd.order_id, user := cmd.user_id,
                        qty := cmd.qty - (limitMatch true st cmd).filled,
                        ts := cmd.recv_ts, flags := cmd.flags })) =
              ladderQtySum ((limitMatch true st cmd).st.bids.setLevel
                cmd.price_ticks
                (((limitMatch true st cmd).st.bids.get_level
                  cmd.price_ticks).enqueue
                  { id := cmd.order_id, user := cmd.user_id,
                    qty := cmd.qty - (limitMatch true st cmd).filled,
                    ts := cmd.recv_ts, flags := cmd.flags })) := by
            split <;> rfl
          rw [hbb, ladderQtySum_setLevel _ _ _ hmem, levelQtySum_enqueue]
          simp only [PriceLevelsArray.get_level]
          omega
        · refine ⟨?_, L4.2⟩
          split
          · exact Or.inr hvp
          · exact L4.1
      · rw [if_neg hvp] at hout
        simp at hout
    · rw [if_neg hrem] at hout
      simp only [Option.some.injEq, Prod.mk.injEq] at hout
      obtain ⟨h1, h2⟩ := hout
      subst h1
      refine ⟨?_, L4⟩
      rw [L2]
      have h3 := L3 hq
      simp only [totalResting] at L1 ⊢
      omega

end Hyperliquid

namespace Hyperliquid

theorem newQtySum_cons_new (c : OrderCommand) (cs : List OrderCommand)
    (h : c.type = CommandType.NewOrder) :
    newQtySum (c :: cs) = c.qty + newQtySum cs := by
  simp [newQtySum, List.filter_cons, h]

theorem applyCmd_conservation (st : Book) (oracle : List Nat)
    (cmd : OrderCommand) (hc : isGtcLimitNew cmd) (hq : 0 ≤ cmd.qty)
    (hbv : BestValid st) :
    ∀ st', (applyCmd st oracle cmd).1.next = some st' →
      totalResting st' +
          2 * tradeQtySum (tradesOf (applyCmd st oracle cmd).1.events) =
        totalResting st + cmd.qty ∧
      BestValid st' := by
  obtain ⟨ht, hot, htif⟩ := hc
  intro st' hnext
  simp only [applyCmd, ht, hot, eq_self_iff_true, if_true] at hnext ⊢
  rcases hso : (submitLimit st cmd).out with _ | ⟨st1, res⟩
  · rw [hso] at hnext
    simp at hnext
  · rw [hso] at hnext
    dsimp only at hnext
    injection hnext with hnext
    subst hnext
    rw [tradesOf_append, tradesOf_map_trade]
    have hb : tradesOf [Ev.book (mkBookUpdate st1 (takeNow oracle).1)] = [] := rfl
    rw [hb, List.append_nil]
    by_cases hside : cmd.side = Side.Bid
    · have hun : submitLimit st cmd = submitLimitSide true st cmd := by
        unfold submitLimit
        rw [if_pos hside]
      rw [hun] at hso
      have hcons := submitLimitSide_conservation true st cmd htif hq hbv
        st1 res hso
      rw [hun, submitLimitSide_trades_not_fok true st cmd (by simp [htif])]
      exact hcons
    · have hun : submitLimit st cmd = submitLimitSide false st cmd := by
        unfold submitLimit
        rw [if_neg hside]
      rw [hun] at hso
      have hcons := submitLimitSide_conservation false st cmd htif hq hbv
        st1 res hso
      rw [hun, submitLimitSide_trades_not_fok false st cmd (by simp [htif])]
      exact hcons

end Hyperliquid

namespace Hyperliquid

theorem run_conservation (cmds : List OrderCommand) :
    ∀ (st : Book) (oracle : List Nat),
      (∀ c ∈ cmds, isGtcLimitNew c ∧ 0 ≤ c.qty) → BestValid st →
      ∀ st', (run st oracle cmds).final = some st' →
        totalResting st' +
            2 * tradeQtySum (tradesOf (run st oracle cmds).events) =
          totalResting st + newQtySum cmds ∧ BestValid st' := by
  induction cmds with
  | nil =>
      intro st oracle h hbv st' hf
      simp only [run, Option.some.injEq] at hf
      subst hf
      exact ⟨by simp [run, tradesOf, tradeQtySum, newQtySum], hbv⟩
  | cons c cs ih =>
      intro st oracle h hbv st' hf
      simp only [run] at hf ⊢
      rcases hnx : (applyCmd st oracle c).1.next with _ | st1
      · rw [hnx] at hf
        simp at hf
      · rw [hnx] at hf
        dsimp only at hf ⊢
        obtain ⟨ha, hbv1⟩ := applyCmd_conservation st oracle c (h c (by simp)).1
          (h c (by simp)).2 hbv st1 hnx
        obtain ⟨hr, hbv'⟩ := ih st1 (applyCmd st oracle c).2
          (fun d hd => h d (by simp [hd])) hbv1 st' hf
        refine ⟨?_, hbv'⟩
        rw [tradesOf_append, tradeQtySum_append,
          newQtySum_cons_new c cs (h c (by simp)).1.1]
        omega

end Hyperliquid

namespace Hyperliquid

/-- C1 (amended): the spec's equation holds once each traded unit is
counted twice — once against the taker's submitted quantity and once
against the maker's — for every sequence of plain GTC limit `NewOrder`
commands with non-negative quantities applied to a fresh book (under any
wall clock), provided no command aborts. -/
theorem C1_fill_conservation_amended (sym : Nat) (band : PriceBand)
    (oracle : List Nat) (cmds : List OrderCommand)
    (h : ∀ c ∈ cmds, isGtcLimitNew c ∧ 0 ≤ c.qty) :
    ∀ st', (run (Book.init sym band) oracle cmds).final = some st' →
      2 * tradeQtySum
          (tradesOf (run (Book.init sym band) oracle cmds).events) +
        totalResting st' = newQtySum cmds := by
  intro st' hf
  have hc := (run_conservation cmds (Book.init sym band) oracle h
    (BestValid_init sym band) st' hf).1
  rw [totalResting_init] at hc
  omega

/-- Witness for C1 (amended) at the spec's "rest then cross" scenario. -/
theorem C1_fill_conservation_amended_witness :
    ∃ st', (run (Book.init 1 testBand) testOracle
        [newLimitCmd 1 100 150 10 Side.Bid,
         newLimitCmd 2 101 145 5 Side.Ask]).final = some st' ∧
      2 * tradeQtySum (tradesOf (run (Book.init 1 testBand) testOracle
          [newLimitCmd 1 100 150 10 Side.Bid,
           newLimitCmd 2 101 145 5 Side.Ask]).events) +
        totalResting st' =
      newQtySum [newLimitCmd 1 100 150 10 Side.Bid,
                 newLimitCmd 2 101 145 5 Side.Ask] := by
  cases hf : (run (Book.init 1 testBand) testOracle
      [newLimitCmd 1 100 150 10 Side.Bid,
       newLimitCmd 2 101 145 5 Side.Ask]).final with
  | none =>
      have hs : ((run (Book.init 1 testBand) testOracle
          [newLimitCmd 1 100 150 10 Side.Bid,
           newLimitCmd 2 101 145 5 Side.Ask]).final).isSome = true := by
        decide
      rw [hf] at hs
      simp at hs
  | some st' =>
      refine ⟨st', rfl, C1_fill_conservation_amended 1 testBand testOracle
        [newLimitCmd 1 100 150 10 Side.Bid,
         newLimitCmd 2 101 145 5 Side.Ask] ?_ st' hf⟩
      intro c hc
      simp only [List.mem_cons, List.not_mem_nil, or_false] at hc
      rcases hc with rfl | rfl <;> exact ⟨⟨rfl, rfl, rfl⟩, by decide⟩

end Hyperliquid

namespace Hyperliquid

theorem Inv_init (sym : Nat) (band : PriceBand) :
    Inv (Book.init sym band) := by
  refine ⟨BestValid_init sym band, Or.inl rfl, Or.inl rfl,
    ?_, ?_, ?_⟩
  · intro px n hn
    simp [Book.init, PriceLevelsArray.init, LevelFIFO.emptyLevel] at hn
  · intro px n hn
    simp [Book.init, PriceLevelsArray.init, LevelFIFO.emptyLevel] at hn
  · intro hb
    exact absurd rfl hb

theorem matchLevel_nonpos (sym : Nat) (tid : Nat) (tu : Nat) (ts : Nat)
    (stp : Bool) (price : Int) (l : List OrderNode) (q : Int)
    (hq : q ≤ 0) :
    (matchLevel sym tid tu ts stp price q l).filled = 0 ∧
    (matchLevel sym tid tu ts stp price q l).rest = l := by
  cases l with
  | nil => exact ⟨rfl, rfl⟩
  | cons m rest =>
      simp only [matchLevel]
      rw [if_pos hq]
      exact ⟨rfl, rfl⟩

theorem matchLevel_rest_ne_no_stp (sym : Nat) (tid : Nat) (tu : Nat)
    (ts : Nat) (price : Int) :
    ∀ (l : List OrderNode) (q : Int),
      (matchLevel sym tid tu ts false price q l).rest ≠ [] →
      q ≤ (matchLevel sym tid tu ts false price q l).filled := by
  intro l
  induction l with
  | nil =>
      intro q hne
      exact absurd rfl hne
  | cons m rest ih =>
      intro q hne
      simp only [matchLevel] at hne ⊢
      by_cases hq : q ≤ 0
      · rw [if_pos hq] at hne ⊢
        simpa using hq
      · rw [if_neg hq] at hne ⊢
        rw [if_neg (by simp)] at hne ⊢
        push_neg at hq
        by_cases hfull : m.qty ≤ min q m.qty
        · rw [if_pos hfull] at hne ⊢
          have := ih (q - min q m.qty) hne
          show q ≤ min q m.qty +
            (matchLevel sym tid tu ts false price (q - min q m.qty)
              rest).filled
          omega
        · rw [if_neg hfull] at hne ⊢
          have hminq : min q m.qty = q := by omega
          have h0 := (matchLevel_nonpos sym tid tu ts false price rest
            (q - min q m.qty) (by omega)).1
          show q ≤ min q m.qty +
            (matchLevel sym tid tu ts false price (q - min q m.qty)
              rest).filled
          omega

theorem matchLevel_rest_flags (sym : Nat) (tid : Nat) (tu : Nat)
    (ts : Nat) (stp : Bool) (price : Int) :
    ∀ (l : List OrderNode) (q : Int),
      (∀ n ∈ l, n.flags &&& STP_FLAG = 0) →
      ∀ n ∈ (matchLevel sym tid tu ts stp price q l).rest,
        n.flags &&& STP_FLAG = 0 := by
  intro l
  induction l with
  | nil =>
      intro q hcl n hn
      simp [matchLevel] at hn
  | cons m rest ih =>
      intro q hcl n hn
      have hclr : ∀ x ∈ rest, x.flags &&& STP_FLAG = 0 :=
        fun x hx => hcl x (by simp [hx])
      simp only [matchLevel] at hn
      by_cases hq : q ≤ 0
      · rw [if_pos hq] at hn
        exact hcl n hn
      · rw [if_neg hq] at hn
        by_cases hstp : (stp && m.user = tu) = true
        · rw [if_pos hstp] at hn
          simp only [List.mem_cons] at hn
          rcases hn with rfl | hn
          · exact hcl n (by simp)
          · exact ih q hclr n hn
        · rw [if_neg hstp] at hn
          by_cases hfull : m.qty ≤ min q m.qty
          · rw [if_pos hfull] at hn
            exact ih (q - min q m.qty) hclr n hn
          · rw [if_neg hfull] at hn
            simp only [List.mem_cons] at hn
            rcases hn with rfl | hn
            · exact hcl m (by simp)
            · exact ih (q - min q m.qty) hclr n hn

theorem refreshScanBid_le (a : PriceLevelsArray) :
    ∀ (fuel : Nat) (px : Int),
      (refreshScanBid a fuel px).best_bid = EMPTY_BID ∨
        (refreshScanBid a fuel px).best_bid ≤ px := by
  intro fuel
  induction fuel with
  | zero => intro px; exact Or.inl rfl
  | succ k ih =>
      intro px
      simp only [refreshScanBid]
      split
      · exact Or.inl rfl
      · split
        · exact Or.inl rfl
        · split
          · exact Or.inr (le_refl _)
          · rcases ih (px - 1) with h | h
            · exact Or.inl h
            · exact Or.inr (by omega)

theorem refreshScanAsk_ge (a : PriceLevelsArray) :
    ∀ (fuel : Nat) (px : Int),
      (refreshScanAsk a fuel px).best_ask = EMPTY_ASK ∨
        px ≤ (refreshScanAsk a fuel px).best_ask := by
  intro fuel
  induction fuel with
  | zero => intro px; exact Or.inl rfl
  | succ k ih =>
      intro px
      simp only [refreshScanAsk]
      split
      · exact Or.inl rfl
      · split
        · exact Or.inl rfl
        · split
          · exact Or.inr (le_refl _)
          · rcases ih (px + 1) with h | h
            · exact Or.inl h
            · exact Or.inr (by omega)

theorem sum_levels_update_nat (band : PriceBand) (f : Int → LevelFIFO)
    (p : Int) (l' : LevelFIFO) (g : LevelFIFO → Nat)
    (hp : p ∈ bandTicks band) :
    ((bandTicks band).map (fun px => g (Function.update f p l' px))).sum +
        g (f p) =
      ((bandTicks band).map (fun px => g (f px))).sum + g l' := by
  have hnd := bandTicks_nodup band
  generalize (bandTicks band) = L at hp hnd
  induction L with
  | nil => simp at hp
  | cons a rest ih =>
      rw [List.nodup_cons] at hnd
      rcases List.mem_cons.mp hp with rfl | hmem
      · have hrest : ∀ px ∈ rest, Function.update f p l' px = f px := by
          intro px hpx
          have hne : px ≠ p := by
            intro hh
            subst hh
            exact hnd.1 hpx
          exact Function.update_noteq hne _ _
        simp only [List.map_cons, List.sum_cons, Function.update_same]
        rw [List.map_congr_left (fun px hpx => by rw [hrest px hpx])]
        omega
      · have ha : Function.update f p l' a = f a := by
          have hne : a ≠ p := by
            intro hh
            subst hh
            exact hnd.1 hmem
          exact Function.update_noteq hne _ _
        simp only [List.map_cons, List.sum_cons, ha]
        have := ih hmem hnd.2
        omega

theorem sideNodeCount_setLevel (a : PriceLevelsArray) (p : Int)
    (l' : LevelFIFO) (hp : p ∈ bandTicks a.band) :
    sideNodeCount (a.setLevel p l') + (a.levels p).orders.length =
      sideNodeCount a + l'.orders.length := by
  simp only [sideNodeCount, PriceLevelsArray.setLevel]
  exact sum_levels_update_nat a.band a.levels p l'
    (fun l => l.orders.length) hp

end Hyperliquid

namespace Hyperliquid

theorem NodesClean_setLevel (a : PriceLevelsArray) (p : Int)
    (l' : LevelFIFO) (ha : NodesClean a)
    (hl : ∀ n ∈ l'.orders, n.flags &&& STP_FLAG = 0) :
    NodesClean (a.setLevel p l') := by
  intro px n hn
  by_cases hpx : px = p
  · subst hpx
    rw [show (a.setLevel px l').levels px = l' from by
      simp [PriceLevelsArray.setLevel, Function.update_same]] at hn
    exact hl n hn
  · rw [show (a.setLevel p l').levels px = a.levels px from by
      simp [PriceLevelsArray.setLevel, Function.update_noteq hpx]] at hn
    exact ha px n hn

theorem NodesClean_of_fields (a b : PriceLevelsArray)
    (hlev : a.levels = b.levels) (hb : NodesClean b) : NodesClean a := by
  intro px n hn
  rw [hlev] at hn
  exact hb px n hn

theorem sideNodeCount_congr (a b : PriceLevelsArray)
    (hband : a.band = b.band) (hlev : a.levels = b.levels) :
    sideNodeCount a = sideNodeCount b := by
  simp [sideNodeCount, hband, hlev]

theorem AskLive_refresh_ask (st : Book) :
    AskLive (refreshBestAfterDepletion st Side.Ask) := by
  simp only [AskLive, refreshBestAfterDepletion]
  split
  · rename_i hE
    exact Or.inl hE
  · rcases refreshScanAsk_valid st.asks MAX_SEARCH
      (st.asks.best_ask + 1) with h | h
    · exact Or.inl h
    · refine Or.inr ?_
      rw [(refreshScanAsk_fields st.asks MAX_SEARCH _).2.1]
      exact h.2

theorem BidLive_refresh_bid (st : Book) :
    BidLive (refreshBestAfterDepletion st Side.Bid) := by
  simp only [BidLive, refreshBestAfterDepletion]
  split
  · rename_i hE
    exact Or.inl hE
  · rcases refreshScanBid_valid st.bids MAX_SEARCH
      (st.bids.best_bid - 1) with h | h
    · exact Or.inl h
    · refine Or.inr ?_
      rw [(refreshScanBid_fields st.bids MAX_SEARCH _).2.1]
      exact h.2

theorem refresh_ask_ge (st : Book) :
    (refreshBestAfterDepletion st Side.Ask).asks.best_ask = EMPTY_ASK ∨
      st.asks.best_ask ≤
        (refreshBestAfterDepletion st Side.Ask).asks.best_ask := by
  simp only [refreshBestAfterDepletion]
  split
  · exact Or.inr (le_refl _)
  · dsimp only
    rcases refreshScanAsk_ge st.asks MAX_SEARCH
      (st.asks.best_ask + 1) with h | h
    · exact Or.inl h
    · exact Or.inr (by omega)

theorem refresh_bid_le (st : Book) :
    (refreshBestAfterDepletion st Side.Bid).bids.best_bid = EMPTY_BID ∨
      (refreshBestAfterDepletion st Side.Bid).bids.best_bid ≤
        st.bids.best_bid := by
  simp only [refreshBestAfterDepletion]
  split
  · exact Or.inr (le_refl _)
  · dsimp only
    rcases refreshScanBid_le st.bids MAX_SEARCH
      (st.bids.best_bid - 1) with h | h
    · exact Or.inl h
    · exact Or.inr (by omega)

end Hyperliquid

namespace Hyperliquid

theorem AskLive_transfer (st st' : Book) (h : st'.asks = st.asks)
    (hl : AskLive st) : AskLive st' := by
  rw [AskLive, h]
  exact hl

theorem BidLive_transfer (st st' : Book) (h : st'.bids = st.bids)
    (hl : BidLive st) : BidLive st' := by
  rw [BidLive, h]
  exact hl

theorem matchAgainstSide_no_stp_ask (l : Int) (tid : Nat) (tu : Nat)
    (ts : Nat) :
    ∀ (fuel : Nat) (st : Book) (q : Int),
      sideNodeCount st.asks < fuel →
      BestValid st → AskLive st → NodesClean st.asks →
      (q ≤ (matchAgainstSide false st q l tid tu ts false fuel).filled ∨
        (matchAgainstSide false st q l tid tu ts false
          fuel).st.asks.best_ask = EMPTY_ASK ∨
        l < (matchAgainstSide false st q l tid tu ts false
          fuel).st.asks.best_ask) ∧
      AskLive (matchAgainstSide false st q l tid tu ts false fuel).st ∧
      NodesClean (matchAgainstSide false st q l tid tu ts false
        fuel).st.asks ∧
      (st.asks.best_ask = EMPTY_ASK →
        (matchAgainstSide false st q l tid tu ts false
          fuel).st.asks.best_ask = EMPTY_ASK) ∧
      ((matchAgainstSide false st q l tid tu ts false
          fuel).st.asks.best_ask = EMPTY_ASK ∨
        st.asks.best_ask ≤ (matchAgainstSide false st q l tid tu ts false
          fuel).st.asks.best_ask) := by
  intro fuel
  induction fuel with
  | zero =>
      intro st q hfuel
      exact absurd hfuel (by omega)
  | succ k ih =>
      intro st q hfuel hbv hlive hclean
      simp only [matchAgainstSide, Bool.false_eq_true, false_and,
        not_false_eq_true, true_and, if_false]
      repeat' split
      · -- qty exhausted
        rename_i hq
        exact ⟨Or.inl (by simpa using hq), hlive, hclean, fun hh => hh,
          Or.inr (le_refl _)⟩
      · -- no best level: the side is empty
        rename_i heq
        have hE : st.asks.best_ask = EMPTY_ASK := by
          simp only [PriceLevelsArray.best_level_ptr] at heq
          by_cases hb : st.asks.best_ask = EMPTY_ASK
          · exact hb
          · rw [if_neg hb] at heq
            exact absurd heq (by simp)
        exact ⟨Or.inr (Or.inl hE), hlive, hclean, fun _ => hE, Or.inl hE⟩
      · -- cached best points at an empty level: impossible while live
        rename_i hq x lvl heq hemp
        obtain ⟨hnb, hlvl⟩ := best_ptr_ask_some st.asks lvl heq
        have hne := hlive.resolve_left hnb
        rw [hlvl] at hemp
        exact absurd (by simpa using hemp) hne
      · -- the best no longer crosses the limit
        rename_i hgt
        exact ⟨Or.inr (Or.inr hgt), hlive, hclean, fun hh => hh,
          Or.inr (le_refl _)⟩
      · -- level depleted: refresh and re-enter
        rename_i hq x lvl heq hemp hgt hdep
        obtain ⟨hnb, hlvl⟩ := best_ptr_ask_some st.asks lvl heq
        have hv := hbv.2.resolve_left hnb
        have hmem := mem_bandTicks_of_valid st.asks st.asks.best_ask hv
        set i1 := matchLevel st.symbol tid tu ts false st.asks.best_ask q lvl.orders with hi1
        set lv : LevelFIFO := { orders := i1.rest, total_qty := lvl.total_qty - i1.filled } with hlv
        have hrest : i1.rest = [] := by simpa using hdep
        obtain ⟨hacc, hbv2⟩ := ask_branch_acct st lvl lv
          q tid tu ts false i1.erased hbv hnb hlvl (by rw [hlv, hi1])
        have e2 : (Book.indexEraseMany { st with asks := st.asks.setLevel st.asks.best_ask lv } i1.erased).asks = st.asks.setLevel st.asks.best_ask lv := by
          rw [indexEraseMany_asks]
        have hcount : sideNodeCount (Book.indexEraseMany { st with asks := st.asks.setLevel st.asks.best_ask lv } i1.erased).asks < sideNodeCount st.asks := by
          rw [e2]
          have hc := sideNodeCount_setLevel st.asks st.asks.best_ask lv hmem
          have hlen : (st.asks.levels st.asks.best_ask).orders.length ≠ 0 := by
            intro hh
            rw [← hlvl] at hh
            have hnil : lvl.orders = [] := List.length_eq_zero.mp hh
            rw [hnil] at hemp
            simp at hemp
          have hlv0 : lv.orders.length = 0 := by
            rw [hlv]
            simp [hrest]
          omega
        set st2 := Book.indexEraseMany { st with asks := st.asks.setLevel st.asks.best_ask lv } i1.erased with hst2
        have hbv3 := BestValid_refresh st2 Side.Ask hbv2
        have hlive3 := AskLive_refresh_ask st2
        have hclean2 : NodesClean st2.asks := by
          rw [e2]
          refine NodesClean_setLevel _ _ _ hclean ?_
          rw [show lv.orders = i1.rest from by rw [hlv], hrest]
          intro n hn
          simp at hn
        have hclean3 : NodesClean
            (refreshBestAfterDepletion st2 Side.Ask).asks :=
          NodesClean_of_fields _ _ (refresh_asks_levels st2 Side.Ask) hclean2
        have hcount3 : sideNodeCount
            (refreshBestAfterDepletion st2 Side.Ask).asks < k := by
          rw [sideNodeCount_congr _ st2.asks
            (refresh_asks_band st2 Side.Ask) (refresh_asks_levels st2 Side.Ask)]
          omega
        obtain ⟨R1, R2, R3, R4, R5⟩ := ih (refreshBestAfterDepletion st2
          Side.Ask) (q - i1.filled) hcount3 hbv3 hlive3 hclean3
        have e2b : st2.asks.best_ask = st.asks.best_ask := by
          rw [hst2, e2]
          rfl
        have hmono : (refreshBestAfterDepletion st2 Side.Ask).asks.best_ask
            = EMPTY_ASK ∨ st.asks.best_ask ≤
              (refreshBestAfterDepletion st2 Side.Ask).asks.best_ask := by
          rcases refresh_ask_ge st2 with h | h
          · exact Or.inl h
          · exact Or.inr (by omega)
        refine ⟨?_, R2, R3, fun hE => absurd hE hnb, ?_⟩
        · rcases R1 with h | h | h
          · refine Or.inl ?_
            show q ≤ i1.filled + (matchAgainstSide false
              (refreshBestAfterDepletion st2 Side.Ask) (q - i1.filled)
              l tid tu ts false k).filled
            omega
          · exact Or.inr (Or.inl h)
          · exact Or.inr (Or.inr h)
        · rcases R5 with h | h
          · exact Or.inl h
          · rcases hmono with h2 | h2
            · exact Or.inl (R4 h2)
            · refine Or.inr ?_
              show st.asks.best_ask ≤ (matchAgainstSide false
                (refreshBestAfterDepletion st2 Side.Ask) (q - i1.filled)
                l tid tu ts false k).st.asks.best_ask
              omega
      · -- level still populated: only possible once the taker is done
        rename_i hq x lvl heq hemp hgt hdep
        obtain ⟨hnb, hlvl⟩ := best_ptr_ask_some st.asks lvl heq
        set i1 := matchLevel st.symbol tid tu ts false st.asks.best_ask q lvl.orders with hi1
        set lv : LevelFIFO := { orders := i1.rest, total_qty := lvl.total_qty - i1.filled } with hlv
        have hrest : i1.rest ≠ [] := by simpa using hdep
        have hfull := matchLevel_rest_ne_no_stp st.symbol tid tu ts
          st.asks.best_ask lvl.orders q (by rw [hi1] at hrest; exact hrest)
        have e2 : (Book.indexEraseMany { st with asks := st.asks.setLevel st.asks.best_ask lv } i1.erased).asks = st.asks.setLevel st.asks.best_ask lv := by
          rw [indexEraseMany_asks]
        have e2b : (Book.indexEraseMany { st with asks := st.asks.setLevel st.asks.best_ask lv } i1.erased).asks.best_ask = st.asks.best_ask := by
          rw [e2]
          rfl
        refine ⟨Or.inl hfull, ?_, ?_,
          fun hE => absurd hE hnb, ?_⟩
        · refine Or.inr ?_
          rw [show (Book.indexEraseMany { st with asks := st.asks.setLevel st.asks.best_ask lv } i1.erased).asks.best_ask = st.asks.best_ask from e2b]
          rw [show (Book.indexEraseMany { st with asks := st.asks.setLevel st.asks.best_ask lv } i1.erased).asks.levels = (st.asks.setLevel st.asks.best_ask lv).levels from by rw [e2]]
          rw [show (st.asks.setLevel st.asks.best_ask lv).levels st.asks.best_ask = lv from by simp [PriceLevelsArray.setLevel, Function.update_same]]
          rw [show lv.orders = i1.rest from by rw [hlv]]
          exact hrest
        · rw [show (Book.indexEraseMany { st with asks := st.asks.setLevel st.asks.best_ask lv } i1.erased).asks = st.asks.setLevel st.asks.best_ask lv from e2]
          refine NodesClean_setLevel _ _ _ hclean ?_
          rw [show lv.orders = i1.rest from by rw [hlv], hi1]
          refine matchLevel_rest_flags st.symbol tid tu ts false
            st.asks.best_ask lvl.orders q ?_
          intro n hn
          rw [hlvl] at hn
          exact hclean st.asks.best_ask n hn
        · exact Or.inr (le_of_eq e2b.symm)

end Hyperliquid

namespace Hyperliquid

theorem matchAgainstSide_no_stp_bid (l : Int) (tid : Nat) (tu : Nat)
    (ts : Nat) :
    ∀ (fuel : Nat) (st : Book) (q : Int),
      sideNodeCount st.bids < fuel →
      BestValid st → BidLive st → NodesClean st.bids →
      (q ≤ (matchAgainstSide true st q l tid tu ts false fuel).filled ∨
        (matchAgainstSide true st q l tid tu ts false
          fuel).st.bids.best_bid = EMPTY_BID ∨
        (matchAgainstSide true st q l tid tu ts false
          fuel).st.bids.best_bid < l) ∧
      BidLive (matchAgainstSide true st q l tid tu ts false fuel).st ∧
      NodesClean (matchAgainstSide true st q l tid tu ts false
        fuel).st.bids ∧
      (st.bids.best_bid = EMPTY_BID →
        (matchAgainstSide true st q l tid tu ts false
          fuel).st.bids.best_bid = EMPTY_BID) ∧
      ((matchAgainstSide true st q l tid tu ts false
          fuel).st.bids.best_bid = EMPTY_BID ∨
        (matchAgainstSide true st q l tid tu ts false
          fuel).st.bids.best_bid ≤ st.bids.best_bid) := by
  intro fuel
  induction fuel with
  | zero =>
      intro st q hfuel
      exact absurd hfuel (by omega)
  | succ k ih =>
      intro st q hfuel hbv hlive hclean
      simp only [matchAgainstSide, eq_self_iff_true, if_true, true_and,
        not_true, false_and, if_false]
      repeat' split
      · -- qty exhausted
        rename_i hq
        exact ⟨Or.inl (by simpa using hq), hlive, hclean, fun hh => hh,
          Or.inr (le_refl _)⟩
      · -- no best level: the side is empty
        rename_i heq
        have hE : st.bids.best_bid = EMPTY_BID := by
          simp only [PriceLevelsArray.best_level_ptr] at heq
          by_cases hb : st.bids.best_bid = EMPTY_BID
          · exact hb
          · rw [if_neg hb] at heq
            exact absurd heq (by simp)
        exact ⟨Or.inr (Or.inl hE), hlive, hclean, fun _ => hE, Or.inl hE⟩
      · -- cached best points at an empty level: impossible while live
        rename_i hq x lvl heq hemp
        obtain ⟨hnb, hlvl⟩ := best_ptr_bid_some st.bids lvl heq
        have hne := hlive.resolve_left hnb
        rw [hlvl] at hemp
        exact absurd (by simpa using hemp) hne
      · -- the best no longer crosses the limit
        rename_i hlt
        exact ⟨Or.inr (Or.inr hlt), hlive, hclean, fun hh => hh,
          Or.inr (le_refl _)⟩
      · -- level depleted: refresh and re-enter
        rename_i hq x lvl heq hemp hlt hdep
        obtain ⟨hnb, hlvl⟩ := best_ptr_bid_some st.bids lvl heq
        have hv := hbv.1.resolve_left hnb
        have hmem := mem_bandTicks_of_valid st.bids st.bids.best_bid hv
        set i1 := matchLevel st.symbol tid tu ts false st.bids.best_bid q lvl.orders with hi1
        set lv : LevelFIFO := { orders := i1.rest, total_qty := lvl.total_qty - i1.filled } with hlv
        have hrest : i1.rest = [] := by simpa using hdep
        obtain ⟨hacc, hbv2⟩ := bid_branch_acct st lvl lv
          q tid tu ts false i1.erased hbv hnb hlvl (by rw [hlv, hi1])
        have e2 : (Book.indexEraseMany { st with bids := st.bids.setLevel st.bids.best_bid lv } i1.erased).bids = st.bids.setLevel st.bids.best_bid lv := by
          rw [indexEraseMany_bids]
        have hcount : sideNodeCount (Book.indexEraseMany { st with bids := st.bids.setLevel st.bids.best_bid lv } i1.erased).bids < sideNodeCount st.bids := by
          rw [e2]
          have hc := sideNodeCount_setLevel st.bids st.bids.best_bid lv hmem
          have hlen : (st.bids.levels st.bids.best_bid).orders.length ≠ 0 := by
            intro hh
            rw [← hlvl] at hh
            have hnil : lvl.orders = [] := List.length_eq_zero.mp hh
            rw [hnil] at hemp
            simp at hemp
          have hlv0 : lv.orders.length = 0 := by
            rw [hlv]
            simp [hrest]
          omega
        set st2 := Book.indexEraseMany { st with bids := st.bids.setLevel st.bids.best_bid lv } i1.erased with hst2
        have hbv3 := BestValid_refresh st2 Side.Bid hbv2
        have hlive3 := BidLive_refresh_bid st2
        have hclean2 : NodesClean st2.bids := by
          rw [e2]
          refine NodesClean_setLevel _ _ _ hclean ?_
          rw [show lv.orders = i1.rest from by rw [hlv], hrest]
          intro n hn
          simp at hn
        have hclean3 : NodesClean
            (refreshBestAfterDepletion st2 Side.Bid).bids :=
          NodesClean_of_fields _ _ (refresh_bids_levels st2 Side.Bid) hclean2
        have hcount3 : sideNodeCount
            (refreshBestAfterDepletion st2 Side.Bid).bids < k := by
          rw [sideNodeCount_congr _ st2.bids
            (refresh_bids_band st2 Side.Bid) (refresh_bids_levels st2 Side.Bid)]
          omega
        obtain ⟨R1, R2, R3, R4, R5⟩ := ih (refreshBestAfterDepletion st2
          Side.Bid) (q - i1.filled) hcount3 hbv3 hlive3 hclean3
        have e2b : st2.bids.best_bid = st.bids.best_bid := by
          rw [hst2, e2]
          rfl
        have hmono : (refreshBestAfterDepletion st2 Side.Bid).bids.best_bid
            = EMPTY_BID ∨
              (refreshBestAfterDepletion st2 Side.Bid).bids.best_bid ≤
                st.bids.best_bid := by
          rcases refresh_bid_le st2 with h | h
          · exact Or.inl h
          · exact Or.inr (by omega)
        refine ⟨?_, R2, R3, fun hE => absurd hE hnb, ?_⟩
        · rcases R1 with h | h | h
          · refine Or.inl ?_
            show q ≤ i1.filled + (matchAgainstSide true
              (refreshBestAfterDepletion st2 Side.Bid) (q - i1.filled)
              l tid tu ts false k).filled
            omega
          · exact Or.inr (Or.inl h)
          · exact Or.inr (Or.inr h)
        · rcases R5 with h | h
          · exact Or.inl h
          · rcases hmono with h2 | h2
            · exact Or.inl (R4 h2)
            · refine Or.inr ?_
              show (matchAgainstSide true
                (refreshBestAfterDepletion st2 Side.Bid) (q - i1.filled)
                l tid tu ts false k).st.bids.best_bid ≤ st.bids.best_bid
              omega
      · -- level still populated: only possible once the taker is done
        rename_i hq x lvl heq hemp hlt hdep
        obtain ⟨hnb, hlvl⟩ := best_ptr_bid_some st.bids lvl heq
        set i1 := matchLevel st.symbol tid tu ts false st.bids.best_bid q lvl.orders with hi1
        set lv : LevelFIFO := { orders := i1.rest, total_qty := lvl.total_qty - i1.filled } with hlv
        have hrest : i1.rest ≠ [] := by simpa using hdep
        have hfull := matchLevel_rest_ne_no_stp st.symbol tid tu ts
          st.bids.best_bid lvl.orders q (by rw [hi1] at hrest; exact hrest)
        have e2 : (Book.indexEraseMany { st with bids := st.bids.setLevel st.bids.best_bid lv } i1.erased).bids = st.bids.setLevel st.bids.best_bid lv := by
          rw [indexEraseMany_bids]
        have e2b : (Book.indexEraseMany { st with bids := st.bids.setLevel st.bids.best_bid lv } i1.erased).bids.best_bid = st.bids.best_bid := by
          rw [e2]
          rfl
        refine ⟨Or.inl hfull, ?_, ?_,
          fun hE => absurd hE hnb, ?_⟩
        · refine Or.inr ?_
          rw [show (Book.indexEraseMany { st with bids := st.bids.setLevel st.bids.best_bid lv } i1.erased).bids.best_bid = st.bids.best_bid from e2b]
          rw [show (Book.indexEraseMany { st with bids := st.bids.setLevel st.bids.best_bid lv } i1.erased).bids.levels = (st.bids.setLevel st.bids.best_bid lv).levels from by rw [e2]]
          rw [show (st.bids.setLevel st.bids.best_bid lv).levels st.bids.best_bid = lv from by simp [PriceLevelsArray.setLevel, Function.update_same]]
          rw [show lv.orders = i1.rest from by rw [hlv]]
          exact hrest
        · rw [show (Book.indexEraseMany { st with bids := st.bids.setLevel st.bids.best_bid lv } i1.erased).bids = st.bids.setLevel st.bids.best_bid lv from e2]
          refine NodesClean_setLevel _ _ _ hclean ?_
          rw [show lv.orders = i1.rest from by rw [hlv], hi1]
          refine matchLevel_rest_flags st.symbol tid tu ts false
            st.bids.best_bid lvl.orders q ?_
          intro n hn
          rw [hlvl] at hn
          exact hclean st.bids.best_bid n hn
        · exact Or.inr (le_of_eq e2b)

end Hyperliquid

namespace Hyperliquid

theorem stp_decide_false (cmd : OrderCommand)
    (hstp : cmd.flags &&& STP_FLAG = 0) :
    (decide (cmd.flags &&& STP_FLAG ≠ 0)) = false := by
  simp [hstp]

theorem limitMatch_no_stp_bid (st : Book) (cmd : OrderCommand)
    (hstp : cmd.flags &&& STP_FLAG = 0)
    (hbv : BestValid st) (hal : AskLive st) (hca : NodesClean st.asks) :
    (cmd.qty ≤ (limitMatch true st cmd).filled ∨
      (limitMatch true st cmd).st.asks.best_ask = EMPTY_ASK ∨
      cmd.price_ticks < (limitMatch true st cmd).st.asks.best_ask) ∧
    AskLive (limitMatch true st cmd).st ∧
    NodesClean (limitMatch true st cmd).st.asks ∧
    (st.asks.best_ask = EMPTY_ASK →
      (limitMatch true st cmd).st.asks.best_ask = EMPTY_ASK) ∧
    ((limitMatch true st cmd).st.asks.best_ask = EMPTY_ASK ∨
      st.asks.best_ask ≤ (limitMatch true st cmd).st.asks.best_ask) ∧
    (limitMatch true st cmd).st.bids = st.bids := by
  simp only [limitMatch, eq_self_iff_true, if_true]
  split
  · rw [stp_decide_false cmd hstp]
    obtain ⟨P1, P2, P3, P4, P5⟩ := matchAgainstSide_no_stp_ask
      cmd.price_ticks cmd.order_id cmd.user_id cmd.recv_ts
      (sideNodeCount st.asks + 1) st cmd.qty (by omega) hbv hal hca
    exact ⟨P1, P2, P3, P4, P5,
      (matchAgainstSide_frame false cmd.price_ticks cmd.order_id
        cmd.user_id cmd.recv_ts false (sideNodeCount st.asks + 1) st
        cmd.qty).2.2.2.2 rfl⟩
  · rename_i hnc
    push_neg at hnc
    refine ⟨?_, hal, hca, fun hh => hh, Or.inr (le_refl _), rfl⟩
    by_cases hE : st.asks.best_ask = EMPTY_ASK
    · exact Or.inr (Or.inl hE)
    · exact Or.inr (Or.inr (show cmd.price_ticks < st.asks.best_ask by
        have := hnc hE; omega))

theorem limitMatch_no_stp_ask_taker (st : Book) (cmd : OrderCommand)
    (hstp : cmd.flags &&& STP_FLAG = 0)
    (hbv : BestValid st) (hbl : BidLive st) (hcb : NodesClean st.bids) :
    (cmd.qty ≤ (limitMatch false st cmd).filled ∨
      (limitMatch false st cmd).st.bids.best_bid = EMPTY_BID ∨
      (limitMatch false st cmd).st.bids.best_bid < cmd.price_ticks) ∧
    BidLive (limitMatch false st cmd).st ∧
    NodesClean (limitMatch false st cmd).st.bids ∧
    (st.bids.best_bid = EMPTY_BID →
      (limitMatch false st cmd).st.bids.best_bid = EMPTY_BID) ∧
    ((limitMatch false st cmd).st.bids.best_bid = EMPTY_BID ∨
      (limitMatch false st cmd).st.bids.best_bid ≤ st.bids.best_bid) ∧
    (limitMatch false st cmd).st.asks = st.asks := by
  simp only [limitMatch, Bool.false_eq_true, if_false]
  split
  · rw [stp_decide_false cmd hstp]
    obtain ⟨P1, P2, P3, P4, P5⟩ := matchAgainstSide_no_stp_bid
      cmd.price_ticks cmd.order_id cmd.user_id cmd.recv_ts
      (sideNodeCount st.bids + 1) st cmd.qty (by omega) hbv hbl hcb
    exact ⟨P1, P2, P3, P4, P5,
      (matchAgainstSide_frame true cmd.price_ticks cmd.order_id
        cmd.user_id cmd.recv_ts false (sideNodeCount st.bids + 1) st
        cmd.qty).2.2.2.1 rfl⟩
  · rename_i hnc
    push_neg at hnc
    refine ⟨?_, hbl, hcb, fun hh => hh, Or.inr (le_refl _), rfl⟩
    by_cases hE : st.bids.best_bid = EMPTY_BID
    · exact Or.inr (Or.inl hE)
    · exact Or.inr (Or.inr (show st.bids.best_bid < cmd.price_ticks by
        have := hnc hE; omega))

end Hyperliquid

namespace Hyperliquid

theorem Inv_match_bid (st : Book) (cmd : OrderCommand)
    (hstp : cmd.flags &&& STP_FLAG = 0) (hInv : Inv st) :
    Inv (limitMatch true st cmd).st := by
  obtain ⟨hbv, hbl, hal, hcb, hca, hun⟩ := hInv
  obtain ⟨P1, P2, P3, P4, P5, Pb⟩ := limitMatch_no_stp_bid st cmd hstp
    hbv hal hca
  refine ⟨(limitMatch_conservation true st cmd hbv).2.2.2,
    BidLive_transfer st _ Pb hbl, P2,
    NodesClean_of_fields _ st.bids (by rw [Pb]) hcb, P3, ?_⟩
  intro hb' ha'
  have hbeq : (limitMatch true st cmd).st.bids.best_bid =
      st.bids.best_bid := by rw [Pb]
  rw [hbeq] at hb' ⊢
  by_cases hE : st.asks.best_ask = EMPTY_ASK
  · exact absurd (P4 hE) ha'
  · have h5 := P5.resolve_left ha'
    have h6 := hun hb' hE
    omega

theorem Inv_match_ask (st : Book) (cmd : OrderCommand)
    (hstp : cmd.flags &&& STP_FLAG = 0) (hInv : Inv st) :
    Inv (limitMatch false st cmd).st := by
  obtain ⟨hbv, hbl, hal, hcb, hca, hun⟩ := hInv
  obtain ⟨P1, P2, P3, P4, P5, Pa⟩ := limitMatch_no_stp_ask_taker st cmd
    hstp hbv hbl hcb
  refine ⟨(limitMatch_conservation false st cmd hbv).2.2.2, P2,
    AskLive_transfer st _ Pa hal, P3,
    NodesClean_of_fields _ st.asks (by rw [Pa]) hca, ?_⟩
  intro hb' ha'
  have haeq : (limitMatch false st cmd).st.asks.best_ask =
      st.asks.best_ask := by rw [Pa]
  rw [haeq] at ha' ⊢
  by_cases hE : st.bids.best_bid = EMPTY_BID
  · exact absurd (P4 hE) hb'
  · have h5 := P5.resolve_left hb'
    have h6 := hun hE ha'
    omega

end Hyperliquid

namespace Hyperliquid

theorem submitLimitSide_inv_bid (st : Book) (cmd : OrderCommand)
    (hstp : cmd.flags &&& STP_FLAG = 0) (hInv : Inv st) :
    ∀ st' res, (submitLimitSide true st cmd).out = some (st', res) →
      Inv st' := by
  intro st' res hout
  simp only [submitLimitSide, eq_self_iff_true, if_true] at hout
  split at hout
  · -- FOK reject: state unchanged
    simp only [Option.some.injEq, Prod.mk.injEq] at hout
    obtain ⟨h1, h2⟩ := hout
    subst h1
    exact hInv
  · by_cases hrem : cmd.qty - (limitMatch true st cmd).filled > 0
    · rw [if_pos hrem] at hout
      by_cases hioc : cmd.tif = TimeInForce.IOC
      · rw [if_pos hioc] at hout
        simp only [Option.some.injEq, Prod.mk.injEq] at hout
        obtain ⟨h1, h2⟩ := hout
        subst h1
        exact Inv_match_bid st cmd hstp hInv
      · rw [if_neg hioc] at hout
        by_cases hfk : cmd.tif = TimeInForce.FOK
        · rw [if_pos hfk] at hout
          simp only [Option.some.injEq, Prod.mk.injEq] at hout
          obtain ⟨h1, h2⟩ := hout
          subst h1
          exact Inv_match_bid st cmd hstp hInv
        · rw [if_neg hfk] at hout
          by_cases hvp : (limitMatch true st cmd).st.bids.is_valid_price
              cmd.price_ticks = true
          · rw [if_pos hvp] at hout
            simp only [Option.some.injEq, Prod.mk.injEq] at hout
            obtain ⟨h1, h2⟩ := hout
            subst h1
            obtain ⟨mbv, mbl, mal, mcb, mca, mun⟩ :=
              Inv_match_bid st cmd hstp hInv
            obtain ⟨P1, P2, P3, P4, P5, Pb⟩ := limitMatch_no_stp_bid st cmd
              hstp hInv.1 hInv.2.2.1 hInv.2.2.2.2.1
            set nd : OrderNode := { id := cmd.order_id, user := cmd.user_id, qty := cmd.qty - (limitMatch true st cmd).filled, ts := cmd.recv_ts, flags := cmd.flags } with hnd
            set wl := (limitMatch true st cmd).st.bids.setLevel cmd.price_ticks (((limitMatch true st cmd).st.bids.get_level cmd.price_ticks).enqueue nd) with hwl
            refine ⟨⟨?_, mbv.2⟩, ?_, mal, ?_, mca, ?_⟩
            · -- BestValid, bid side
              by_cases hgt : cmd.price_ticks > wl.best_bid
              · rw [if_pos hgt]
                exact Or.inr hvp
              · rw [if_neg hgt]
                exact mbv.1
            · -- BidLive
              by_cases hgt : cmd.price_ticks > wl.best_bid
              · rw [if_pos hgt]
                refine Or.inr ?_
                show (((wl.set_best_bid cmd.price_ticks).levels
                  cmd.price_ticks)).orders ≠ []
                rw [hwl]
                simp [PriceLevelsArray.set_best_bid,
                  PriceLevelsArray.setLevel, Function.update_same,
                  LevelFIFO.enqueue]
              · rw [if_neg hgt]
                by_cases hEb : (limitMatch true st cmd).st.bids.best_bid =
                    EMPTY_BID
                · exact Or.inl hEb
                · refine Or.inr ?_
                  show ((wl.levels wl.best_bid)).orders ≠ []
                  have hbb : wl.best_bid =
                      (limitMatch true st cmd).st.bids.best_bid := by
                    rw [hwl]
                    rfl
                  rw [hbb, hwl]
                  simp only [PriceLevelsArray.setLevel]
                  by_cases hpxb : (limitMatch true st cmd).st.bids.best_bid =
                      cmd.price_ticks
                  · rw [show (Function.update
                        (limitMatch true st cmd).st.bids.levels
                        cmd.price_ticks
                        (((limitMatch true st cmd).st.bids.get_level
                          cmd.price_ticks).enqueue nd))
                        (limitMatch true st cmd).st.bids.best_bid =
                        ((limitMatch true st cmd).st.bids.get_level
                          cmd.price_ticks).enqueue nd from by
                      rw [hpxb, Function.update_same]]
                    simp [LevelFIFO.enqueue]
                  · rw [Function.update_noteq hpxb]
                    exact mbl.resolve_left hEb
            · -- NodesClean, bid ladder
              refine NodesClean_of_fields _ wl ?_ ?_
              · by_cases hgt : cmd.price_ticks > wl.best_bid
                · rw [if_pos hgt]
                  rfl
                · rw [if_neg hgt]
                  rfl
              · rw [hwl]
                refine NodesClean_setLevel _ _ _ mcb ?_
                intro n hn
                simp only [LevelFIFO.enqueue, List.mem_append,
                  List.mem_singleton] at hn
                rcases hn with hn | rfl
                · exact mcb cmd.price_ticks n hn
                · exact hstp
            · -- Uncrossed
              intro hb' ha'
              by_cases hgt : cmd.price_ticks > wl.best_bid
              · rw [if_pos hgt] at hb' ⊢
                rcases P1 with h | h | h
                · omega
                · exact absurd h ha'
                · exact h
              · rw [if_neg hgt] at hb' ⊢
                exact mun hb' ha'
          · rw [if_neg hvp] at hout
            simp at hout
    · rw [if_neg hrem] at hout
      simp only [Option.some.injEq, Prod.mk.injEq] at hout
      obtain ⟨h1, h2⟩ := hout
      subst h1
      exact Inv_match_bid st cmd hstp hInv

end Hyperliquid

namespace Hyperliquid

theorem submitLimitSide_inv_ask (st : Book) (cmd : OrderCommand)
    (hstp : cmd.flags &&& STP_FLAG = 0) (hInv : Inv st) :
    ∀ st' res, (submitLimitSide false st cmd).out = some (st', res) →
      Inv st' := by
  intro st' res hout
  simp only [submitLimitSide, Bool.false_eq_true, if_false] at hout
  split at hout
  · -- FOK reject: state unchanged
    simp only [Option.some.injEq, Prod.mk.injEq] at hout
    obtain ⟨h1, h2⟩ := hout
    subst h1
    exact hInv
  · by_cases hrem : cmd.qty - (limitMatch false st cmd).filled > 0
    · rw [if_pos hrem] at hout
      by_cases hioc : cmd.tif = TimeInForce.IOC
      · rw [if_pos hioc] at hout
        simp only [Option.some.injEq, Prod.mk.injEq] at hout
        obtain ⟨h1, h2⟩ := hout
        subst h1
        exact Inv_match_ask st cmd hstp hInv
      · rw [if_neg hioc] at hout
        by_cases hfk : cmd.tif = TimeInForce.FOK
        · rw [if_pos hfk] at hout
          simp only [Option.some.injEq, Prod.mk.injEq] at hout
          obtain ⟨h1, h2⟩ := hout
          subst h1
          exact Inv_match_ask st cmd hstp hInv
        · rw [if_neg hfk] at hout
          by_cases hvp : (limitMatch false st cmd).st.asks.is_valid_price
              cmd.price_ticks = true
          · rw [if_pos hvp] at hout
            simp only [Option.some.injEq, Prod.mk.injEq] at hout
            obtain ⟨h1, h2⟩ := hout
            subst h1
            obtain ⟨mbv, mbl, mal, mcb, mca, mun⟩ :=
              Inv_match_ask st cmd hstp hInv
            obtain ⟨P1, P2, P3, P4, P5, Pa⟩ := limitMatch_no_stp_ask_taker
              st cmd hstp hInv.1 hInv.2.1 hInv.2.2.2.1
            set nd : OrderNode := { id := cmd.order_id, user := cmd.user_id, qty := cmd.qty - (limitMatch false st cmd).filled, ts := cmd.recv_ts, flags := cmd.flags } with hnd
            set wl := (limitMatch false st cmd).st.asks.setLevel cmd.price_ticks (((limitMatch false st cmd).st.asks.get_level cmd.price_ticks).enqueue nd) with hwl
            refine ⟨⟨mbv.1, ?_⟩, mbl, ?_, mcb, ?_, ?_⟩
            · -- BestValid, ask side
              by_cases hgt : cmd.price_ticks < wl.best_ask
              · rw [if_pos hgt]
                exact Or.inr hvp
              · rw [if_neg hgt]
                exact mbv.2
            · -- AskLive
              by_cases hgt : cmd.price_ticks < wl.best_ask
              · rw [if_pos hgt]
                refine Or.inr ?_
                show (((wl.set_best_ask cmd.price_ticks).levels
                  cmd.price_ticks)).orders ≠ []
                rw [hwl]
                simp [PriceLevelsArray.set_best_ask,
                  PriceLevelsArray.setLevel, Function.update_same,
                  LevelFIFO.enqueue]
              · rw [if_neg hgt]
                by_cases hEa : (limitMatch false st cmd).st.asks.best_ask =
                    EMPTY_ASK
                · exact Or.inl hEa
                · refine Or.inr ?_
                  show ((wl.levels wl.best_ask)).orders ≠ []
                  have hbb : wl.best_ask =
                      (limitMatch false st cmd).st.asks.best_ask := by
                    rw [hwl]
                    rfl
                  rw [hbb, hwl]
                  simp only [PriceLevelsArray.setLevel]
                  by_cases hpxb : (limitMatch false st cmd).st.asks.best_ask =
                      cmd.price_ticks
                  · rw [show (Function.update
                        (limitMatch false st cmd).st.asks.levels
                        cmd.price_ticks
                        (((limitMatch false st cmd).st.asks.get_level
                          cmd.price_ticks).enqueue nd))
                        (limitMatch false st cmd).st.asks.best_ask =
                        ((limitMatch false st cmd).st.asks.get_level
                          cmd.price_ticks).enqueue nd from by
                      rw [hpxb, Function.update_same]]
                    simp [LevelFIFO.enqueue]
                  · rw [Function.update_noteq hpxb]
                    exact mal.resolve_left hEa
            · -- NodesClean, ask ladder
              refine NodesClean_of_fields _ wl ?_ ?_
              · by_cases hgt : cmd.price_ticks < wl.best_ask
                · rw [if_pos hgt]
                  rfl
                · rw [if_neg hgt]
                  rfl
              · rw [hwl]
                refine NodesClean_setLevel _ _ _ mca ?_
                intro n hn
                simp only [LevelFIFO.enqueue, List.mem_append,
                  List.mem_singleton] at hn
                rcases hn with hn | rfl
                · exact mca cmd.price_ticks n hn
                · exact hstp
            · -- Uncrossed
              intro hb' ha'
              by_cases hgt : cmd.price_ticks < wl.best_ask
              · rw [if_pos hgt] at ha' ⊢
                rcases P1 with h | h | h
                · omega
                · exact absurd h hb'
                · exact h
              · rw [if_neg hgt] at ha' ⊢
                exact mun hb' ha'
          · rw [if_neg hvp] at hout
            simp at hout
    · rw [if_neg hrem] at hout
      simp only [Option.some.injEq, Prod.mk.injEq] at hout
      obtain ⟨h1, h2⟩ := hout
      subst h1
      exact Inv_match_ask st cmd hstp hInv

end Hyperliquid

namespace Hyperliquid

theorem submitLimit_inv (st : Book) (cmd : OrderCommand)
    (hstp : cmd.flags &&& STP_FLAG = 0) (hInv : Inv st) :
    ∀ st' res, (submitLimit st cmd).out = some (st', res) → Inv st' := by
  intro st' res hout
  by_cases hside : cmd.side = Side.Bid
  · have hun : submitLimit st cmd = submitLimitSide true st cmd := by
      unfold submitLimit
      rw [if_pos hside]
    rw [hun] at hout
    exact submitLimitSide_inv_bid st cmd hstp hInv st' res hout
  · have hun : submitLimit st cmd = submitLimitSide false st cmd := by
      unfold submitLimit
      rw [if_neg hside]
    rw [hun] at hout
    exact submitLimitSide_inv_ask st cmd hstp hInv st' res hout

theorem Inv_market (st : Book) (cmd : OrderCommand)
    (hstp : cmd.flags &&& STP_FLAG = 0) (hInv : Inv st) :
    Inv (submitMarketCore st cmd).st := by
  obtain ⟨hbv, hbl, hal, hcb, hca, hun⟩ := hInv
  simp only [submitMarketCore]
  rw [stp_decide_false cmd hstp]
  by_cases hside : cmd.side = Side.Bid
  · rw [if_pos hside]
    obtain ⟨P1, P2, P3, P4, P5⟩ := matchAgainstSide_no_stp_ask
      EMPTY_ASK cmd.order_id cmd.user_id cmd.recv_ts
      (sideNodeCount st.asks + 1) st cmd.qty (by omega) hbv hal hca
    have Pb := (matchAgainstSide_frame false EMPTY_ASK cmd.order_id
      cmd.user_id cmd.recv_ts false (sideNodeCount st.asks + 1) st
      cmd.qty).2.2.2.2 rfl
    refine ⟨(matchAgainstSide_conservation false EMPTY_ASK cmd.order_id
        cmd.user_id cmd.recv_ts false (sideNodeCount st.asks + 1) st
        cmd.qty hbv).2.2.2,
      BidLive_transfer st _ Pb hbl, P2,
      NodesClean_of_fields _ st.bids (by rw [Pb]) hcb, P3, ?_⟩
    intro hb' ha'
    have hbeq : (matchAgainstSide false st cmd.qty EMPTY_ASK cmd.order_id
        cmd.user_id cmd.recv_ts false
        (sideNodeCount st.asks + 1)).st.bids.best_bid =
        st.bids.best_bid := by rw [Pb]
    rw [hbeq] at hb' ⊢
    by_cases hE : st.asks.best_ask = EMPTY_ASK
    · exact absurd (P4 hE) ha'
    · have h5 := P5.resolve_left ha'
      have h6 := hun hb' hE
      omega
  · rw [if_neg hside]
    obtain ⟨P1, P2, P3, P4, P5⟩ := matchAgainstSide_no_stp_bid
      EMPTY_BID cmd.order_id cmd.user_id cmd.recv_ts
      (sideNodeCount st.bids + 1) st cmd.qty (by omega) hbv hbl hcb
    have Pa := (matchAgainstSide_frame true EMPTY_BID cmd.order_id
      cmd.user_id cmd.recv_ts false (sideNodeCount st.bids + 1) st
      cmd.qty).2.2.2.1 rfl
    refine ⟨(matchAgainstSide_conservation true EMPTY_BID cmd.order_id
        cmd.user_id cmd.recv_ts false (sideNodeCount st.bids + 1) st
        cmd.qty hbv).2.2.2, P2,
      AskLive_transfer st _ Pa hal, P3,
      NodesClean_of_fields _ st.asks (by rw [Pa]) hca, ?_⟩
    intro hb' ha'
    have haeq : (matchAgainstSide true st cmd.qty EMPTY_BID cmd.order_id
        cmd.user_id cmd.recv_ts false
        (sideNodeCount st.bids + 1)).st.asks.best_ask =
        st.asks.best_ask := by rw [Pa]
    rw [haeq] at ha' ⊢
    by_cases hE : st.bids.best_bid = EMPTY_BID
    · exact absurd (P4 hE) hb'
    · have h5 := P5.resolve_left hb'
      have h6 := hun hE ha'
      omega

end Hyperliquid

namespace Hyperliquid

theorem eraseById_orders_subset (l : LevelFIFO) (i : Nat) :
    ∀ n ∈ (l.eraseById i).orders, n ∈ l.orders := by
  intro n hn
  simp only [LevelFIFO.eraseById] at hn
  rcases hfind : l.orders.find? (fun m => m.id = i) with _ | m
  · rw [hfind] at hn
    exact hn
  · rw [hfind] at hn
    exact (List.eraseP_sublist l.orders).mem hn

theorem refresh_bid_empty (st : Book)
    (h : st.bids.best_bid = EMPTY_BID) :
    (refreshBestAfterDepletion st Side.Bid).bids.best_bid = EMPTY_BID := by
  simp only [refreshBestAfterDepletion]
  rw [if_pos h]
  exact h

theorem refresh_ask_empty (st : Book)
    (h : st.asks.best_ask = EMPTY_ASK) :
    (refreshBestAfterDepletion st Side.Ask).asks.best_ask = EMPTY_ASK := by
  simp only [refreshBestAfterDepletion]
  rw [if_pos h]
  exact h

end Hyperliquid

namespace Hyperliquid

theorem cancel_erase_inv_bid (st : Book) (p : Int) (i : Nat)
    (hInv : Inv st) :
    Inv ((if ((st.bids.get_level p).eraseById i).orders.isEmpty then refreshBestAfterDepletion { st with bids := st.bids.setLevel p ((st.bids.get_level p).eraseById i) } Side.Bid else { st with bids := st.bids.setLevel p ((st.bids.get_level p).eraseById i) }).indexErase i) := by
  obtain ⟨hbv, hbl, hal, hcb, hca, hun⟩ := hInv
  set lv := (st.bids.get_level p).eraseById i with hlv
  set st1 : Book := { st with bids := st.bids.setLevel p lv } with hst1
  have hbv1 : BestValid st1 :=
    BestValid_transfer st st1 rfl rfl rfl rfl hbv
  have hclean1 : NodesClean st1.bids := by
    refine NodesClean_setLevel _ _ _ hcb ?_
    intro n hn
    exact hcb p n (eraseById_orders_subset _ i n hn)
  by_cases hemp : lv.orders.isEmpty = true
  · rw [if_pos hemp]
    refine ⟨?_, ?_, ?_, ?_, ?_, ?_⟩
    · -- BestValid
      refine BestValid_transfer _
        (refreshBestAfterDepletion st1 Side.Bid) rfl rfl rfl rfl ?_
      exact BestValid_refresh st1 Side.Bid hbv1
    · -- BidLive
      refine BidLive_transfer _
        (refreshBestAfterDepletion st1 Side.Bid) rfl ?_
      exact BidLive_refresh_bid st1
    · -- AskLive
      refine AskLive_transfer st _ ?_ hal
      show (refreshBestAfterDepletion st1 Side.Bid).asks = st.asks
      rw [refresh_asks_of_bid]
    · -- NodesClean bids
      refine NodesClean_of_fields _ st1.bids ?_ hclean1
      show (refreshBestAfterDepletion st1 Side.Bid).bids.levels =
        st1.bids.levels
      exact refresh_bids_levels st1 Side.Bid
    · -- NodesClean asks
      refine NodesClean_of_fields _ st.asks ?_ hca
      show (refreshBestAfterDepletion st1 Side.Bid).asks.levels =
        st.asks.levels
      rw [refresh_asks_of_bid]
    · -- Uncrossed
      intro hb' ha'
      have hAr : ((refreshBestAfterDepletion st1
          Side.Bid).indexErase i).asks.best_ask = st.asks.best_ask := by
        show (refreshBestAfterDepletion st1 Side.Bid).asks.best_ask =
          st.asks.best_ask
        rw [refresh_asks_of_bid]
      rw [hAr] at ha' ⊢
      by_cases hbE : st.bids.best_bid = EMPTY_BID
      · exact absurd (refresh_bid_empty st1 hbE) hb'
      · have hlt := hun hbE ha'
        rcases refresh_bid_le st1 with hE2 | hle
        · exact absurd hE2 hb'
        · show (refreshBestAfterDepletion st1 Side.Bid).bids.best_bid <
            st.asks.best_ask
          have hsb : st1.bids.best_bid = st.bids.best_bid := rfl
          omega
  · rw [if_neg hemp]
    refine ⟨BestValid_transfer st _ rfl rfl rfl rfl hbv, ?_, hal,
      hclean1, hca, ?_⟩
    · -- BidLive
      by_cases hbE : st.bids.best_bid = EMPTY_BID
      · exact Or.inl hbE
      · refine Or.inr ?_
        show ((st.bids.setLevel p lv).levels st.bids.best_bid).orders ≠ []
        simp only [PriceLevelsArray.setLevel]
        by_cases hq : st.bids.best_bid = p
        · rw [hq, Function.update_same]
          simpa using hemp
        · rw [Function.update_noteq hq]
          exact hbl.resolve_left hbE
    · -- Uncrossed
      intro hb' ha'
      exact hun hb' ha'

end Hyperliquid

namespace Hyperliquid

theorem cancel_erase_inv_ask (st : Book) (p : Int) (i : Nat)
    (hInv : Inv st) :
    Inv ((if ((st.asks.get_level p).eraseById i).orders.isEmpty then refreshBestAfterDepletion { st with asks := st.asks.setLevel p ((st.asks.get_level p).eraseById i) } Side.Ask else { st with asks := st.asks.setLevel p ((st.asks.get_level p).eraseById i) }).indexErase i) := by
  obtain ⟨hbv, hbl, hal, hcb, hca, hun⟩ := hInv
  set lv := (st.asks.get_level p).eraseById i with hlv
  set st1 : Book := { st with asks := st.asks.setLevel p lv } with hst1
  have hbv1 : BestValid st1 :=
    BestValid_transfer st st1 rfl rfl rfl rfl hbv
  have hclean1 : NodesClean st1.asks := by
    refine NodesClean_setLevel _ _ _ hca ?_
    intro n hn
    exact hca p n (eraseById_orders_subset _ i n hn)
  by_cases hemp : lv.orders.isEmpty = true
  · rw [if_pos hemp]
    refine ⟨?_, ?_, ?_, ?_, ?_, ?_⟩
    · refine BestValid_transfer _
        (refreshBestAfterDepletion st1 Side.Ask) rfl rfl rfl rfl ?_
      exact BestValid_refresh st1 Side.Ask hbv1
    · refine BidLive_transfer st _ ?_ hbl
      show (refreshBestAfterDepletion st1 Side.Ask).bids = st.bids
      rw [refresh_bids_of_ask]
    · refine AskLive_transfer _
        (refreshBestAfterDepletion st1 Side.Ask) rfl ?_
      exact AskLive_refresh_ask st1
    · refine NodesClean_of_fields _ st.bids ?_ hcb
      show (refreshBestAfterDepletion st1 Side.Ask).bids.levels =
        st.bids.levels
      rw [refresh_bids_of_ask]
    · refine NodesClean_of_fields _ st1.asks ?_ hclean1
      show (refreshBestAfterDepletion st1 Side.Ask).asks.levels =
        st1.asks.levels
      exact refresh_asks_levels st1 Side.Ask
    · intro hb' ha'
      have hBr : ((refreshBestAfterDepletion st1
          Side.Ask).indexErase i).bids.best_bid = st.bids.best_bid := by
        show (refreshBestAfterDepletion st1 Side.Ask).bids.best_bid =
          st.bids.best_bid
        rw [refresh_bids_of_ask]
      rw [hBr] at hb' ⊢
      by_cases haE : st.asks.best_ask = EMPTY_ASK
      · exact absurd (refresh_ask_empty st1 haE) ha'
      · have hlt := hun hb' haE
        rcases refresh_ask_ge st1 with hE2 | hge
        · exact absurd hE2 ha'
        · show st.bids.best_bid <
            (refreshBestAfterDepletion st1 Side.Ask).asks.best_ask
          have hsb : st1.asks.best_ask = st.asks.best_ask := rfl
          omega
  · rw [if_neg hemp]
    refine ⟨BestValid_transfer st _ rfl rfl rfl rfl hbv, hbl, ?_,
      hcb, hclean1, ?_⟩
    · by_cases haE : st.asks.best_ask = EMPTY_ASK
      · exact Or.inl haE
      · refine Or.inr ?_
        show ((st.asks.setLevel p lv).levels st.asks.best_ask).orders ≠ []
        simp only [PriceLevelsArray.setLevel]
        by_cases hq : st.asks.best_ask = p
        · rw [hq, Function.update_same]
          simpa using hemp
        · rw [Function.update_noteq hq]
          exact hal.resolve_left haE
    · intro hb' ha'
      exact hun hb' ha'

theorem cancelCore_inv (st : Book) (i : Nat) (hInv : Inv st) :
    ∀ st1, (cancelCore st i).st = some st1 → Inv st1 := by
  intro st1 hout
  rcases hidx : st.id_index i with _ | entry
  · simp only [cancelCore, hidx] at hout
    simp only [Option.some.injEq] at hout
    subst hout
    exact hInv
  · simp only [cancelCore, hidx] at hout
    cases hs : entry.side with
    | Bid =>
        rw [hs] at hout
        simp only [eq_self_iff_true, if_true] at hout
        rcases hfind : (st.bids.get_level entry.price).orders.find?
            (fun m => m.id = i) with _ | n
        · rw [hfind] at hout
          simp at hout
        · rw [hfind] at hout
          dsimp only at hout
          simp only [Option.some.injEq] at hout
          subst hout
          exact cancel_erase_inv_bid st entry.price i hInv
    | Ask =>
        rw [hs] at hout
        simp only [reduceCtorEq, if_false] at hout
        rcases hfind : (st.asks.get_level entry.price).orders.find?
            (fun m => m.id = i) with _ | n
        · rw [hfind] at hout
          simp at hout
        · rw [hfind] at hout
          dsimp only at hout
          simp only [Option.some.injEq] at hout
          subst hout
          exact cancel_erase_inv_ask st entry.price i hInv

end Hyperliquid

namespace Hyperliquid

theorem reduceQtyById_flags (l : LevelFIFO) (i : Nat) (d : Int)
    (hcl : ∀ n ∈ l.orders, n.flags &&& STP_FLAG = 0) :
    ∀ n ∈ (l.reduceQtyById i d).orders, n.flags &&& STP_FLAG = 0 := by
  intro n hn
  simp only [LevelFIFO.reduceQtyById, List.mem_map] at hn
  obtain ⟨m, hm, rfl⟩ := hn
  have := hcl m hm
  split <;> simpa using this

theorem reduceQtyById_orders_ne (l : LevelFIFO) (i : Nat) (d : Int)
    (h : l.orders ≠ []) : (l.reduceQtyById i d).orders ≠ [] := by
  simp only [LevelFIFO.reduceQtyById]
  simpa using h

theorem modify_shrink_inv_bid (st : Book) (p : Int) (i : Nat) (d : Int)
    (hInv : Inv st) :
    Inv { st with bids := st.bids.setLevel p ((st.bids.get_level p).reduceQtyById i d) } := by
  obtain ⟨hbv, hbl, hal, hcb, hca, hun⟩ := hInv
  refine ⟨BestValid_transfer st _ rfl rfl rfl rfl hbv, ?_, hal, ?_, hca,
    fun hb' ha' => hun hb' ha'⟩
  · by_cases hbE : st.bids.best_bid = EMPTY_BID
    · exact Or.inl hbE
    · refine Or.inr ?_
      show ((st.bids.setLevel p
        ((st.bids.get_level p).reduceQtyById i d)).levels
          st.bids.best_bid).orders ≠ []
      simp only [PriceLevelsArray.setLevel]
      by_cases hq : st.bids.best_bid = p
      · rw [hq, Function.update_same]
        refine reduceQtyById_orders_ne _ _ _ ?_
        rw [← hq]
        exact hbl.resolve_left hbE
      · rw [Function.update_noteq hq]
        exact hbl.resolve_left hbE
  · exact NodesClean_setLevel _ _ _ hcb
      (reduceQtyById_flags _ _ _ (fun n hn => hcb p n hn))

theorem modify_shrink_inv_ask (st : Book) (p : Int) (i : Nat) (d : Int)
    (hInv : Inv st) :
    Inv { st with asks := st.asks.setLevel p ((st.asks.get_level p).reduceQtyById i d) } := by
  obtain ⟨hbv, hbl, hal, hcb, hca, hun⟩ := hInv
  refine ⟨BestValid_transfer st _ rfl rfl rfl rfl hbv, hbl, ?_, hcb, ?_,
    fun hb' ha' => hun hb' ha'⟩
  · by_cases haE : st.asks.best_ask = EMPTY_ASK
    · exact Or.inl haE
    · refine Or.inr ?_
      show ((st.asks.setLevel p
        ((st.asks.get_level p).reduceQtyById i d)).levels
          st.asks.best_ask).orders ≠ []
      simp only [PriceLevelsArray.setLevel]
      by_cases hq : st.asks.best_ask = p
      · rw [hq, Function.update_same]
        refine reduceQtyById_orders_ne _ _ _ ?_
        rw [← hq]
        exact hal.resolve_left haE
      · rw [Function.update_noteq hq]
        exact hal.resolve_left haE
  · exact NodesClean_setLevel _ _ _ hca
      (reduceQtyById_flags _ _ _ (fun n hn => hca p n hn))

end Hyperliquid

namespace Hyperliquid

theorem modifyStep_inv (st : Book) (oracle : List Nat) (i : Nat)
    (newPrice : Int) (newQty : Int) (hInv : Inv st) :
    ∀ st', (modifyStep st oracle i newPrice newQty).1.next = some st' →
      Inv st' := by
  intro st' hout
  rcases hidx : st.id_index i with _ | entry
  · simp only [modifyStep, hidx] at hout
    simp only [Option.some.injEq] at hout
    subst hout
    exact hInv
  · simp only [modifyStep, hidx] at hout
    cases hs : entry.side with
    | Bid =>
        rw [hs] at hout
        simp only [eq_self_iff_true, if_true] at hout
        rcases hfind : (st.bids.get_level entry.price).orders.find?
            (fun m => m.id = i) with _ | n
        · rw [hfind] at hout
          simp at hout
        · rw [hfind] at hout
          dsimp only at hout
          have hnfl : n.flags &&& STP_FLAG = 0 :=
            hInv.2.2.2.1 entry.price n (List.mem_of_find?_eq_some hfind)
          by_cases hshr : newPrice = entry.price ∧ newQty < n.qty
          · rw [if_pos hshr] at hout
            rcases htn : takeNow oracle with ⟨now0, o0⟩
            rw [htn] at hout
            dsimp only at hout
            simp only [Option.some.injEq] at hout
            subst hout
            exact modify_shrink_inv_bid st entry.price i (n.qty - newQty)
              hInv
          · rw [if_neg hshr] at hout
            rcases htn : takeNow oracle with ⟨now0, o0⟩
            rw [htn] at hout
            dsimp only at hout
            by_cases hfound : (cancelCore st i).found = true
            · rw [if_pos hfound] at hout
              rcases hcs : (cancelCore st i).st with _ | st1
              · rw [hcs] at hout
                simp at hout
              · rw [hcs] at hout
                dsimp only at hout
                rcases htn1 : takeNow o0 with ⟨now1, o1⟩
                rw [htn1] at hout
                dsimp only at hout
                simp only [resubmitStep] at hout
                rcases hso : (submitLimit st1
                    { type := CommandType.NewOrder, recv_ts := now0,
                      order_id := i, user_id := n.user,
                      price_ticks := newPrice, qty := newQty,
                      side := Side.Bid, order_type := OrderType.Limit,
                      tif := TimeInForce.GTC,
                      flags := n.flags }).out with _ | p2
                · rw [hso] at hout
                  simp at hout
                · obtain ⟨st2, res2⟩ := p2
                  rw [hso] at hout
                  dsimp only at hout
                  simp only [Option.some.injEq] at hout
                  subst hout
                  exact submitLimit_inv st1 _ hnfl
                    (cancelCore_inv st i hInv st1 hcs) st2 res2 hso
            · rw [if_neg hfound] at hout
              dsimp only at hout
              simp only [Option.some.injEq] at hout
              subst hout
              exact hInv
    | Ask =>
        rw [hs] at hout
        simp only [reduceCtorEq, if_false] at hout
        rcases hfind : (st.asks.get_level entry.price).orders.find?
            (fun m => m.id = i) with _ | n
        · rw [hfind] at hout
          simp at hout
        · rw [hfind] at hout
          dsimp only at hout
          have hnfl : n.flags &&& STP_FLAG = 0 :=
            hInv.2.2.2.2.1 entry.price n (List.mem_of_find?_eq_some hfind)
          by_cases hshr : newPrice = entry.price ∧ newQty < n.qty
          · rw [if_pos hshr] at hout
            rcases htn : takeNow oracle with ⟨now0, o0⟩
            rw [htn] at hout
            dsimp only at hout
            simp only [Option.some.injEq] at hout
            subst hout
            exact modify_shrink_inv_ask st entry.price i (n.qty - newQty)
              hInv
          · rw [if_neg hshr] at hout
            rcases htn : takeNow oracle with ⟨now0, o0⟩
            rw [htn] at hout
            dsimp only at hout
            by_cases hfound : (cancelCore st i).found = true
            · rw [if_pos hfound] at hout
              rcases hcs : (cancelCore st i).st with _ | st1
              · rw [hcs] at hout
                simp at hout
              · rw [hcs] at hout
                dsimp only at hout
                rcases htn1 : takeNow o0 with ⟨now1, o1⟩
                rw [htn1] at hout
                dsimp only at hout
                simp only [resubmitStep] at hout
                rcases hso : (submitLimit st1
                    { type := CommandType.NewOrder, recv_ts := now0,
                      order_id := i, user_id := n.user,
                      price_ticks := newPrice, qty := newQty,
                      side := Side.Ask, order_type := OrderType.Limit,
                      tif := TimeInForce.GTC,
                      flags := n.flags }).out with _ | p2
                · rw [hso] at hout
                  simp at hout
                · obtain ⟨st2, res2⟩ := p2
                  rw [hso] at hout
                  dsimp only at hout
                  simp only [Option.some.injEq] at hout
                  subst hout
                  exact submitLimit_inv st1 _ hnfl
                    (cancelCore_inv st i hInv st1 hcs) st2 res2 hso
            · rw [if_neg hfound] at hout
              dsimp only at hout
              simp only [Option.some.injEq] at hout
              subst hout
              exact hInv

end Hyperliquid

namespace Hyperliquid

theorem applyCmd_inv (st : Book) (oracle : List Nat) (cmd : OrderCommand)
    (hstp : cmd.flags &&& STP_FLAG = 0) (hInv : Inv st) :
    ∀ st', (applyCmd st oracle cmd).1.next = some st' → Inv st' := by
  intro st' hnext
  cases hct : cmd.type with
  | NewOrder =>
      simp only [applyCmd, hct] at hnext
      by_cases hot : cmd.order_type = OrderType.Limit
      · rw [if_pos hot] at hnext
        rcases hso : (submitLimit st cmd).out with _ | p1
        · rw [hso] at hnext
          simp at hnext
        · obtain ⟨st1, res⟩ := p1
          rw [hso] at hnext
          dsimp only at hnext
          simp only [Option.some.injEq] at hnext
          subst hnext
          exact submitLimit_inv st cmd hstp hInv st1 res hso
      · rw [if_neg hot] at hnext
        rcases htn : takeNow oracle with ⟨now, o1⟩
        rw [htn] at hnext
        dsimp only at hnext
        simp only [Option.some.injEq] at hnext
        subst hnext
        exact Inv_market st cmd hstp hInv
  | CancelOrder =>
      simp only [applyCmd, hct] at hnext
      by_cases hfound : (cancelCore st cmd.order_id).found = true
      · rw [if_pos hfound] at hnext
        rcases hcs : (cancelCore st cmd.order_id).st with _ | st1
        · rw [hcs] at hnext
          simp at hnext
        · rw [hcs] at hnext
          dsimp only at hnext
          simp only [Option.some.injEq] at hnext
          subst hnext
          exact cancelCore_inv st cmd.order_id hInv st1 hcs
      · rw [if_neg hfound] at hnext
        dsimp only at hnext
        simp only [Option.some.injEq] at hnext
        subst hnext
        exact hInv
  | ModifyOrder =>
      simp only [applyCmd, hct] at hnext
      exact modifyStep_inv st oracle cmd.order_id cmd.price_ticks cmd.qty
        hInv st' hnext

theorem run_inv (cmds : List OrderCommand) :
    ∀ (st : Book) (oracle : List Nat),
      (∀ c ∈ cmds, noStpFlag c) → Inv st →
      ∀ st', (run st oracle cmds).final = some st' → Inv st' := by
  induction cmds with
  | nil =>
      intro st oracle h hInv st' hf
      simp only [run, Option.some.injEq] at hf
      subst hf
      exact hInv
  | cons c cs ih =>
      intro st oracle h hInv st' hf
      simp only [run] at hf
      rcases hnx : (applyCmd st oracle c).1.next with _ | st1
      · rw [hnx] at hf
        simp at hf
      · rw [hnx] at hf
        dsimp only at hf
        exact ih st1 (applyCmd st oracle c).2
          (fun d hd => h d (by simp [hd]))
          (applyCmd_inv st oracle c (h c (by simp)) hInv st1 hnx) st' hf

/-- C3 (amended): as long as no command carries the self-trade-prevention
flag, the cached top of book stays uncrossed after every completed
command sequence on a fresh book: whenever neither cached best is its
sentinel, `best_bid < best_ask`.  (The unamended claim is false: an STP
skip can leave the incoming order resting at a price that crosses the
maker it refused to trade with — the spec's own scenario 8 rests
`best_bid = best_ask = 150`.) -/
theorem C3_uncrossed_amended (sym : Nat) (band : PriceBand)
    (oracle : List Nat) (cmds : List OrderCommand)
    (h : ∀ c ∈ cmds, noStpFlag c) :
    ∀ st', (run (Book.init sym band) oracle cmds).final = some st' →
      Uncrossed st' :=
  fun st' hf =>
    (run_inv cmds (Book.init sym band) oracle h (Inv_init sym band)
      st' hf).2.2.2.2.2

/-- Witness for C3 (amended): a resting bid at 150 and a resting ask at
160 leave `best_bid = 150 < 160 = best_ask`. -/
theorem C3_uncrossed_amended_witness :
    ∃ st', (run (Book.init 1 testBand) testOracle
        [newLimitCmd 1 100 150 10 Side.Bid,
         newLimitCmd 2 101 160 7 Side.Ask]).final = some st' ∧
      Uncrossed st' := by
  cases hf : (run (Book.init 1 testBand) testOracle
      [newLimitCmd 1 100 150 10 Side.Bid,
       newLimitCmd 2 101 160 7 Side.Ask]).final with
  | none =>
      have hs : ((run (Book.init 1 testBand) testOracle
          [newLimitCmd 1 100 150 10 Side.Bid,
           newLimitCmd 2 101 160 7 Side.Ask]).final).isSome = true := by
        decide
      rw [hf] at hs
      simp at hs
  | some st' =>
      refine ⟨st', rfl, C3_uncrossed_amended 1 testBand testOracle
        [newLimitCmd 1 100 150 10 Side.Bid,
         newLimitCmd 2 101 160 7 Side.Ask] ?_ st' hf⟩
      intro c hc
      simp only [List.mem_cons, List.not_mem_nil, or_false] at hc
      rcases hc with rfl | rfl <;> exact rfl

end Hyperliquid
